import Mathlib

/-!
Verification of the regen-compute-credits payment-and-retirement orchestrator.

This file contains a shallow embedding, in Lean 4, of the parts of the
TypeScript source that the verified properties are about:

* `src/services/batch-retirement/attribution.ts` — proportional allocation
  and contributor attribution (`Attribution` namespace);
* `src/services/retirement.ts` (order selector for budgets and the
  retirement orchestration) — `OrderSelector` and `Retirement` namespaces;
* `src/server/routes.ts` + `src/server/db.ts` — the Stripe webhook handler
  and the prepaid-balance store (`WebhookServer` namespace);
* `src/services/subscription/stripe.ts` and
  `src/services/subscription/pool-sync.ts` — paginated invoice ingestion
  (`SubscriptionSync` namespace);
* `src/services/auth/service.ts` — recovery tokens (`AuthService` namespace);
* `src/services/identity.ts` — identity encoding into retirement reasons
  (`Identity` namespace).

JavaScript `bigint` values are modelled as `Int` with truncated division
(`Int.tdiv` / `Int.tmod`, which is exactly the semantics of `/` and `%` on
JS bigints).  JS `number` values that are used as integers are modelled as
`Int`.  Fallible code (`throw`) is modelled with `Except String` or
`Option`.  Strings are Lean `String`s; the handful of JS string primitives
the source uses (`split`, `padStart`, `padEnd`, `BigInt(..)`,
`toString()`) are embedded below in the `JsStr` namespace.
-/

namespace JsStr

/-- The decimal digit character for `n` (used with `n < 10`). -/
def digitChar (n : Nat) : Char :=
  Char.ofNat (48 + n)

/-- Numeric value of a decimal digit character. -/
def digitToNat (c : Char) : Nat :=
  c.toNat - 48

/-- Decimal digits, fuel-based recursion (structural, so that the kernel
can evaluate it inside `decide`/`rfl` proofs).  Any fuel above the number
of digits gives the same answer (`natToDigitListFuel_congr` below). -/
def natToDigitListFuel : Nat → Nat → List Char
  | 0, _ => []
  | fuel + 1, n =>
      if n < 10 then [digitChar n]
      else natToDigitListFuel fuel (n / 10) ++ [digitChar (n % 10)]

/-- Decimal digit list of a natural number, most significant first.
This is the character sequence produced by JS `BigInt.prototype.toString`
(and `Number.prototype.toString`) for non-negative integral values. -/
def natToDigitList (n : Nat) : List Char :=
  natToDigitListFuel (n + 1) n

/-- Value of a list of decimal digit characters (most significant first). -/
def natOfDigitList (l : List Char) : Nat :=
  l.foldl (fun a c => a * 10 + digitToNat c) 0

/-- `BigInt.prototype.toString` for a (possibly negative) bigint. -/
def jsBigIntToString (i : Int) : String :=
  if i < 0 then String.mk ( '-' :: natToDigitList (-i).toNat)
  else String.mk (natToDigitList i.toNat)

/-- `BigInt(s)` on a string: we model the decimal forms that occur in this
code base: an optional minus sign followed by decimal digits, or the empty
string (which JS converts to `0n`).  Other inputs throw in JS and are
modelled as `none`. -/
def jsBigIntOfString? (s : String) : Option Int :=
  match s.data with
  | [] => some 0
  | c :: rest =>
      if c = '-' then
        if rest ≠ [] ∧ rest.all Char.isDigit then some (-(natOfDigitList rest : Int))
        else none
      else if (c :: rest).all Char.isDigit then some ((natOfDigitList (c :: rest) : Nat) : Int)
      else none

/-- `String.prototype.split(sep)` for a single-character separator, on the
character list of the string. -/
def splitOnChar (sep : Char) (l : List Char) : List (List Char) :=
  l.foldr
    (fun c acc =>
      if c = sep then [] :: acc
      else
        match acc with
        | [] => [[c]]
        | h :: t => (c :: h) :: t)
    [[]]

/-- `s.padStart(6, "0")` on a character list. -/
def padStart6 (l : List Char) : List Char :=
  List.replicate (6 - l.length) '0' ++ l

/-- `s.padEnd(6, "0").slice(0, 6)` on a character list. -/
def padEnd6Take6 (l : List Char) : List Char :=
  (l ++ List.replicate (6 - l.length) '0').take 6

end JsStr

namespace Attribution

/-- `MICRO_FACTOR` from `attribution.ts`. -/
def MICRO_FACTOR : Int := 1000000

/-- `parseQuantityToMicro` from `attribution.ts`:
`quantity.split(".")`, parse the whole part (defaulting `""` to `"0"`),
pad/truncate the fractional part to six digits, combine.
`BigInt(...)` throws on malformed input, hence the `Option`. -/
def parseQuantityToMicro (quantity : String) : Option Int := do
  let parts := JsStr.splitOnChar '.' quantity.data
  let wholePart : List Char := parts.getD 0 []
  let fracPart : List Char := parts.getD 1 []
  let whole ← JsStr.jsBigIntOfString?
    (String.mk (if wholePart = [] then [ '0' ] else wholePart))
  let fracPadded := JsStr.padEnd6Take6 fracPart
  let frac ← JsStr.jsBigIntOfString?
    (String.mk (if fracPadded = [] then [ '0' ] else fracPadded))
  pure (whole * MICRO_FACTOR + frac)

/-- `microToQuantity` from `attribution.ts`:
`` `${micro / 1e6}.${(micro % 1e6).toString().padStart(6, "0")}` ``. -/
def microToQuantity (micro : Int) : String :=
  String.mk
    ((JsStr.jsBigIntToString (micro.tdiv MICRO_FACTOR)).data ++
      '.' :: JsStr.padStart6 (JsStr.jsBigIntToString (micro.tmod MICRO_FACTOR)).data)

/-- `Number.MAX_SAFE_INTEGER`. -/
def MAX_SAFE_INTEGER : Int := 9007199254740991

/-- `assertSafeInteger` from `attribution.ts`: passes the value through,
throwing when it exceeds the JS safe-integer range. -/
def assertSafeInteger (value : Int) (label : String) : Except String Int :=
  if value > MAX_SAFE_INTEGER then Except.error (label ++ " exceeds JS safe integer range")
  else Except.ok value

/-- One element of the `entries` array built inside `allocateProportionally`. -/
structure AllocEntry where
  index : Nat
  weight : Int
  base : Int
  remainder : Int
  deriving Repr, DecidableEq

/-- The comparator passed to `entries.sort` in `allocateProportionally`,
phrased as a boolean "a sorts no later than b" predicate (the JS comparator
returns a negative number or 0 exactly when this is true; since distinct
entries always have distinct `index`, the comparator induces this total
order and the sort result is independent of the sorting algorithm). -/
def allocLe (a b : AllocEntry) : Bool :=
  if a.remainder > b.remainder then true
  else if a.remainder < b.remainder then false
  else if a.weight > b.weight then true
  else if a.weight < b.weight then false
  else a.index ≤ b.index

/-- The distribution loop
`for (i = 0; i < entries.length && remainderUnits > 0; i++) entries[i].base += 1`. -/
def bumpFirst : Nat → List AllocEntry → List AllocEntry
  | _, [] => []
  | 0, l => l
  | n + 1, e :: rest => { e with base := e.base + 1 } :: bumpFirst n rest

/-- The write-back loop `for (item of entries) result[item.index] = item.base`
starting from `new Array(n).fill(0n)`. -/
def scatter (n : Nat) (entries : List AllocEntry) : List Int :=
  entries.foldl (fun acc e => acc.set e.index e.base) (List.replicate n 0)

/-- The `entries` array built inside `allocateProportionally`
(`weights.map((weight, index) => { raw = total * weight; ... })` — the JS
`map` callback receives the element index, modelled here with `enum`).
`sumWeights` is passed in as `s`. -/
def allocEntries (total s : Int) (weights : List Int) : List AllocEntry :=
  weights.enum.map fun p =>
    let raw := total * p.2
    AllocEntry.mk p.1 p.2 (raw.tdiv s) (raw.tmod s)

/-- The result array computed on the main path of `allocateProportionally`:
sort the entries, distribute the remainder units, write back by index.
`entries.sort(cmp)` is the JS engine's stable sort; `allocLe` is a total
order (distinct entries always differ in `index`), so every sorting
algorithm produces the same list; we use insertion sort, which is
structurally recursive and therefore computable by `decide`. -/
def allocResult (total : Int) (weights : List Int) : List Int :=
  let sumWeights := weights.sum
  let entries := allocEntries total sumWeights weights
  let allocated := (entries.map AllocEntry.base).sum
  let remainderUnits := total - allocated
  let sorted := entries.insertionSort fun a b => allocLe a b
  let distributed := bumpFirst remainderUnits.toNat sorted
  scatter weights.length distributed

/-- `allocateProportionally` from `attribution.ts`.  JS bigint division and
remainder truncate toward zero (`Int.tdiv`/`Int.tmod`).  The final
re-summation check (`throw new Error("Proportional allocation mismatch")`)
is modelled by the `Except.error` branch. -/
def allocateProportionally (total : Int) (weights : List Int) :
    Except String (List Int) :=
  if total ≤ 0 ∨ weights.length = 0 then Except.ok (weights.map fun _ => 0)
  else if weights.sum ≤ 0 then Except.ok (weights.map fun _ => 0)
  else if (allocResult total weights).sum ≠ total then
    Except.error ("Proportional allocation mismatch")
  else Except.ok (allocResult total weights)

/-- `MonthlyContributorAggregate` (the fields used by attribution). -/
structure MonthlyContributorAggregate where
  userId : String
  email : Option String
  customerId : Option String
  totalUsdCents : Int
  deriving Repr, DecidableEq

/-- `ContributorAttribution` from `batch-retirement/types.ts`.
`attributedCostMicro` and `attributedQuantity` are decimal strings, as in
the source. -/
structure ContributorAttribution where
  userId : String
  email : Option String
  customerId : Option String
  sharePpm : Int
  contributionUsdCents : Int
  attributedBudgetUsdCents : Int
  attributedCostMicro : String
  attributedQuantity : String
  paymentDenom : String
  deriving Repr, DecidableEq

/-- `BuildAttributionsInput` from `attribution.ts`. -/
structure BuildAttributionsInput where
  contributors : List MonthlyContributorAggregate
  totalContributionUsdCents : Int
  appliedBudgetUsdCents : Int
  totalCostMicro : Int
  retiredQuantity : String
  paymentDenom : String

/-- `buildContributorAttributions` from `attribution.ts`.  The `bigint`
conversions, `assertSafeInteger`, and `allocateProportionally` can throw,
hence `Except`.  `budgetAllocations[index] || 0n` is `getD index 0`
(`0n` is falsy, so the two agree also when the element is `0n`). -/
def buildContributorAttributions (input : BuildAttributionsInput) :
    Except String (List ContributorAttribution) :=
  if input.contributors.length = 0 then Except.ok []
  else if input.totalContributionUsdCents ≤ 0 then Except.ok []
  else
    let weights := input.contributors.map MonthlyContributorAggregate.totalUsdCents
    let sumWeights := weights.sum
    if sumWeights ≤ 0 then Except.ok []
    else do
      let quantityMicroTotal ←
        match parseQuantityToMicro input.retiredQuantity with
        | some v => Except.ok v
        | none => Except.error ("Cannot convert retiredQuantity to a BigInt")
      let budgetAllocations ← allocateProportionally input.appliedBudgetUsdCents weights
      let costAllocations ← allocateProportionally input.totalCostMicro weights
      let quantityAllocations ← allocateProportionally quantityMicroTotal weights
      input.contributors.enum.mapM fun p => do
        let index := p.1
        let contributor := p.2
        let weight := weights.getD index 0
        let sharePpm ←
          if sumWeights > 0 then
            assertSafeInteger ((weight * 1000000).tdiv sumWeights) ("sharePpm")
          else Except.ok 0
        let budget ←
          assertSafeInteger (budgetAllocations.getD index 0)
            ("attributedBudgetUsdCents")
        Except.ok
          { userId := contributor.userId
            email := contributor.email
            customerId := contributor.customerId
            sharePpm := sharePpm
            contributionUsdCents := contributor.totalUsdCents
            attributedBudgetUsdCents := budget
            attributedCostMicro := JsStr.jsBigIntToString (costAllocations.getD index 0)
            attributedQuantity := microToQuantity (quantityAllocations.getD index 0)
            paymentDenom := input.paymentDenom }

end Attribution

/-! ### Lemmas about the embedded JS string primitives -/

namespace JsStr

theorem digitChar_toNat {n : Nat} (h : n < 10) : (digitChar n).toNat = 48 + n := by
  interval_cases n <;> decide

theorem digitChar_isDigit {n : Nat} (h : n < 10) : (digitChar n).isDigit = true := by
  interval_cases n <;> decide

theorem digitToNat_digitChar {n : Nat} (h : n < 10) : digitToNat (digitChar n) = n := by
  interval_cases n <;> decide

theorem natToDigitListFuel_congr :
    ∀ (f1 f2 n : Nat), n < f1 → n < f2 →
      natToDigitListFuel f1 n = natToDigitListFuel f2 n := by
  intro f1
  induction f1 with
  | zero => intro f2 n h1; omega
  | succ f ih =>
      intro f2 n h1 h2
      cases f2 with
      | zero => omega
      | succ f' =>
          rw [natToDigitListFuel, natToDigitListFuel]
          by_cases hn : n < 10
          · rw [if_pos hn, if_pos hn]
          · rw [if_neg hn, if_neg hn]
            have hd : n / 10 < n := Nat.div_lt_self (by omega) (by omega)
            rw [ih f' (n / 10) (by omega) (by omega)]

theorem natToDigitList_eq (n : Nat) :
    natToDigitList n =
      if n < 10 then [digitChar n]
      else natToDigitList (n / 10) ++ [digitChar (n % 10)] := by
  rw [natToDigitList, natToDigitListFuel]
  by_cases hn : n < 10
  · rw [if_pos hn, if_pos hn]
  · rw [if_neg hn, if_neg hn, natToDigitList]
    have hd : n / 10 < n := Nat.div_lt_self (by omega) (by omega)
    rw [natToDigitListFuel_congr n (n / 10 + 1) (n / 10) (by omega) (by omega)]

theorem natToDigitList_ne_nil (n : Nat) : natToDigitList n ≠ [] := by
  rw [natToDigitList_eq]
  split <;> simp

theorem natToDigitList_all_isDigit (n : Nat) :
    ∀ c ∈ natToDigitList n, c.isDigit = true := by
  induction n using Nat.strong_induction_on with
  | _ n ih =>
      rw [natToDigitList_eq]
      by_cases h : n < 10
      · rw [if_pos h]
        intro c hc
        simp only [List.mem_singleton] at hc
        exact hc ▸ digitChar_isDigit h
      · rw [if_neg h]
        intro c hc
        rcases List.mem_append.mp hc with h1 | h1
        · exact ih (n / 10) (Nat.div_lt_self (by omega) (by omega)) c h1
        · simp only [List.mem_singleton] at h1
          exact h1 ▸ digitChar_isDigit (Nat.mod_lt _ (by omega))

theorem natOfDigitList_append_singleton (l : List Char) (c : Char) :
    natOfDigitList (l ++ [c]) = 10 * natOfDigitList l + digitToNat c := by
  simp [natOfDigitList, List.foldl_append, Nat.mul_comm]

theorem natOfDigitList_natToDigitList (n : Nat) :
    natOfDigitList (natToDigitList n) = n := by
  induction n using Nat.strong_induction_on with
  | _ n ih =>
      rw [natToDigitList_eq]
      by_cases h : n < 10
      · rw [if_pos h]
        simp [natOfDigitList, digitToNat_digitChar h]
      · rw [if_neg h, natOfDigitList_append_singleton,
          ih (n / 10) (Nat.div_lt_self (by omega) (by omega)),
          digitToNat_digitChar (Nat.mod_lt _ (by omega))]
        omega

theorem natToDigitList_length_le {n k : Nat} (hk : 1 ≤ k) (h : n < 10 ^ k) :
    (natToDigitList n).length ≤ k := by
  induction k generalizing n with
  | zero => omega
  | succ k ih =>
      by_cases hn : n < 10
      · rw [natToDigitList_eq, if_pos hn]
        simp
      · rw [natToDigitList_eq, if_neg hn]
        have hk1 : 1 ≤ k := by
          by_contra hc
          have : k = 0 := by omega
          subst this
          simp [pow_succ, pow_zero] at h
          omega
        have hdiv : n / 10 < 10 ^ k := by
          have : n < 10 ^ k * 10 := by
            calc n < 10 ^ (k + 1) := h
            _ = 10 ^ k * 10 := by ring
          omega
        have := ih hk1 hdiv
        simp only [List.length_append, List.length_singleton]
        omega

theorem natOfDigitList_replicate_zero (k : Nat) (l : List Char) :
    natOfDigitList (List.replicate k '0' ++ l) = natOfDigitList l := by
  induction k with
  | zero => simp
  | succ k ih =>
      have : List.replicate (k + 1) '0' ++ l = '0' :: (List.replicate k '0' ++ l) := by
        simp [List.replicate_succ]
      rw [this]
      simpa [natOfDigitList] using ih

theorem isDigit_ne_dash {c : Char} (h : c.isDigit = true) : c ≠ '-' := by
  intro hc
  subst hc
  simp [Char.isDigit] at h

theorem isDigit_ne_dot {c : Char} (h : c.isDigit = true) : c ≠ '.' := by
  intro hc
  subst hc
  simp [Char.isDigit] at h

theorem jsBigIntOfString_zeros_digits (k n : Nat) :
    jsBigIntOfString? (String.mk (List.replicate k '0' ++ natToDigitList n)) =
      some (n : Int) := by
  have hne : List.replicate k '0' ++ natToDigitList n ≠ [] := by
    simp [natToDigitList_ne_nil n]
  obtain ⟨c, cs, hcons⟩ := List.exists_cons_of_ne_nil hne
  have hall : (List.replicate k '0' ++ natToDigitList n).all Char.isDigit = true := by
    rw [List.all_eq_true]
    intro c hc
    rcases List.mem_append.mp hc with h1 | h1
    · rw [List.eq_of_mem_replicate h1]
      decide
    · exact natToDigitList_all_isDigit n c h1
  have hcd : c.isDigit = true := by
    have : c ∈ List.replicate k '0' ++ natToDigitList n := by
      rw [hcons]; exact List.mem_cons_self _ _
    exact (List.all_eq_true.mp hall) c this
  rw [show (String.mk (List.replicate k '0' ++ natToDigitList n)) =
      String.mk (c :: cs) by rw [hcons]]
  show jsBigIntOfString? (String.mk (c :: cs)) = some (n : Int)
  rw [jsBigIntOfString?]
  simp only [if_neg (isDigit_ne_dash hcd)]
  rw [if_pos (by rw [← hcons]; exact hall)]
  rw [← hcons, natOfDigitList_replicate_zero, natOfDigitList_natToDigitList]

theorem jsBigIntOfString_digits (n : Nat) :
    jsBigIntOfString? (String.mk (natToDigitList n)) = some (n : Int) := by
  simpa using jsBigIntOfString_zeros_digits 0 n

theorem jsBigIntOfString_jsBigIntToString (i : Int) :
    jsBigIntOfString? (jsBigIntToString i) = some i := by
  by_cases hi : i < 0
  · rw [jsBigIntToString, if_pos hi]
    show jsBigIntOfString? (String.mk ( '-' :: natToDigitList (-i).toNat)) = some i
    have hcond : natToDigitList (-i).toNat ≠ [] ∧
        (natToDigitList (-i).toNat).all Char.isDigit = true :=
      ⟨natToDigitList_ne_nil _, by
        rw [List.all_eq_true]; exact natToDigitList_all_isDigit _⟩
    rw [jsBigIntOfString?]
    simp only [if_pos rfl, if_pos hcond]
    rw [natOfDigitList_natToDigitList]
    have h1 : ((-i).toNat : Int) = -i := Int.toNat_of_nonneg (by omega)
    rw [h1, neg_neg]
    simp
  · rw [jsBigIntToString, if_neg hi]
    rw [jsBigIntOfString_digits]
    congr 1
    exact Int.toNat_of_nonneg (by omega)

theorem splitOnChar_cons (sep c : Char) (l : List Char) :
    splitOnChar sep (c :: l) =
      (if c = sep then [] :: splitOnChar sep l
       else
         match splitOnChar sep l with
         | [] => [[c]]
         | h :: t => (c :: h) :: t) := rfl

theorem splitOnChar_no_sep {sep : Char} {l : List Char} (h : sep ∉ l) :
    splitOnChar sep l = [l] := by
  induction l with
  | nil => rfl
  | cons c cs ih =>
      rw [splitOnChar_cons]
      have hcs : sep ∉ cs := fun hx => h (List.mem_cons_of_mem _ hx)
      have hc : c ≠ sep := fun hx => h (hx ▸ List.mem_cons_self _ _)
      rw [if_neg hc, ih hcs]

theorem splitOnChar_append {sep : Char} {a b : List Char} (ha : sep ∉ a) :
    splitOnChar sep (a ++ sep :: b) = a :: splitOnChar sep b := by
  induction a with
  | nil =>
      simp only [List.nil_append]
      rw [splitOnChar_cons, if_pos rfl]
  | cons c cs ih =>
      have hcs : sep ∉ cs := fun hx => ha (List.mem_cons_of_mem _ hx)
      have hc : c ≠ sep := fun hx => ha (hx ▸ List.mem_cons_self _ _)
      simp only [List.cons_append]
      rw [splitOnChar_cons, if_neg hc, ih hcs]

end JsStr

namespace Attribution

theorem dot_not_mem_natToDigitList (n : Nat) : '.' ∉ JsStr.natToDigitList n := by
  intro hmem
  have := JsStr.natToDigitList_all_isDigit n _ hmem
  simp [Char.isDigit] at this

theorem microToQuantity_data (m : Int) (hm : 0 ≤ m) :
    (microToQuantity m).data =
      JsStr.natToDigitList (m.tdiv MICRO_FACTOR).toNat ++
        '.' :: (List.replicate
            (6 - (JsStr.natToDigitList (m.tmod MICRO_FACTOR).toNat).length) '0' ++
          JsStr.natToDigitList (m.tmod MICRO_FACTOR).toNat) := by
  have hMF : (0:Int) < MICRO_FACTOR := by norm_num [MICRO_FACTOR]
  have hwnn : 0 ≤ m.tdiv MICRO_FACTOR := Int.tdiv_nonneg hm (le_of_lt hMF)
  have hfnn : 0 ≤ m.tmod MICRO_FACTOR := by
    rw [Int.tmod_eq_emod hm (le_of_lt hMF)]
    exact Int.emod_nonneg m (by omega)
  rw [microToQuantity]
  show (JsStr.jsBigIntToString (m.tdiv MICRO_FACTOR)).data ++
      '.' :: JsStr.padStart6 (JsStr.jsBigIntToString (m.tmod MICRO_FACTOR)).data = _
  rw [JsStr.jsBigIntToString, if_neg (by omega), JsStr.jsBigIntToString, if_neg (by omega)]
  rfl

theorem parseQuantityToMicro_microToQuantity {m : Int} (hm : 0 ≤ m) :
    parseQuantityToMicro (microToQuantity m) = some m := by
  have hMF : (0:Int) < MICRO_FACTOR := by norm_num [MICRO_FACTOR]
  have hwnn : 0 ≤ m.tdiv MICRO_FACTOR := Int.tdiv_nonneg hm (le_of_lt hMF)
  have hfnn : 0 ≤ m.tmod MICRO_FACTOR := by
    rw [Int.tmod_eq_emod hm (le_of_lt hMF)]
    exact Int.emod_nonneg m (by omega)
  have hflt : m.tmod MICRO_FACTOR < 1000000 := by
    rw [Int.tmod_eq_emod hm (le_of_lt hMF)]
    have := Int.emod_lt_of_pos m hMF
    simpa [MICRO_FACTOR] using this
  set W := JsStr.natToDigitList (m.tdiv MICRO_FACTOR).toNat with hWdef
  set D := JsStr.natToDigitList (m.tmod MICRO_FACTOR).toNat with hDdef
  set F := List.replicate (6 - D.length) '0' ++ D with hFdef
  have hWdot : '.' ∉ W := dot_not_mem_natToDigitList _
  have hFdot : '.' ∉ F := by
    intro hmem
    rcases List.mem_append.mp hmem with h | h
    · have := List.eq_of_mem_replicate h
      simp at this
    · exact dot_not_mem_natToDigitList _ h
  have hDlen : D.length ≤ 6 := by
    apply JsStr.natToDigitList_length_le (by omega)
    have : (m.tmod MICRO_FACTOR).toNat < 1000000 := by omega
    simpa using this
  have hFlen : F.length = 6 := by
    rw [hFdef]
    simp only [List.length_append, List.length_replicate]
    omega
  have hFne : F ≠ [] := by
    intro h
    rw [h] at hFlen
    simp at hFlen
  have hWne : W ≠ [] := JsStr.natToDigitList_ne_nil _
  have hsplit : JsStr.splitOnChar '.' ((microToQuantity m).data) = [W, F] := by
    rw [microToQuantity_data m hm, ← hWdef, ← hDdef, ← hFdef,
      JsStr.splitOnChar_append hWdot, JsStr.splitOnChar_no_sep hFdot]
  have hFpad : JsStr.padEnd6Take6 F = F := by
    rw [JsStr.padEnd6Take6, hFlen]
    simp only [Nat.sub_self, List.replicate_zero, List.append_nil]
    exact List.take_of_length_le (by rw [hFlen])
  rw [parseQuantityToMicro]
  rw [hsplit]
  simp only [List.getD_cons_zero, List.getD_cons_succ]
  rw [if_neg hWne, hFpad, if_neg hFne]
  have hWparse : JsStr.jsBigIntOfString? (String.mk W) =
      some ((m.tdiv MICRO_FACTOR).toNat : Int) := JsStr.jsBigIntOfString_digits _
  have hFparse : JsStr.jsBigIntOfString? (String.mk F) =
      some ((m.tmod MICRO_FACTOR).toNat : Int) := JsStr.jsBigIntOfString_zeros_digits _ _
  rw [hWparse, hFparse]
  show some _ = some m
  congr 1
  rw [Int.toNat_of_nonneg hwnn, Int.toNat_of_nonneg hfnn]
  have ht := Int.tdiv_add_tmod m MICRO_FACTOR
  rw [mul_comm] at ht
  omega

end Attribution

namespace Attribution

theorem bumpFirst_map_index (r : Nat) (l : List AllocEntry) :
    (bumpFirst r l).map AllocEntry.index = l.map AllocEntry.index := by
  induction l generalizing r with
  | nil => cases r <;> rfl
  | cons e rest ih =>
      cases r with
      | zero => rfl
      | succ n => simp [bumpFirst, ih]

theorem bumpFirst_map_base_sum (r : Nat) (l : List AllocEntry) (h : r ≤ l.length) :
    ((bumpFirst r l).map AllocEntry.base).sum =
      (l.map AllocEntry.base).sum + r := by
  induction l generalizing r with
  | nil =>
      have : r = 0 := by simpa using h
      subst this
      rfl
  | cons e rest ih =>
      cases r with
      | zero => simp [bumpFirst]
      | succ n =>
          have hn : n ≤ rest.length := by simpa using h
          simp only [bumpFirst, List.map_cons, List.sum_cons, ih n hn]
          push_cast
          ring

theorem bumpFirst_base_nonneg {r : Nat} {l : List AllocEntry}
    (h : ∀ e ∈ l, 0 ≤ e.base) : ∀ e ∈ bumpFirst r l, 0 ≤ e.base := by
  induction l generalizing r with
  | nil => intro e he; cases r <;> simp [bumpFirst] at he
  | cons a rest ih =>
      intro e he
      cases r with
      | zero => exact h e (by simpa [bumpFirst] using he)
      | succ n =>
          simp only [bumpFirst, List.mem_cons] at he
          rcases he with he | he
          · subst he
            have := h a (List.mem_cons_self _ _)
            simp only []
            omega
          · exact ih (fun x hx => h x (List.mem_cons_of_mem _ hx)) e he

theorem sum_set_of_getD_zero {l : List Int} {i : Nat} {v : Int}
    (hi : i < l.length) (hz : l.getD i 0 = 0) :
    (l.set i v).sum = l.sum + v := by
  rw [List.sum_set, if_pos hi]
  have hsplit : (List.take i l).sum + (List.drop i l).sum = l.sum :=
    List.sum_take_add_sum_drop l i
  have hdrop : List.drop i l = l[i] :: List.drop (i + 1) l :=
    List.drop_eq_getElem_cons hi
  have hget : l[i] = 0 := by
    have : l.getD i 0 = l[i] := by
      rw [List.getD_eq_getElem?_getD, List.getElem?_eq_getElem hi]
      rfl
    omega
  rw [hdrop, List.sum_cons, hget] at hsplit
  omega

theorem getD_set_ne {l : List Int} {i j : Nat} {v : Int} (h : i ≠ j) :
    (l.set i v).getD j 0 = l.getD j 0 := by
  rw [List.getD_eq_getElem?_getD, List.getD_eq_getElem?_getD,
    List.getElem?_set_ne h]

theorem scatter_fold_sum (l : List AllocEntry) (acc : List Int)
    (hnd : (l.map AllocEntry.index).Nodup)
    (hlt : ∀ e ∈ l, e.index < acc.length)
    (hz : ∀ e ∈ l, acc.getD e.index 0 = 0) :
    (l.foldl (fun a e => a.set e.index e.base) acc).sum =
      acc.sum + (l.map AllocEntry.base).sum := by
  induction l generalizing acc with
  | nil => simp
  | cons e rest ih =>
      simp only [List.foldl_cons, List.map_cons, List.sum_cons]
      have hnd' : (rest.map AllocEntry.index).Nodup := (List.nodup_cons.mp hnd).2
      have hhead : e.index ∉ rest.map AllocEntry.index := (List.nodup_cons.mp hnd).1
      have hlen : (acc.set e.index e.base).length = acc.length := List.length_set _ _ _
      have h1 : ∀ x ∈ rest, x.index < (acc.set e.index e.base).length := by
        intro x hx
        rw [hlen]
        exact hlt x (List.mem_cons_of_mem _ hx)
      have h2 : ∀ x ∈ rest, (acc.set e.index e.base).getD x.index 0 = 0 := by
        intro x hx
        have hne : e.index ≠ x.index := by
          intro hEq
          exact hhead (hEq ▸ List.mem_map_of_mem AllocEntry.index hx)
        rw [getD_set_ne hne]
        exact hz x (List.mem_cons_of_mem _ hx)
      rw [ih _ hnd' h1 h2]
      rw [sum_set_of_getD_zero (hlt e (List.mem_cons_self _ _)) (hz e (List.mem_cons_self _ _))]
      ring

theorem scatter_fold_length (l : List AllocEntry) (acc : List Int) :
    (l.foldl (fun a e => a.set e.index e.base) acc).length = acc.length := by
  induction l generalizing acc with
  | nil => rfl
  | cons e rest ih => simp [List.foldl_cons, ih, List.length_set]

theorem scatter_fold_nonneg (l : List AllocEntry) (acc : List Int)
    (hb : ∀ e ∈ l, 0 ≤ e.base) (ha : ∀ x ∈ acc, 0 ≤ x) :
    ∀ x ∈ l.foldl (fun a e => a.set e.index e.base) acc, 0 ≤ x := by
  induction l generalizing acc with
  | nil => exact ha
  | cons e rest ih =>
      simp only [List.foldl_cons]
      apply ih
      · intro x hx
        exact hb x (List.mem_cons_of_mem _ hx)
      · intro x hx
        rcases List.mem_or_eq_of_mem_set hx with h | h
        · exact ha x h
        · exact h ▸ hb e (List.mem_cons_self _ _)

theorem sum_tdiv_tmod (s total : Int) (ws : List Int)
    (h : ∀ w ∈ ws, 0 ≤ total * w) :
    s * (ws.map (fun w => (total * w).tdiv s)).sum +
        (ws.map (fun w => (total * w).tmod s)).sum = total * ws.sum := by
  induction ws with
  | nil => simp
  | cons w rest ih =>
      have hrest := ih fun x hx => h x (List.mem_cons_of_mem _ hx)
      simp only [List.map_cons, List.sum_cons, mul_add]
      have hw := Int.tdiv_add_tmod (total * w) s
      linarith [hw, hrest]

theorem sum_tmod_bounds (s total : Int) (ws : List Int) (hs : 0 < s)
    (h : ∀ w ∈ ws, 0 ≤ total * w) :
    0 ≤ (ws.map (fun w => (total * w).tmod s)).sum ∧
      (ws.map (fun w => (total * w).tmod s)).sum ≤ (ws.length : Int) * (s - 1) := by
  induction ws with
  | nil => simp
  | cons w rest ih =>
      have hrest := ih fun x hx => h x (List.mem_cons_of_mem _ hx)
      have hw0 : 0 ≤ total * w := h w (List.mem_cons_self _ _)
      have hmodeq : (total * w).tmod s = (total * w) % s :=
        Int.tmod_eq_emod hw0 (le_of_lt hs)
      have hm0 : 0 ≤ (total * w).tmod s := by
        rw [hmodeq]; exact Int.emod_nonneg _ (by omega)
      have hm1 : (total * w).tmod s < s := by
        rw [hmodeq]; exact Int.emod_lt_of_pos _ hs
      simp only [List.map_cons, List.sum_cons, List.length_cons]
      constructor
      · omega
      · push_cast
        nlinarith [hrest.2]

end Attribution

namespace Attribution

theorem allocEntries_map_index (total s : Int) (ws : List Int) :
    (allocEntries total s ws).map AllocEntry.index = List.range ws.length := by
  rw [allocEntries, List.map_map]
  have : (AllocEntry.index ∘ fun p : Nat × Int =>
      AllocEntry.mk p.1 p.2 ((total * p.2).tdiv s) ((total * p.2).tmod s)) = Prod.fst := rfl
  rw [this, List.enum_map_fst]

theorem allocEntries_map_base (total s : Int) (ws : List Int) :
    (allocEntries total s ws).map AllocEntry.base =
      ws.map fun w => (total * w).tdiv s := by
  rw [allocEntries, List.map_map]
  have h1 : (AllocEntry.base ∘ fun p : Nat × Int =>
      AllocEntry.mk p.1 p.2 ((total * p.2).tdiv s) ((total * p.2).tmod s)) =
      (fun w => (total * w).tdiv s) ∘ Prod.snd := rfl
  rw [h1, ← List.map_map, List.enum_map_snd]

theorem allocEntries_base_nonneg {total s : Int} {ws : List Int}
    (htot : 0 ≤ total) (hnn : ∀ w ∈ ws, 0 ≤ w) (hs : 0 ≤ s) :
    ∀ e ∈ allocEntries total s ws, 0 ≤ e.base := by
  intro e he
  rw [allocEntries, List.mem_map] at he
  obtain ⟨p, hp, hpe⟩ := he
  have hw : p.2 ∈ ws := by
    have := List.mem_map_of_mem Prod.snd hp
    rwa [List.enum_map_snd] at this
  subst hpe
  exact Int.tdiv_nonneg (mul_nonneg htot (hnn _ hw)) hs

theorem replicate_getD_zero (n i : Nat) : (List.replicate n (0 : Int)).getD i 0 = 0 := by
  rw [List.getD_eq_getElem?_getD, List.getElem?_replicate]
  split <;> rfl

theorem allocResult_spec (total : Int) (ws : List Int)
    (htot : 0 < total) (hne : ws ≠ [])
    (hnn : ∀ w ∈ ws, 0 ≤ w) (hs : 0 < ws.sum) :
    (allocResult total ws).sum = total ∧
      (allocResult total ws).length = ws.length ∧
      ∀ x ∈ allocResult total ws, 0 ≤ x := by
  have hmulnn : ∀ w ∈ ws, 0 ≤ total * w :=
    fun w hw => mul_nonneg (le_of_lt htot) (hnn w hw)
  have hEB := allocEntries_map_base total ws.sum ws
  have hEI := allocEntries_map_index total ws.sum ws
  have hsum1 := sum_tdiv_tmod ws.sum total ws hmulnn
  have hRb := sum_tmod_bounds ws.sum total ws hs hmulnn
  set B := ws.map (fun w => (total * w).tdiv ws.sum) with hB
  set R := ws.map (fun w => (total * w).tmod ws.sum) with hR
  have hnlen : 1 ≤ ws.length := by
    rcases ws with _ | ⟨a, l⟩
    · exact absurd rfl hne
    · simp
  have hkey : ws.sum * (total - B.sum) = R.sum := by
    have := hsum1
    nlinarith [this]
  have h0 : 0 ≤ total - B.sum := by
    by_contra hcon
    push_neg at hcon
    have : ws.sum * (total - B.sum) < 0 := mul_neg_of_pos_of_neg hs hcon
    omega
  have h1 : total - B.sum < (ws.length : Int) := by
    by_contra hcon
    push_neg at hcon
    have hx : ws.sum * (ws.length : Int) ≤ ws.sum * (total - B.sum) :=
      mul_le_mul_of_nonneg_left hcon (le_of_lt hs)
    have hy : R.sum ≤ (ws.length : Int) * (ws.sum - 1) := hRb.2
    nlinarith [hx, hy, hkey, hnlen]
  have hentlen : (allocEntries total ws.sum ws).length = ws.length := by
    rw [allocEntries, List.length_map, List.enum_length]
  have hperm : ((allocEntries total ws.sum ws).insertionSort fun a b => allocLe a b).Perm
      (allocEntries total ws.sum ws) := List.perm_insertionSort _ _
  have hsortlen :
      ((allocEntries total ws.sum ws).insertionSort fun a b => allocLe a b).length =
        ws.length := by
    rw [List.length_insertionSort, hentlen]
  have hsortbase :
      (((allocEntries total ws.sum ws).insertionSort fun a b => allocLe a b).map
        AllocEntry.base).sum = B.sum := by
    rw [(hperm.map AllocEntry.base).sum_eq, hEB]
  have hsortindex :
      (((allocEntries total ws.sum ws).insertionSort fun a b => allocLe a b).map
        AllocEntry.index).Perm (List.range ws.length) := by
    rw [← hEI]
    exact hperm.map AllocEntry.index
  have hrval : ((total - B.sum).toNat : Int) = total - B.sum := Int.toNat_of_nonneg h0
  have hrle : (total - B.sum).toNat ≤
      ((allocEntries total ws.sum ws).insertionSort fun a b => allocLe a b).length := by
    rw [hsortlen]
    omega
  set sorted := (allocEntries total ws.sum ws).insertionSort fun a b => allocLe a b with hsorted
  set distributed := bumpFirst (total - B.sum).toNat sorted with hdist
  have hDsum : (distributed.map AllocEntry.base).sum = total := by
    rw [hdist, bumpFirst_map_base_sum _ _ hrle, hsortbase, hrval]
    omega
  have hDidx : distributed.map AllocEntry.index = sorted.map AllocEntry.index := by
    rw [hdist, bumpFirst_map_index]
  have hDiperm : (distributed.map AllocEntry.index).Perm (List.range ws.length) := by
    rw [hDidx]
    exact hsortindex
  have hDnodup : (distributed.map AllocEntry.index).Nodup :=
    hDiperm.nodup_iff.mpr (List.nodup_range _)
  have hDlt : ∀ e ∈ distributed, e.index < (List.replicate ws.length (0:Int)).length := by
    intro e he
    rw [List.length_replicate]
    have : e.index ∈ distributed.map AllocEntry.index := List.mem_map_of_mem _ he
    have := hDiperm.mem_iff.mp this
    exact List.mem_range.mp this
  have hDz : ∀ e ∈ distributed, (List.replicate ws.length (0:Int)).getD e.index 0 = 0 :=
    fun e _ => replicate_getD_zero _ _
  have hDnn : ∀ e ∈ distributed, 0 ≤ e.base := by
    rw [hdist]
    apply bumpFirst_base_nonneg
    intro e he
    have hmem : e ∈ allocEntries total ws.sum ws := hperm.mem_iff.mp he
    exact allocEntries_base_nonneg (le_of_lt htot) hnn (le_of_lt hs) e hmem
  have hunfold : allocResult total ws = scatter ws.length distributed := by
    rw [allocResult, hEB]
  constructor
  · rw [hunfold, scatter, scatter_fold_sum distributed _ hDnodup hDlt hDz, hDsum]
    simp
  constructor
  · rw [hunfold, scatter, scatter_fold_length, List.length_replicate]
  · rw [hunfold, scatter]
    apply scatter_fold_nonneg _ _ hDnn
    intro x hx
    rw [List.eq_of_mem_replicate hx]

theorem allocateProportionally_ok (total : Int) (ws : List Int)
    (hne : ws ≠ []) (hnn : ∀ w ∈ ws, 0 ≤ w) (hs : 0 < ws.sum) (htot : 0 ≤ total) :
    ∃ out, allocateProportionally total ws = Except.ok out ∧
      out.sum = total ∧ out.length = ws.length ∧ ∀ x ∈ out, 0 ≤ x := by
  rcases eq_or_lt_of_le htot with heq | hlt
  · refine ⟨ws.map fun _ => 0, ?_, ?_, ?_, ?_⟩
    · rw [allocateProportionally, if_pos (Or.inl (by omega))]
    · rw [← heq]
      simp
    · simp
    · intro x hx
      rw [List.mem_map] at hx
      obtain ⟨_, _, hx⟩ := hx
      omega
  · obtain ⟨hsum, hlen, hnneg⟩ := allocResult_spec total ws hlt hne hnn hs
    refine ⟨allocResult total ws, ?_, hsum, hlen, hnneg⟩
    rw [allocateProportionally]
    rw [if_neg (by
      push_neg
      constructor
      · omega
      · rw [ne_eq, List.length_eq_zero]
        exact hne)]
    rw [if_neg (by omega), if_neg (by rw [hsum]; simp)]

end Attribution

namespace Attribution

theorem mapM_ok_map {α β γ : Type} {ε : Type} (f : α → Except ε β) (g : β → γ) (h : α → γ)
    (l : List α) (ys : List β) (hok : l.mapM f = Except.ok ys)
    (hgh : ∀ x ∈ l, ∀ y, f x = Except.ok y → g y = h x) :
    ys.map g = l.map h := by
  induction l generalizing ys with
  | nil =>
      simp only [List.mapM_nil, pure] at hok
      cases hok
      rfl
  | cons x xs ih =>
      rw [List.mapM_cons] at hok
      cases hfx : f x with
      | error e => rw [hfx] at hok; simp [Bind.bind, Except.bind] at hok
      | ok y =>
          rw [hfx] at hok
          cases hxs : xs.mapM f with
          | error e =>
              rw [hxs] at hok
              simp [Bind.bind, Except.bind, pure, Except.pure] at hok
          | ok ys' =>
              rw [hxs] at hok
              simp only [Bind.bind, Except.bind, pure, Except.pure, Except.ok.injEq] at hok
              subst hok
              simp only [List.map_cons]
              rw [ih ys' hxs fun a ha => hgh a (List.mem_cons_of_mem _ ha),
                hgh x (List.mem_cons_self _ _) y hfx]

theorem sum_getD_range (l : List Int) :
    ((List.range l.length).map fun i => l.getD i 0).sum = l.sum := by
  induction l with
  | nil => simp
  | cons a t ih =>
      rw [List.length_cons, List.range_succ_eq_map]
      simp only [List.map_cons, List.map_map, List.sum_cons, List.getD_cons_zero]
      have : ((fun i => (a :: t).getD i 0) ∘ Nat.succ) = fun i => t.getD i 0 := by
        funext i
        simp [List.getD_cons_succ]
      rw [this, ih]

theorem getD_nonneg {l : List Int} (h : ∀ x ∈ l, 0 ≤ x) (i : Nat) : 0 ≤ l.getD i 0 := by
  rw [List.getD_eq_getElem?_getD]
  cases hg : l[i]? with
  | none => simp
  | some x =>
      have := List.getElem?_mem hg
      simpa using h x this

theorem assertSafeInteger_ok {v r : Int} {label : String}
    (h : assertSafeInteger v label = Except.ok r) : r = v := by
  rw [assertSafeInteger] at h
  split at h
  · cases h
  · cases h
    rfl

end Attribution

namespace Attribution

theorem buildContributorAttributions_sums (input : BuildAttributionsInput)
    (attrs : List ContributorAttribution)
    (hc : input.contributors ≠ [])
    (ht : 0 < input.totalContributionUsdCents)
    (hw : ∀ c ∈ input.contributors, 0 ≤ c.totalUsdCents)
    (hs : 0 < (input.contributors.map MonthlyContributorAggregate.totalUsdCents).sum)
    (hb : 0 ≤ input.appliedBudgetUsdCents)
    (hcost : 0 ≤ input.totalCostMicro)
    (hq : ∃ qm, parseQuantityToMicro input.retiredQuantity = some qm ∧ 0 ≤ qm)
    (hok : buildContributorAttributions input = Except.ok attrs) :
    (attrs.map ContributorAttribution.attributedBudgetUsdCents).sum =
        input.appliedBudgetUsdCents ∧
      (attrs.map fun a => (JsStr.jsBigIntOfString? a.attributedCostMicro).getD 0).sum =
        input.totalCostMicro ∧
      (attrs.map fun a => (parseQuantityToMicro a.attributedQuantity).getD 0).sum =
        (parseQuantityToMicro input.retiredQuantity).getD 0 := by
  obtain ⟨qm, hqm, hqnn⟩ := hq
  have hweights_ne : input.contributors.map MonthlyContributorAggregate.totalUsdCents ≠ [] := by
    simp only [ne_eq, List.map_eq_nil_iff]
    exact hc
  have hwnn : ∀ w ∈ input.contributors.map MonthlyContributorAggregate.totalUsdCents, 0 ≤ w := by
    intro w hw2
    rw [List.mem_map] at hw2
    obtain ⟨c, hcmem, hceq⟩ := hw2
    exact hceq ▸ hw c hcmem
  obtain ⟨bud, hbud, hbudsum, hbudlen, hbudnn⟩ :=
    allocateProportionally_ok input.appliedBudgetUsdCents _ hweights_ne hwnn hs hb
  obtain ⟨cst, hcst, hcstsum, hcstlen, hcstnn⟩ :=
    allocateProportionally_ok input.totalCostMicro _ hweights_ne hwnn hs hcost
  obtain ⟨qty, hqty, hqtysum, hqtylen, hqtynn⟩ :=
    allocateProportionally_ok qm _ hweights_ne hwnn hs hqnn
  rw [buildContributorAttributions] at hok
  rw [if_neg (by rw [List.length_eq_zero]; exact hc), if_neg (by omega),
    if_neg (by omega)] at hok
  rw [hqm] at hok
  simp only [Bind.bind, Except.bind] at hok
  rw [hbud, hcst, hqty] at hok
  have hfields : ∀ p ∈ input.contributors.enum, ∀ y,
      (do
        let sharePpm ←
          if (input.contributors.map MonthlyContributorAggregate.totalUsdCents).sum > 0 then
            assertSafeInteger
              (((input.contributors.map MonthlyContributorAggregate.totalUsdCents).getD p.1 0 *
                  1000000).tdiv
                (input.contributors.map MonthlyContributorAggregate.totalUsdCents).sum)
              ("sharePpm")
          else Except.ok 0
        let budget ← assertSafeInteger (bud.getD p.1 0) ("attributedBudgetUsdCents")
        Except.ok
          { userId := p.2.userId
            email := p.2.email
            customerId := p.2.customerId
            sharePpm := sharePpm
            contributionUsdCents := p.2.totalUsdCents
            attributedBudgetUsdCents := budget
            attributedCostMicro := JsStr.jsBigIntToString (cst.getD p.1 0)
            attributedQuantity := microToQuantity (qty.getD p.1 0)
            paymentDenom := input.paymentDenom } : Except String ContributorAttribution) =
          Except.ok y →
        y.attributedBudgetUsdCents = bud.getD p.1 0 ∧
          y.attributedCostMicro = JsStr.jsBigIntToString (cst.getD p.1 0) ∧
          y.attributedQuantity = microToQuantity (qty.getD p.1 0) := by
    intro p _ y hy
    rw [if_pos (by omega)] at hy
    cases hsp : assertSafeInteger
        (((input.contributors.map MonthlyContributorAggregate.totalUsdCents).getD p.1 0 *
            1000000).tdiv
          (input.contributors.map MonthlyContributorAggregate.totalUsdCents).sum)
        ("sharePpm") with
    | error e =>
        rw [hsp] at hy
        simp [Bind.bind, Except.bind] at hy
    | ok spv =>
        rw [hsp] at hy
        cases hbv : assertSafeInteger (bud.getD p.1 0) ("attributedBudgetUsdCents") with
        | error e =>
            rw [hbv] at hy
            simp [Bind.bind, Except.bind] at hy
        | ok bv =>
            rw [hbv] at hy
            simp only [Bind.bind, Except.bind, Except.ok.injEq] at hy
            rw [← hy]
            refine ⟨?_, rfl, rfl⟩
            exact assertSafeInteger_ok hbv
  have hok2 : input.contributors.enum.mapM _ = Except.ok attrs := hok
  have hn : (input.contributors.map MonthlyContributorAggregate.totalUsdCents).length =
      input.contributors.length := List.length_map _ _
  have hmapsum : ∀ (l : List Int), l.length = input.contributors.length →
      ((input.contributors.enum.map fun p => l.getD p.1 0)).sum = l.sum := by
    intro l hl
    have h1 : (input.contributors.enum.map fun p => l.getD p.1 0) =
        (input.contributors.enum.map Prod.fst).map fun i => l.getD i 0 := by
      rw [List.map_map]
      rfl
    rw [h1, List.enum_map_fst, ← hl, sum_getD_range]
  refine ⟨?_, ?_, ?_⟩
  · have h1 := mapM_ok_map _ ContributorAttribution.attributedBudgetUsdCents
      (fun p => bud.getD p.1 0) _ attrs hok2
      (by
        intro x hx y hyy
        show y.attributedBudgetUsdCents = bud.getD x.1 0
        exact ((hfields x hx y hyy).1))
    rw [h1, hmapsum bud (by rw [hbudlen, hn]), hbudsum]
  · have h1 := mapM_ok_map _ (fun a => (JsStr.jsBigIntOfString? a.attributedCostMicro).getD 0)
      (fun p => cst.getD p.1 0) _ attrs hok2
      (by
        intro x hx y hyy
        have hfy := (hfields x hx y hyy).2.1
        show (JsStr.jsBigIntOfString? y.attributedCostMicro).getD 0 = cst.getD x.1 0
        rw [hfy, JsStr.jsBigIntOfString_jsBigIntToString]
        rfl)
    rw [h1, hmapsum cst (by rw [hcstlen, hn]), hcstsum]
  · have h1 := mapM_ok_map _ (fun a => (parseQuantityToMicro a.attributedQuantity).getD 0)
      (fun p => qty.getD p.1 0) _ attrs hok2
      (by
        intro x hx y hyy
        have hfy := (hfields x hx y hyy).2.2
        show (parseQuantityToMicro y.attributedQuantity).getD 0 = qty.getD x.1 0
        rw [hfy, parseQuantityToMicro_microToQuantity (getD_nonneg hqtynn x.1)]
        rfl)
    rw [h1, hmapsum qty (by rw [hqtylen, hn]), hqtysum, hqm]
    rfl

end Attribution

/-- **C1** For every batch attribution: `allocateProportionally(total, weights)`
returns allocations that sum exactly to `total`, for every `total > 0` and
every non-empty list of non-negative weights with positive sum;
consequently, in every `ContributorAttribution` list built by
`buildContributorAttributions`, the `attributedBudgetUsdCents` values sum
to `appliedBudgetUsdCents`, the `attributedCostMicro` values sum to
`totalCostMicro`, and the `attributedQuantity` values, expanded to
micro-units, sum to `retiredQuantity` expanded to micro-units. -/
theorem C1_attribution_totals :
    (∀ (total : Int) (weights : List Int), 0 < total → weights ≠ [] →
        (∀ w ∈ weights, 0 ≤ w) → 0 < weights.sum →
        ∃ out, Attribution.allocateProportionally total weights = Except.ok out ∧
          out.sum = total) ∧
      (∀ (input : Attribution.BuildAttributionsInput)
          (attrs : List Attribution.ContributorAttribution),
        input.contributors ≠ [] →
        0 < input.totalContributionUsdCents →
        (∀ c ∈ input.contributors, 0 ≤ c.totalUsdCents) →
        0 < (input.contributors.map
            Attribution.MonthlyContributorAggregate.totalUsdCents).sum →
        0 ≤ input.appliedBudgetUsdCents →
        0 ≤ input.totalCostMicro →
        (∃ qm, Attribution.parseQuantityToMicro input.retiredQuantity = some qm ∧ 0 ≤ qm) →
        Attribution.buildContributorAttributions input = Except.ok attrs →
        (attrs.map Attribution.ContributorAttribution.attributedBudgetUsdCents).sum =
            input.appliedBudgetUsdCents ∧
          (attrs.map fun a =>
              (JsStr.jsBigIntOfString? a.attributedCostMicro).getD 0).sum =
            input.totalCostMicro ∧
          (attrs.map fun a =>
              (Attribution.parseQuantityToMicro a.attributedQuantity).getD 0).sum =
            (Attribution.parseQuantityToMicro input.retiredQuantity).getD 0) := by
  constructor
  · intro total weights htot hne hnn hs
    obtain ⟨out, hout, hsum, _, _⟩ :=
      Attribution.allocateProportionally_ok total weights hne hnn hs (le_of_lt htot)
    exact ⟨out, hout, hsum⟩
  · intro input attrs hc ht hw hs hb hcost hq hok
    exact Attribution.buildContributorAttributions_sums input attrs hc ht hw hs hb hcost hq hok

/-- Witness for C1: the spec's own scenario (three contributors of 1¢ each,
`total = 2` allocates `[1, 1, 0]`), and a concrete
`buildContributorAttributions` run whose three attributed columns sum back
to the three input totals. -/
theorem C1_attribution_totals_witness :
    (∃ out, Attribution.allocateProportionally 2 [1, 1, 1] = Except.ok out ∧
      out.sum = 2) ∧
    (([Attribution.ContributorAttribution.mk ("u1") none none 333333 1 1 ("3") ("0.000002") ("uregen"),
        Attribution.ContributorAttribution.mk ("u2") none none 333333 1 1 ("2") ("0.000002") ("uregen"),
        Attribution.ContributorAttribution.mk ("u3") none none 333333 1 0 ("2") ("0.000001") ("uregen")].map
          Attribution.ContributorAttribution.attributedBudgetUsdCents).sum = 2 ∧
      ([Attribution.ContributorAttribution.mk ("u1") none none 333333 1 1 ("3") ("0.000002") ("uregen"),
        Attribution.ContributorAttribution.mk ("u2") none none 333333 1 1 ("2") ("0.000002") ("uregen"),
        Attribution.ContributorAttribution.mk ("u3") none none 333333 1 0 ("2") ("0.000001") ("uregen")].map
          fun a => (JsStr.jsBigIntOfString? a.attributedCostMicro).getD 0).sum = 7 ∧
      ([Attribution.ContributorAttribution.mk ("u1") none none 333333 1 1 ("3") ("0.000002") ("uregen"),
        Attribution.ContributorAttribution.mk ("u2") none none 333333 1 1 ("2") ("0.000002") ("uregen"),
        Attribution.ContributorAttribution.mk ("u3") none none 333333 1 0 ("2") ("0.000001") ("uregen")].map
          fun a => (Attribution.parseQuantityToMicro a.attributedQuantity).getD 0).sum =
        (Attribution.parseQuantityToMicro ("0.000005")).getD 0) := by
  constructor
  · exact C1_attribution_totals.1 2 [1, 1, 1] (by decide) (by decide)
      (by intro w hw; fin_cases hw <;> decide) (by decide)
  · exact C1_attribution_totals.2
      (Attribution.BuildAttributionsInput.mk
        [Attribution.MonthlyContributorAggregate.mk ("u1") none none 1,
          Attribution.MonthlyContributorAggregate.mk ("u2") none none 1,
          Attribution.MonthlyContributorAggregate.mk ("u3") none none 1]
        3 2 7 ("0.000005") ("uregen"))
      _ (by decide) (by decide)
      (by intro c hc; fin_cases hc <;> decide) (by decide) (by decide) (by decide)
      ⟨5, by decide, by decide⟩ (by rfl)

namespace OrderSelector

/-- JS truthiness of an optional string (`undefined` and `""` are falsy). -/
def strTruthy : Option String → Bool
  | none => false
  | some s => s ≠ ""

/-- `SellOrder` read model from the Ledger (`listSellOrders`), the fields
used by `selectOrdersForBudget`.  `expiration` is modelled as the epoch
value of the already-parsed expiration date (`new Date(order.expiration)`
— ISO-8601 parsing is abstracted to this number), `none` when the field is
absent or empty (falsy in `if (order.expiration)`). -/
structure SellOrder where
  id : String
  batch_denom : String
  quantity : String
  ask_amount : String
  ask_denom : String
  disable_auto_retire : Bool
  expiration : Option Int
  deriving Repr, DecidableEq

/-- Credit class read model (`listCreditClasses`). -/
structure CreditClass where
  id : String
  credit_type_abbrev : String
  deriving Repr, DecidableEq

/-- `AllowedDenom` read model (`getAllowedDenoms`). -/
structure AllowedDenom where
  bank_denom : String
  display_denom : String
  exponent : Int
  deriving Repr, DecidableEq

/-- The three ledger reads awaited by `selectOrdersForBudget`
(`Promise.all([listSellOrders(), listCreditClasses(), getAllowedDenoms()])`). -/
structure LedgerData where
  sellOrders : List SellOrder
  classes : List CreditClass
  allowedDenoms : List AllowedDenom
  deriving Repr, DecidableEq

/-- Result of `pickDenom`. -/
structure DenomInfo where
  bankDenom : String
  displayDenom : String
  exponent : Int
  deriving Repr, DecidableEq

/-- `pickDenom` from the order selector: preferred denom if present in the
allowed-denom table, else REGEN, else the first allowed denom, else a
hard-coded uregen default. -/
def pickDenom (allowedDenoms : List AllowedDenom) (preferred : Option String) :
    DenomInfo :=
  let fromPreferred : Option DenomInfo :=
    if strTruthy preferred then
      (allowedDenoms.find? fun d =>
        d.bank_denom.toLower == (preferred.getD ("")).toLower ||
        d.display_denom.toLower == (preferred.getD ("")).toLower).map
        fun m => DenomInfo.mk m.bank_denom m.display_denom m.exponent
    else none
  match fromPreferred with
  | some info => info
  | none =>
      match allowedDenoms.find? fun d =>
          d.display_denom == "REGEN" || d.bank_denom == "uregen" with
      | some regen => DenomInfo.mk regen.bank_denom regen.display_denom regen.exponent
      | none =>
          match allowedDenoms with
          | first :: _ => DenomInfo.mk first.bank_denom first.display_denom first.exponent
          | [] => DenomInfo.mk ("uregen") ("REGEN") 6

/-- `toMicroQuantityString` from the order selector (same construction as
`microToQuantity` in `attribution.ts`). -/
def toMicroQuantityString (microQuantity : Int) : String :=
  String.mk
    ((JsStr.jsBigIntToString (microQuantity.tdiv 1000000)).data ++
      '.' :: JsStr.padStart6 (JsStr.jsBigIntToString (microQuantity.tmod 1000000)).data)

/-- The credit-class-id prefix of a batch denom:
`order.batch_denom.split("-").slice(0, 1).join("")`. -/
def batchClassId (batchDenom : String) : String :=
  String.mk ((JsStr.splitOnChar '-' batchDenom.data).getD 0 [])

/-- Lookup in the `classTypeMap` built by
`for (cls of classes) classTypeMap.set(cls.id, cls.credit_type_abbrev)`:
the last class with a given id wins, hence the reversed `find?`. -/
def classAbbrev (classes : List CreditClass) (classId : String) : Option String :=
  (classes.reverse.find? fun c => c.id == classId).map CreditClass.credit_type_abbrev

/-- The credit-type filter argument. -/
inductive CreditType where
  | carbon
  | biodiversity
  deriving Repr, DecidableEq

/-- The eligibility filter of `selectOrdersForBudget` (drop
auto-retire-disabled orders, mismatched ask denoms, mismatched credit
types, expired orders). -/
def eligibleOrder (classes : List CreditClass) (denomInfo : DenomInfo)
    (creditType : Option CreditType) (now : Int) (order : SellOrder) : Bool :=
  !order.disable_auto_retire &&
    order.ask_denom == denomInfo.bankDenom &&
    (match creditType with
     | none => true
     | some ct =>
         match classAbbrev classes (batchClassId order.batch_denom) with
         | none => false
         | some abb =>
             match ct with
             | CreditType.carbon => abb == "C"
             | CreditType.biodiversity => !(abb == "C")) &&
    (match order.expiration with
     | none => true
     | some exp => !(exp ≤ now))

/-- `BigInt(order.ask_amount)`, totalised: malformed ask amounts (on which
JS `BigInt` would throw) are mapped to `0`, which the
`pricePerCreditMicro <= 0n` guard in the loop then skips; well-formed
decimal asks give the exact value. -/
def askAmountInt (o : SellOrder) : Int :=
  (JsStr.jsBigIntOfString? o.ask_amount).getD 0

/-- The sort comparator `(a, b) => aPrice < bPrice ? -1 : aPrice > bPrice ? 1 : 0`
(ascending by bigint ask amount), as a "sorts-no-later-than" predicate. -/
def askLe (a b : SellOrder) : Bool :=
  askAmountInt a ≤ askAmountInt b

/-- `parseFloat(order.quantity)` followed by
`BigInt(Math.floor(available * 1_000_000))`, for plain decimal quantity
strings: the exact value `floor(q · 10^6)`.  (JS computes this through
binary floating point; for the short decimal quantity strings the ledger
serves the two agree, and no property proved here depends on the exact
available quantity.)  `none` models `parseFloat` returning `NaN`
(`Number.isFinite` check fails and the order is skipped). -/
def parseFloatToMicro? (s : String) : Option Int :=
  match JsStr.splitOnChar '.' s.data with
  | [ipart] =>
      if ipart ≠ [] ∧ ipart.all Char.isDigit then
        some ((JsStr.natOfDigitList ipart : Nat) * 1000000)
      else none
  | [ipart, fpart] =>
      if (ipart ≠ [] ∨ fpart ≠ []) ∧ ipart.all Char.isDigit ∧ fpart.all Char.isDigit then
        some ((JsStr.natOfDigitList ipart : Nat) * 1000000 +
          (JsStr.natOfDigitList (JsStr.padEnd6Take6 fpart) : Nat))
      else none
  | _ => none

/-- One element of the `selected` array. -/
structure BudgetSelectedOrder where
  sellOrderId : String
  batchDenom : String
  quantity : String
  askAmount : String
  askDenom : String
  costMicro : Int
  deriving Repr, DecidableEq

/-- `BudgetOrderSelection` result record. -/
structure BudgetOrderSelection where
  orders : List BudgetSelectedOrder
  totalQuantity : String
  totalCostMicro : Int
  remainingBudgetMicro : Int
  paymentDenom : String
  displayDenom : String
  exponent : Int
  exhaustedBudget : Bool
  deriving Repr, DecidableEq

/-- The `for (const order of eligible)` loop of `selectOrdersForBudget`,
with state `(remainingBudget, totalQuantityMicro, totalCostMicro, selected)`.
Returns `(selected, totalQuantityMicro, totalCostMicro, remainingBudget)`. -/
def selectLoop : List SellOrder → Int → Int → Int → List BudgetSelectedOrder →
    List BudgetSelectedOrder × Int × Int × Int
  | [], remainingBudget, tq, tc, selected => (selected, tq, tc, remainingBudget)
  | order :: rest, remainingBudget, tq, tc, selected =>
      if remainingBudget ≤ 0 then (selected, tq, tc, remainingBudget)
      else
        match parseFloatToMicro? order.quantity with
        | none => selectLoop rest remainingBudget tq tc selected
        | some availableMicro =>
            if availableMicro ≤ 0 then selectLoop rest remainingBudget tq tc selected
            else
              let pricePerCreditMicro := askAmountInt order
              if pricePerCreditMicro ≤ 0 then selectLoop rest remainingBudget tq tc selected
              else
                let affordableMicro := (remainingBudget * 1000000).tdiv pricePerCreditMicro
                if affordableMicro ≤ 0 then selectLoop rest remainingBudget tq tc selected
                else
                  let takeMicro :=
                    if availableMicro < affordableMicro then availableMicro
                    else affordableMicro
                  if takeMicro ≤ 0 then selectLoop rest remainingBudget tq tc selected
                  else
                    let costMicro :=
                      (pricePerCreditMicro * takeMicro + 1000000 - 1).tdiv 1000000
                    if costMicro ≤ 0 ∨ costMicro > remainingBudget then
                      selectLoop rest remainingBudget tq tc selected
                    else
                      selectLoop rest (remainingBudget - costMicro) (tq + takeMicro)
                        (tc + costMicro)
                        (selected ++
                          [BudgetSelectedOrder.mk order.id order.batch_denom
                            (toMicroQuantityString takeMicro) order.ask_amount
                            order.ask_denom costMicro])

/-- `selectOrdersForBudget` from `order-selector-budget.ts`.  The three
ledger reads are a single awaited input `fetch` (they can themselves fail,
which is why the guard on `budgetMicro` must fire before the reads).
`now` is the clock used for the expiration filter. -/
def selectOrdersForBudget (creditType : Option CreditType) (budgetMicro : Int)
    (preferredDenom : Option String) (fetch : Except String LedgerData) (now : Int) :
    Except String BudgetOrderSelection :=
  if budgetMicro ≤ 0 then Except.error ("budgetMicro must be greater than zero")
  else do
    let data ← fetch
    let denomInfo := pickDenom data.allowedDenoms preferredDenom
    let eligible := data.sellOrders.filter (eligibleOrder data.classes denomInfo creditType now)
    let sortedEligible := eligible.insertionSort fun a b => askLe a b
    match selectLoop sortedEligible budgetMicro 0 0 [] with
    | (selected, totalQuantityMicro, totalCostMicro, remainingBudget) =>
        Except.ok
          { orders := selected
            totalQuantity := toMicroQuantityString totalQuantityMicro
            totalCostMicro := totalCostMicro
            remainingBudgetMicro := remainingBudget
            paymentDenom := denomInfo.bankDenom
            displayDenom := denomInfo.displayDenom
            exponent := denomInfo.exponent
            exhaustedBudget := remainingBudget == 0 }

/-- "Each selected order's cost is at most the budget remaining at the
moment the order is selected": the first order's cost is within `rb`, and
the rest are chain-bounded by what remains after it. -/
def chainBounded (rb : Int) : List BudgetSelectedOrder → Prop
  | [] => True
  | o :: rest => o.costMicro ≤ rb ∧ chainBounded (rb - o.costMicro) rest

end OrderSelector

namespace OrderSelector

theorem selectLoop_spec (orders : List SellOrder) :
    ∀ (rb tq tc : Int) (sel₀ : List BudgetSelectedOrder), 0 ≤ rb →
      ∃ L dq,
        selectLoop orders rb tq tc sel₀ =
          (sel₀ ++ L, tq + dq, tc + (L.map BudgetSelectedOrder.costMicro).sum,
            rb - (L.map BudgetSelectedOrder.costMicro).sum) ∧
          chainBounded rb L ∧
          0 ≤ (L.map BudgetSelectedOrder.costMicro).sum ∧
          (L.map BudgetSelectedOrder.costMicro).sum ≤ rb := by
  induction orders with
  | nil =>
      intro rb tq tc sel₀ hrb
      refine ⟨[], 0, ?_, trivial, by simp, by simpa using hrb⟩
      simp [selectLoop]
  | cons order rest ih =>
      intro rb tq tc sel₀ hrb
      rw [selectLoop]
      by_cases hrb0 : rb ≤ 0
      · rw [if_pos hrb0]
        exact ⟨[], 0, by simp, trivial, by simp, by simpa using hrb⟩
      · rw [if_neg hrb0]
        cases hpq : parseFloatToMicro? order.quantity with
        | none => exact ih rb tq tc sel₀ hrb
        | some availableMicro =>
            dsimp only
            by_cases hav : availableMicro ≤ 0
            · rw [if_pos hav]
              exact ih rb tq tc sel₀ hrb
            · rw [if_neg hav]
              by_cases hp : askAmountInt order ≤ 0
              · rw [if_pos hp]
                exact ih rb tq tc sel₀ hrb
              · rw [if_neg hp]
                by_cases haff : (rb * 1000000).tdiv (askAmountInt order) ≤ 0
                · rw [if_pos haff]
                  exact ih rb tq tc sel₀ hrb
                · rw [if_neg haff]
                  set takeMicro :=
                    if availableMicro < (rb * 1000000).tdiv (askAmountInt order) then
                      availableMicro
                    else (rb * 1000000).tdiv (askAmountInt order) with htake
                  by_cases htk : takeMicro ≤ 0
                  · rw [if_pos htk]
                    exact ih rb tq tc sel₀ hrb
                  · rw [if_neg htk]
                    set costMicro :=
                      (askAmountInt order * takeMicro + 1000000 - 1).tdiv 1000000 with hcost
                    by_cases hcb : costMicro ≤ 0 ∨ costMicro > rb
                    · rw [if_pos hcb]
                      exact ih rb tq tc sel₀ hrb
                    · rw [if_neg hcb]
                      push_neg at hcb
                      obtain ⟨hc0, hcrb⟩ := hcb
                      obtain ⟨L, dq, hrec, hchain, hnn, hle⟩ :=
                        ih (rb - costMicro) (tq + takeMicro) (tc + costMicro)
                          (sel₀ ++
                            [BudgetSelectedOrder.mk order.id order.batch_denom
                              (toMicroQuantityString takeMicro) order.ask_amount
                              order.ask_denom costMicro])
                          (by omega)
                      refine ⟨BudgetSelectedOrder.mk order.id order.batch_denom
                          (toMicroQuantityString takeMicro) order.ask_amount
                          order.ask_denom costMicro :: L, takeMicro + dq, ?_, ?_, ?_, ?_⟩
                      · rw [hrec]
                        simp only [List.map_cons, List.sum_cons, List.append_assoc,
                          List.singleton_append, Prod.mk.injEq]
                        refine ⟨trivial, by ring, by ring, by ring⟩
                      · exact ⟨hcrb, hchain⟩
                      · simp only [List.map_cons, List.sum_cons]
                        omega
                      · simp only [List.map_cons, List.sum_cons]
                        omega

end OrderSelector

/-- Decidable equality for `Except` (used to let `decide` evaluate the
embedded functions at concrete inputs). -/
instance {ε α : Type} [DecidableEq ε] [DecidableEq α] : DecidableEq (Except ε α) :=
  fun a b =>
    match a, b with
    | Except.error e, Except.error f =>
        if h : e = f then Decidable.isTrue (by rw [h])
        else Decidable.isFalse (by intro hc; injection hc; exact h (by assumption))
    | Except.error _, Except.ok _ => Decidable.isFalse (by intro hc; cases hc)
    | Except.ok _, Except.error _ => Decidable.isFalse (by intro hc; cases hc)
    | Except.ok x, Except.ok y =>
        if h : x = y then Decidable.isTrue (by rw [h])
        else Decidable.isFalse (by intro hc; injection hc; exact h (by assumption))

/-- **C2** For every call to `selectOrdersForBudget(creditType, budgetMicro,
preferredDenom)` that returns a selection, the cost charged for each
selected order (`ceil(pricePerCreditMicro × takeMicro / 1e6)`) is at most
the budget remaining at the moment that order is selected
(`chainBounded`), and the sum of all selected orders' `costMicro` is at
most `budgetMicro`. -/
theorem C2_budget_bound (creditType : Option OrderSelector.CreditType)
    (budgetMicro : Int) (preferredDenom : Option String)
    (data : OrderSelector.LedgerData) (now : Int)
    (sel : OrderSelector.BudgetOrderSelection)
    (h : OrderSelector.selectOrdersForBudget creditType budgetMicro preferredDenom
      (Except.ok data) now = Except.ok sel) :
    OrderSelector.chainBounded budgetMicro sel.orders ∧
      sel.totalCostMicro =
        (sel.orders.map OrderSelector.BudgetSelectedOrder.costMicro).sum ∧
      sel.totalCostMicro ≤ budgetMicro := by
  by_cases hb : budgetMicro ≤ 0
  · rw [OrderSelector.selectOrdersForBudget, if_pos hb] at h
    cases h
  · rw [OrderSelector.selectOrdersForBudget, if_neg hb] at h
    simp only [Bind.bind, Except.bind] at h
    obtain ⟨L, dq, hloop, hchain, hnn, hle⟩ :=
      OrderSelector.selectLoop_spec
        ((data.sellOrders.filter
            (OrderSelector.eligibleOrder data.classes
              (OrderSelector.pickDenom data.allowedDenoms preferredDenom) creditType
              now)).insertionSort fun a b => OrderSelector.askLe a b)
        budgetMicro 0 0 [] (by omega)
    rw [hloop] at h
    simp only [Except.ok.injEq] at h
    rw [← h]
    simp only [List.nil_append]
    exact ⟨hchain, by omega, by omega⟩

/-- Witness for C2: a single sell order of 5 credits at 1000 micro each
with budget 3500 micro; 3.5 credits are taken at cost 3500 ≤ 3500. -/
theorem C2_budget_bound_witness :
    OrderSelector.chainBounded 3500
        [OrderSelector.BudgetSelectedOrder.mk ("w1") ("C01-001") ("3.500000") ("1000")
          ("uregen") 3500] ∧
      (3500 : Int) =
        ([OrderSelector.BudgetSelectedOrder.mk ("w1") ("C01-001") ("3.500000") ("1000")
            ("uregen") 3500].map OrderSelector.BudgetSelectedOrder.costMicro).sum ∧
      (3500 : Int) ≤ 3500 := by
  have h := C2_budget_bound none 3500 none
    (OrderSelector.LedgerData.mk
      [OrderSelector.SellOrder.mk ("w1") ("C01-001") ("5") ("1000") ("uregen") false none]
      [] [])
    0
    (OrderSelector.BudgetOrderSelection.mk
      [OrderSelector.BudgetSelectedOrder.mk ("w1") ("C01-001") ("3.500000") ("1000")
        ("uregen") 3500]
      ("3.500000") 3500 0 ("uregen") ("REGEN") 6 true)
    (by decide)
  exact h

/-- **C7, counterexample** The spec's budget-mode scenario claims that with
orders `{ask:1000, qty:5}` and `{ask:2000, qty:5}` and budget 3500 the
selector fully takes the first order at cost 1000 for quantity 1.0 and
then 1.25 credits from the second at cost 2500 (total quantity 2.25).
The code does not do that: with 5 credits available at 1000 micro each,
the whole 3500 budget is affordable on the first order. -/
theorem C7_budget_scenario_counterexample :
    OrderSelector.selectOrdersForBudget none 3500 none
        (Except.ok (OrderSelector.LedgerData.mk
          [OrderSelector.SellOrder.mk ("1") ("C01-001") ("5") ("1000") ("uregen") false none,
            OrderSelector.SellOrder.mk ("2") ("C01-002") ("5") ("2000") ("uregen") false none]
          [] [])) 0 ≠
      Except.ok (OrderSelector.BudgetOrderSelection.mk
        [OrderSelector.BudgetSelectedOrder.mk ("1") ("C01-001") ("1.000000") ("1000")
          ("uregen") 1000,
          OrderSelector.BudgetSelectedOrder.mk ("2") ("C01-002") ("1.250000") ("2000")
            ("uregen") 2500]
        ("2.250000") 3500 0 ("uregen") ("REGEN") 6 true) := by
  decide

/-- **C7, amended** For the input sell orders `{ask:1000, qty:5}` and
`{ask:2000, qty:5}` with budget 3500 micro-units, `selectOrdersForBudget`
takes 3.5 credits from the first (cheapest) order at cost 3500 and never
reaches the second order, returning total cost 3500, total quantity
3.500000, and `remainingBudgetMicro = 0` with `exhaustedBudget = true`. -/
theorem C7_budget_scenario :
    OrderSelector.selectOrdersForBudget none 3500 none
        (Except.ok (OrderSelector.LedgerData.mk
          [OrderSelector.SellOrder.mk ("1") ("C01-001") ("5") ("1000") ("uregen") false none,
            OrderSelector.SellOrder.mk ("2") ("C01-002") ("5") ("2000") ("uregen") false none]
          [] [])) 0 =
      Except.ok (OrderSelector.BudgetOrderSelection.mk
        [OrderSelector.BudgetSelectedOrder.mk ("1") ("C01-001") ("3.500000") ("1000")
          ("uregen") 3500]
        ("3.500000") 3500 0 ("uregen") ("REGEN") 6 true) := by
  decide

/-- **C10** For every `budgetMicro ≤ 0`, `selectOrdersForBudget` throws
`"budgetMicro must be greater than zero"` before performing any ledger
read (the result is this error for every ledger outcome, including a
failing ledger), rather than returning an empty selection. -/
theorem C10_zero_budget_throws (creditType : Option OrderSelector.CreditType)
    (budgetMicro : Int) (preferredDenom : Option String)
    (fetch : Except String OrderSelector.LedgerData) (now : Int)
    (hb : budgetMicro ≤ 0) :
    OrderSelector.selectOrdersForBudget creditType budgetMicro preferredDenom fetch now =
      Except.error ("budgetMicro must be greater than zero") := by
  rw [OrderSelector.selectOrdersForBudget, if_pos hb]

/-- Witness for C10: a zero monthly-pool budget raises the error even when
the ledger itself would be unreachable (no ledger read happens first). -/
theorem C10_zero_budget_throws_witness :
    OrderSelector.selectOrdersForBudget none 0 none
        (Except.error ("ledger unreachable")) 0 =
      Except.error ("budgetMicro must be greater than zero") :=
  C10_zero_budget_throws none 0 none (Except.error ("ledger unreachable")) 0 (by decide)

namespace Retirement

/-- JS `a || b` for an optional string (empty string and `undefined` are falsy). -/
def jsOrStr (o : Option String) (d : String) : String :=
  match o with
  | some s => if s ≠ "" then s else d
  | none => d

/-- JS `params.quantity || 1` (`0` and `undefined` are falsy). -/
def jsOrOne (o : Option Int) : Int :=
  match o with
  | some q => if q ≠ 0 then q else 1
  | none => 1

/-- `padStart(n, "0")` on a character list. -/
def padStartN (n : Nat) (l : List Char) : List Char :=
  List.replicate (n - l.length) '0' ++ l

/-- `.replace(/0+$/, "")`: strip trailing zero characters. -/
def dropTrailingZeros (l : List Char) : List Char :=
  (l.reverse.dropWhile fun c => c = '0').reverse

/-- `formatAmount` from `retirement.ts`. -/
def formatAmount (amountMicro : Int) (exponent : Nat) (displayDenom : String) : String :=
  let divisor : Int := (10 : Int) ^ exponent
  let whole := amountMicro.tdiv divisor
  let frac := amountMicro.tmod divisor
  let fracStr := dropTrailingZeros (padStartN exponent (JsStr.jsBigIntToString frac).data)
  if fracStr ≠ [] then
    String.mk ((JsStr.jsBigIntToString whole).data ++ '.' :: fracStr ++ ' ' :: displayDenom.data)
  else
    String.mk ((JsStr.jsBigIntToString whole).data ++ ' ' :: displayDenom.data)

/-- `(cents / 100).toFixed(2)` for a non-negative integer number of cents
(the only uses in `retirement.ts`; exact for this integer range). -/
def centsToFixed2 (cents : Int) : String :=
  String.mk ((JsStr.jsBigIntToString (cents.tdiv 100)).data ++
    '.' :: padStartN 2 (JsStr.jsBigIntToString (cents.tmod 100)).data)

/-- `parseFloat(q).toFixed(4)` for the 6-decimal quantity strings the order
selector produces: round the micro-quantity to 4 decimal places, ties away
from zero.  `parseFloat` failures (`NaN`) render as `"NaN"`. -/
def quantityToFixed4 (q : String) : String :=
  match OrderSelector.parseFloatToMicro? q with
  | none => ("NaN")
  | some micro =>
      let t := (micro + 50).tdiv 100
      String.mk ((JsStr.jsBigIntToString (t.tdiv 10000)).data ++
        '.' :: padStartN 4 (JsStr.jsBigIntToString (t.tmod 10000)).data)

/-- A selected order inside a `selectBestOrders` result (fields used by
`executeRetirement`). -/
structure SelOrder where
  sellOrderId : String
  quantity : String
  askDenom : String
  askAmount : String
  deriving Repr, DecidableEq

/-- The `selectBestOrders` result record (fields used by `executeRetirement`). -/
structure Selection where
  orders : List SelOrder
  totalQuantity : String
  totalCostMicro : Int
  paymentDenom : String
  displayDenom : String
  exponent : Nat
  insufficientSupply : Bool
  deriving Repr, DecidableEq

/-- `Authorization` from the payment provider. -/
inductive AuthStatus where
  | authorized
  | failed
  deriving Repr, DecidableEq

structure Authorization where
  id : String
  status : AuthStatus
  message : Option String
  deriving Repr, DecidableEq

/-- `signAndBroadcast` result (`DeliverTxResponse` fields used). -/
structure TxResult where
  code : Int
  transactionHash : String
  height : Int
  rawLog : String
  deriving Repr, DecidableEq

/-- `checkPrepaidBalance` result (`null` on any fetch problem is `none`). -/
structure BalanceInfo where
  available : Bool
  balance_cents : Int
  topup_url : Option String
  deriving Repr, DecidableEq

/-- Retirement record returned by `waitForRetirement` (field used). -/
structure RetirementRecord where
  nodeId : String
  deriving Repr, DecidableEq

/-- The environment of one `executeRetirement` call: configuration plus the
outcome of every downstream call, in program order.  A `Except.error e`
models the awaited call throwing with message `e`. -/
structure World where
  walletConfigured : Bool
  marketplaceUrl : String
  defaultJurisdiction : String
  /-- `!!(config.balanceApiKey && config.balanceUrl)` -/
  balanceConfigured : Bool
  /-- result of `checkPrepaidBalance()` (it never throws; `null` → `none`) -/
  checkBalance : Option BalanceInfo
  /-- `initWallet()` -/
  initWallet : Except String String
  /-- `selectBestOrders(...)` -/
  selectBest : Except String Selection
  /-- `provider.authorizePayment(...)` -/
  authorize : Except String Authorization
  /-- `signAndBroadcast([msg])` -/
  broadcast : Except String TxResult
  /-- `provider.capturePayment(auth.id)` -/
  capture : Except String Unit
  /-- `provider.refundPayment(auth.id)` (its outcome is always swallowed) -/
  refund : Except String Unit
  /-- `waitForRetirement(txHash)` -/
  waitRetirement : Except String (Option RetirementRecord)
  /-- result of the final `checkPrepaidBalance()` on the success path -/
  checkBalanceAfter : Option BalanceInfo

/-- `RetirementParams`. -/
structure RetirementParams where
  creditClass : Option String
  quantity : Option Int
  beneficiaryName : Option String
  jurisdiction : Option String
  reason : Option String
  deriving Repr, DecidableEq

inductive ResultStatus where
  | success
  | marketplace_fallback
  deriving Repr, DecidableEq

/-- `RetirementResult` (the fields the claims are about, plus the ones the
fallback constructor sets). -/
structure RetirementResult where
  status : ResultStatus
  txHash : Option String
  creditsRetired : Option String
  cost : Option String
  blockHeight : Option Int
  certificateId : Option String
  marketplaceUrl : Option String
  message : Option String
  remainingBalanceCents : Option Int
  jurisdiction : Option String
  reason : Option String
  beneficiaryName : Option String
  deriving Repr, DecidableEq

/-- How many times each payment/ledger operation was invoked during the call. -/
structure Trace where
  authorizeCalls : Nat
  broadcastCalls : Nat
  captureCalls : Nat
  refundCalls : Nat
  deriving Repr, DecidableEq

def Trace.none : Trace := ⟨0, 0, 0, 0⟩

/-- `getMarketplaceLink()`. -/
def getMarketplaceLink (w : World) : String :=
  w.marketplaceUrl ++ "/projects/1?buying_options_filters=credit_card"

/-- The `fallback(message, params)` helper from `retirement.ts`. -/
def fallback (w : World) (message : String) (params : RetirementParams) :
    RetirementResult :=
  { status := ResultStatus.marketplace_fallback
    txHash := none
    creditsRetired := none
    cost := none
    blockHeight := none
    certificateId := none
    marketplaceUrl := some (getMarketplaceLink w)
    message := some message
    remainingBalanceCents := none
    jurisdiction := none
    reason := none
    beneficiaryName := params.beneficiaryName }

/-- The prepaid-balance gate inside `executeRetirement`
(`if (usePrepaid) { const balance = await checkPrepaidBalance(); if (!balance
|| !balance.available || balance.balance_cents < costCents) return fallback(...) }`):
`some r` when the run stops with fallback `r`, `none` when it continues. -/
def prepaidGate (w : World) (usePrepaid : Bool) (costCents : Int)
    (displayCost : String) (params : RetirementParams) : Option RetirementResult :=
  if usePrepaid then
    let balanceStr := match w.checkBalance with
      | some b => ("$") ++ centsToFixed2 b.balance_cents
      | none => ("$0.00")
    let topupNote := match w.checkBalance with
      | some b =>
          match b.topup_url with
          | some url => (" Top up your balance: ") ++ url
          | none => ("")
      | none => ("")
    match w.checkBalance with
    | none =>
        some (fallback w ("Insufficient prepaid balance. Need " ++ displayCost ++
          " but balance is " ++ balanceStr ++ "." ++ topupNote) params)
    | some balance =>
        if ¬ balance.available ∨ balance.balance_cents < costCents then
          some (fallback w ("Insufficient prepaid balance. Need " ++ displayCost ++
            " but balance is " ++ balanceStr ++ "." ++ topupNote) params)
        else none
  else none

/-- `executeRetirement` from `retirement.ts`, with the outcome of each
awaited downstream call drawn from the `World`.  The function is total:
every fault maps to a `marketplace_fallback` result (the structure of the
source's outer `try`/`catch`).  The returned `Trace` counts the
payment-provider and broadcast invocations. -/
def executeRetirement (w : World) (params : RetirementParams) :
    RetirementResult × Trace :=
  -- Path A: no wallet -> marketplace link
  if ¬ w.walletConfigured then
    match w.checkBalance with
    | some balance =>
        if balance.available then
          (fallback w ("You have a prepaid balance of $" ++
            centsToFixed2 balance.balance_cents ++
            ", but no REGEN wallet is configured for on-chain retirement. " ++
            "Set REGEN_WALLET_MNEMONIC in your .env to enable automatic retirement from your balance.")
            params, Trace.none)
        else (fallback w ("No wallet configured for on-chain retirement.") params, Trace.none)
    | none => (fallback w ("No wallet configured for on-chain retirement.") params, Trace.none)
  else
    -- Path B: direct on-chain retirement (wrapped in try/catch)
    let usePrepaid := w.balanceConfigured
    let retireQuantity := jsOrOne params.quantity
    match w.initWallet with
    | Except.error e => (fallback w ("Direct retirement failed: " ++ e) params, Trace.none)
    | Except.ok _address =>
    match w.selectBest with
    | Except.error e => (fallback w ("Direct retirement failed: " ++ e) params, Trace.none)
    | Except.ok selection =>
    if selection.orders.length = 0 then
      (fallback w ("No matching sell orders found on-chain. Try the marketplace instead.")
        params, Trace.none)
    else if selection.insufficientSupply then
      (fallback w ("Only " ++ quantityToFixed4 selection.totalQuantity ++
        " credits available on-chain (requested " ++ JsStr.jsBigIntToString retireQuantity ++
        "). You can try a smaller quantity or use the marketplace.") params, Trace.none)
    else
    let costCents := selection.totalCostMicro.tdiv ((10 : Int) ^ (selection.exponent - 2))
    let displayCost := formatAmount selection.totalCostMicro selection.exponent
      selection.displayDenom
    match prepaidGate w usePrepaid costCents displayCost params with
    | some r => (r, Trace.none)
    | none =>
    match w.authorize with
    | Except.error e =>
        (fallback w ("Direct retirement failed: " ++ e) params, ⟨1, 0, 0, 0⟩)
    | Except.ok auth =>
    if auth.status = AuthStatus.failed then
      (fallback w (jsOrStr auth.message ("Insufficient wallet balance. Need " ++ displayCost ++
        " to purchase " ++ JsStr.jsBigIntToString retireQuantity ++ " credits.")) params,
        ⟨1, 0, 0, 0⟩)
    else
    match w.broadcast with
    | Except.error errMsg =>
        -- `try { await provider.refundPayment(auth.id); } catch { /* ignore */ }`
        (fallback w ("Transaction broadcast failed: " ++ errMsg) params, ⟨1, 1, 0, 1⟩)
    | Except.ok txResult =>
    if txResult.code ≠ 0 then
      (fallback w ("Transaction rejected (code " ++ JsStr.jsBigIntToString txResult.code ++
        "): " ++ (if txResult.rawLog ≠ "" then txResult.rawLog else ("unknown error")))
        params, ⟨1, 1, 0, 1⟩)
    else
    match w.capture with
    | Except.error e =>
        -- capture threw after a successful broadcast: outer catch, hold retained
        (fallback w ("Direct retirement failed: " ++ e) params, ⟨1, 1, 1, 0⟩)
    | Except.ok _ =>
    -- prepaid debit errors are swallowed inside `debitPrepaidBalance`
    match w.waitRetirement with
    | Except.error e =>
        (fallback w ("Direct retirement failed: " ++ e) params, ⟨1, 1, 1, 0⟩)
    | Except.ok retirement =>
        ({ status := ResultStatus.success
           txHash := some txResult.transactionHash
           creditsRetired := some selection.totalQuantity
           cost := some displayCost
           blockHeight := some txResult.height
           certificateId := retirement.map RetirementRecord.nodeId
           marketplaceUrl := none
           message := none
           remainingBalanceCents :=
             if usePrepaid then (w.checkBalanceAfter).map BalanceInfo.balance_cents
             else none
           jurisdiction := some (jsOrStr params.jurisdiction w.defaultJurisdiction)
           reason := some (jsOrStr params.reason
             ("Regenerative contribution via Regenerative Compute"))
           beneficiaryName := params.beneficiaryName }, ⟨1, 1, 1, 0⟩)

end Retirement

namespace Retirement

set_option maxHeartbeats 2000000 in
/-- Case analysis of `executeRetirement`'s control flow, as seen through
the call trace: either the run never reached the payment provider, or it
stopped right after `authorize`, or the broadcast threw (refund, no
capture), or the broadcast was rejected with a nonzero code (refund, no
capture), or the broadcast succeeded with code 0 (capture, no refund). -/
theorem executeRetirement_trace_cases (w : World) (params : RetirementParams) :
    (executeRetirement w params).2 = Trace.none ∨
      (executeRetirement w params).2 = ⟨1, 0, 0, 0⟩ ∨
      (∃ e, w.broadcast = Except.error e ∧
        executeRetirement w params =
          (fallback w ("Transaction broadcast failed: " ++ e) params, ⟨1, 1, 0, 1⟩)) ∨
      (∃ tx, w.broadcast = Except.ok tx ∧ tx.code ≠ 0 ∧
        executeRetirement w params =
          (fallback w ("Transaction rejected (code " ++ JsStr.jsBigIntToString tx.code ++
            "): " ++ (if tx.rawLog ≠ "" then tx.rawLog else ("unknown error"))) params,
            ⟨1, 1, 0, 1⟩)) ∨
      (∃ tx, w.broadcast = Except.ok tx ∧ tx.code = 0 ∧
        (executeRetirement w params).2 = ⟨1, 1, 1, 0⟩) := by
  unfold executeRetirement
  dsimp only
  repeat' split
  all_goals
    first
    | exact Or.inl rfl
    | exact Or.inr (Or.inl rfl)
    | exact Or.inr (Or.inr (Or.inl ⟨_, by assumption, rfl⟩))
    | exact Or.inr (Or.inr (Or.inr (Or.inl ⟨_, by assumption, by assumption,
        by first | rfl | rw [if_pos (by assumption)] | rw [if_neg (by assumption)]⟩)))
    | exact Or.inr (Or.inr (Or.inr (Or.inr ⟨_, by assumption, by omega, rfl⟩)))

end Retirement

/-- **C3** For every fault on a downstream call, `executeRetirement` never
raises to its caller: the result is always a success or a
`marketplace_fallback`; if `signAndBroadcast` throws, or returns a result
with `code ≠ 0`, the service calls `refund` on the payment authorization
before returning and never calls `capture`, and the returned value is a
`marketplace_fallback` result carrying the error text; `capture` is called
only after a broadcast that returned `code == 0`. -/
theorem C3_retirement_fault_handling (w : Retirement.World)
    (params : Retirement.RetirementParams) :
    ((Retirement.executeRetirement w params).1.status = Retirement.ResultStatus.success ∨
      (Retirement.executeRetirement w params).1.status =
        Retirement.ResultStatus.marketplace_fallback) ∧
    (∀ e, w.broadcast = Except.error e →
      1 ≤ (Retirement.executeRetirement w params).2.broadcastCalls →
      (Retirement.executeRetirement w params).2.refundCalls = 1 ∧
        (Retirement.executeRetirement w params).2.captureCalls = 0 ∧
        (Retirement.executeRetirement w params).1.status =
          Retirement.ResultStatus.marketplace_fallback ∧
        (Retirement.executeRetirement w params).1.message =
          some ("Transaction broadcast failed: " ++ e)) ∧
    (∀ tx, w.broadcast = Except.ok tx → tx.code ≠ 0 →
      1 ≤ (Retirement.executeRetirement w params).2.broadcastCalls →
      (Retirement.executeRetirement w params).2.refundCalls = 1 ∧
        (Retirement.executeRetirement w params).2.captureCalls = 0 ∧
        (Retirement.executeRetirement w params).1.status =
          Retirement.ResultStatus.marketplace_fallback ∧
        (Retirement.executeRetirement w params).1.message =
          some ("Transaction rejected (code " ++ JsStr.jsBigIntToString tx.code ++ "): " ++
            (if tx.rawLog ≠ "" then tx.rawLog else ("unknown error")))) ∧
    (1 ≤ (Retirement.executeRetirement w params).2.captureCalls →
      ∃ tx, w.broadcast = Except.ok tx ∧ tx.code = 0) := by
  refine ⟨?_, ?_, ?_, ?_⟩
  · cases (Retirement.executeRetirement w params).1.status
    · exact Or.inl rfl
    · exact Or.inr rfl
  · intro e hbe hbc
    rcases Retirement.executeRetirement_trace_cases w params with
      h | h | ⟨e2, he2, heq⟩ | ⟨tx2, htx2, hc2, heq⟩ | ⟨tx2, htx2, hc2, h2⟩
    · rw [h] at hbc; exact absurd hbc (by decide)
    · rw [h] at hbc; exact absurd hbc (by decide)
    · have : e2 = e := by
        rw [hbe] at he2
        injection he2 with h3
        exact h3.symm
      subst this
      rw [heq]
      exact ⟨rfl, rfl, rfl, rfl⟩
    · rw [hbe] at htx2
      cases htx2
    · rw [hbe] at htx2
      cases htx2
  · intro tx htx hcode hbc
    rcases Retirement.executeRetirement_trace_cases w params with
      h | h | ⟨e2, he2, heq⟩ | ⟨tx2, htx2, hc2, heq⟩ | ⟨tx2, htx2, hc2, h2⟩
    · rw [h] at hbc; exact absurd hbc (by decide)
    · rw [h] at hbc; exact absurd hbc (by decide)
    · rw [htx] at he2
      cases he2
    · have : tx2 = tx := by
        rw [htx] at htx2
        injection htx2 with h3
        exact h3.symm
      subst this
      rw [heq]
      exact ⟨rfl, rfl, rfl, rfl⟩
    · have : tx2 = tx := by
        rw [htx] at htx2
        injection htx2 with h3
        exact h3.symm
      subst this
      exact absurd hc2 hcode
  · intro hcap
    rcases Retirement.executeRetirement_trace_cases w params with
      h | h | ⟨e2, he2, heq⟩ | ⟨tx2, htx2, hc2, heq⟩ | ⟨tx2, htx2, hc2, h2⟩
    · rw [h] at hcap; exact absurd hcap (by decide)
    · rw [h] at hcap; exact absurd hcap (by decide)
    · rw [heq] at hcap; simp at hcap
    · rw [heq] at hcap; simp at hcap
    · exact ⟨tx2, htx2, hc2⟩

/-- Witness for C3: the spec's scenario 5 — wallet configured, one order
selected, authorization granted, `signAndBroadcast` throws
`"rpc unavailable"`: refund is called exactly once, capture never, and the
result is a marketplace fallback carrying the error text. -/
theorem C3_retirement_fault_handling_witness :
    (Retirement.executeRetirement
        (Retirement.World.mk true ("https://app.regen.network") ("US-OR") false none
          (Except.ok ("regen1demo"))
          (Except.ok (Retirement.Selection.mk
            [Retirement.SelOrder.mk ("42") ("1.000000") ("uregen") ("1000")]
            ("1.000000") 1000 ("uregen") ("REGEN") 6 false))
          (Except.ok (Retirement.Authorization.mk ("auth_1")
            Retirement.AuthStatus.authorized none))
          (Except.error ("rpc unavailable")) (Except.ok ()) (Except.ok ())
          (Except.ok none) none)
        (Retirement.RetirementParams.mk none none none none none)).2.refundCalls = 1 ∧
    (Retirement.executeRetirement
        (Retirement.World.mk true ("https://app.regen.network") ("US-OR") false none
          (Except.ok ("regen1demo"))
          (Except.ok (Retirement.Selection.mk
            [Retirement.SelOrder.mk ("42") ("1.000000") ("uregen") ("1000")]
            ("1.000000") 1000 ("uregen") ("REGEN") 6 false))
          (Except.ok (Retirement.Authorization.mk ("auth_1")
            Retirement.AuthStatus.authorized none))
          (Except.error ("rpc unavailable")) (Except.ok ()) (Except.ok ())
          (Except.ok none) none)
        (Retirement.RetirementParams.mk none none none none none)).2.captureCalls = 0 ∧
    (Retirement.executeRetirement
        (Retirement.World.mk true ("https://app.regen.network") ("US-OR") false none
          (Except.ok ("regen1demo"))
          (Except.ok (Retirement.Selection.mk
            [Retirement.SelOrder.mk ("42") ("1.000000") ("uregen") ("1000")]
            ("1.000000") 1000 ("uregen") ("REGEN") 6 false))
          (Except.ok (Retirement.Authorization.mk ("auth_1")
            Retirement.AuthStatus.authorized none))
          (Except.error ("rpc unavailable")) (Except.ok ()) (Except.ok ())
          (Except.ok none) none)
        (Retirement.RetirementParams.mk none none none none none)).1.status =
      Retirement.ResultStatus.marketplace_fallback ∧
    (Retirement.executeRetirement
        (Retirement.World.mk true ("https://app.regen.network") ("US-OR") false none
          (Except.ok ("regen1demo"))
          (Except.ok (Retirement.Selection.mk
            [Retirement.SelOrder.mk ("42") ("1.000000") ("uregen") ("1000")]
            ("1.000000") 1000 ("uregen") ("REGEN") 6 false))
          (Except.ok (Retirement.Authorization.mk ("auth_1")
            Retirement.AuthStatus.authorized none))
          (Except.error ("rpc unavailable")) (Except.ok ()) (Except.ok ())
          (Except.ok none) none)
        (Retirement.RetirementParams.mk none none none none none)).1.message =
      some ("Transaction broadcast failed: rpc unavailable") := by
  have h := (C3_retirement_fault_handling
    (Retirement.World.mk true ("https://app.regen.network") ("US-OR") false none
      (Except.ok ("regen1demo"))
      (Except.ok (Retirement.Selection.mk
        [Retirement.SelOrder.mk ("42") ("1.000000") ("uregen") ("1000")]
        ("1.000000") 1000 ("uregen") ("REGEN") 6 false))
      (Except.ok (Retirement.Authorization.mk ("auth_1")
        Retirement.AuthStatus.authorized none))
      (Except.error ("rpc unavailable")) (Except.ok ()) (Except.ok ())
      (Except.ok none) none)
    (Retirement.RetirementParams.mk none none none none none)).2.1
    ("rpc unavailable") rfl (by decide)
  exact h

namespace WebhookServer

/-- Transaction types in the `transactions` table (`CHECK(type IN ('topup',
'retirement'))`). -/
inductive TxnType where
  | topup
  | retirement
  deriving Repr, DecidableEq

/-- A row of the `users` table of `server/db.ts`. -/
structure User where
  id : Nat
  api_key : String
  email : Option String
  balance_cents : Int
  stripe_customer_id : Option String
  deriving Repr, DecidableEq

/-- A row of the `transactions` table (the columns the webhook path writes). -/
structure Txn where
  user_id : Nat
  type : TxnType
  amount_cents : Int
  description : Option String
  stripe_session_id : Option String
  deriving Repr, DecidableEq

/-- The SQLite database: both tables, in rowid order. -/
structure Db where
  users : List User
  transactions : List Txn
  deriving Repr, DecidableEq

/-- `getUserByEmail` (`SELECT * FROM users WHERE email = ?`, first row in
rowid order). -/
def getUserByEmail (db : Db) (email : String) : Option User :=
  db.users.find? fun u => u.email == some email

/-- `createUser`: insert a fresh user with the generated API key (the
`randomBytes` key generation is an input) and zero balance;
`AUTOINCREMENT` assigns `rowid = n + 1`. -/
def createUser (db : Db) (email : Option String) (stripeCustomerId : Option String)
    (apiKey : String) : Db × User :=
  let user : User := ⟨db.users.length + 1, apiKey, email, 0, stripeCustomerId⟩
  (⟨db.users ++ [user], db.transactions⟩, user)

/-- `creditBalance`: one transaction that bumps the user's balance and
inserts a `topup` row carrying the Stripe session id. -/
def creditBalance (db : Db) (userId : Nat) (amountCents : Int)
    (stripeSessionId : String) (description : String) : Db :=
  { users := db.users.map fun u =>
      if u.id = userId then { u with balance_cents := u.balance_cents + amountCents }
      else u
    transactions := db.transactions ++
      [⟨userId, TxnType.topup, amountCents, some description, some stripeSessionId⟩] }

/-- A Stripe event as the webhook handler reads it
(`event.type`, `event.id`, and the checkout-session object's
`amount_total`, `customer_email`, `customer_details?.email`, `customer`). -/
structure Event where
  type : String
  id : String
  amount_total : Option Int
  customer_email : Option String
  customer_details_email : Option String
  customer : Option String
  deriving Repr, DecidableEq

/-- The `checkout.session.completed` branch of the handler: find or create
the user keyed by email, credit the balance.  `newApiKey` models the
`generateApiKey()` randomness used when a user is created. -/
def processEvent (event : Event) (db : Db) (newApiKey : String) : Nat × Db :=
  if event.type == "checkout.session.completed" then
    let amountCents := event.amount_total.getD 0
    let email : Option String :=
      match event.customer_email with
      | some e => some e
      | none => event.customer_details_email
    let stripeCustomerId := event.customer
    let user0 : Option User :=
      if OrderSelector.strTruthy email then getUserByEmail db (email.getD ("")) else none
    match user0 with
    | some user =>
        (200, creditBalance db user.id amountCents event.id
          ("Stripe top-up: $" ++ Retirement.centsToFixed2 amountCents))
    | none =>
        let created := createUser db email stripeCustomerId newApiKey
        (200, creditBalance created.1 created.2.id amountCents event.id
          ("Stripe top-up: $" ++ Retirement.centsToFixed2 amountCents))
  else (200, db)

/-- The `POST /webhook` handler from `server/routes.ts`.  `webhookSecret`
is `process.env.STRIPE_WEBHOOK_SECRET`, `sig` the `stripe-signature`
header; `verify` is the outcome of `stripe.webhooks.constructEvent`
(`Except.error` = signature verification threw); `rawEvent` is the parsed
raw body used on the no-verification branch.  Returns the HTTP status and
the database after the request. -/
def webhookHandler (webhookSecret sig : Option String)
    (verify : Except String Event) (rawEvent : Event) (db : Db)
    (newApiKey : String) : Nat × Db :=
  if OrderSelector.strTruthy webhookSecret ∧ OrderSelector.strTruthy sig then
    match verify with
    | Except.error _ => (400, db)
    | Except.ok event => processEvent event db newApiKey
  else
    -- "In test mode without webhook secret, parse the raw body"
    processEvent rawEvent db newApiKey

end WebhookServer

namespace WebhookServer

theorem getUserByEmail_creditBalance (db : Db) (uid : Nat) (amt : Int)
    (sid desc : String) (em : String) :
    getUserByEmail (creditBalance db uid amt sid desc) em =
      (getUserByEmail db em).map fun u =>
        if u.id = uid then { u with balance_cents := u.balance_cents + amt } else u := by
  unfold getUserByEmail creditBalance
  rw [List.find?_map]
  have hp : ((fun u : User => u.email == some em) ∘ fun u : User =>
      if u.id = uid then { u with balance_cents := u.balance_cents + amt } else u) =
      fun u : User => u.email == some em := by
    funext u
    simp only [Function.comp_apply]
    split <;> rfl
  rw [hp]

end WebhookServer

/-- **C5** The claim is that whenever a Stripe webhook secret is
configured, every `POST /webhook` request whose signature is missing or
fails verification is rejected with status 400 and is not processed.
The code only rejects when the signature header is *present* and fails
verification (first conjunct); when the secret is configured but the
`stripe-signature` header is missing, the `webhookSecret && sig` guard
falls into the parse-raw-body branch — whose own comment says it is for
"test mode without webhook secret" — and the event is fully processed:
status 200, a user is created and the balance is credited (second
conjunct). -/
theorem C5_webhook_signature_bypass :
    WebhookServer.webhookHandler (some ("whsec_x")) (some ("t=1,v1=bad"))
        (Except.error ("No signatures found matching the expected signature for payload"))
        (WebhookServer.Event.mk ("checkout.session.completed") ("cs_1") (some 500)
          (some ("a@x.com")) none (some ("cus_1")))
        (WebhookServer.Db.mk [] []) ("rfa_k1") =
      (400, WebhookServer.Db.mk [] []) ∧
    WebhookServer.webhookHandler (some ("whsec_x")) none
        (Except.error ("Webhook payload must be provided"))
        (WebhookServer.Event.mk ("checkout.session.completed") ("cs_1") (some 500)
          (some ("a@x.com")) none (some ("cus_1")))
        (WebhookServer.Db.mk [] []) ("rfa_k1") =
      (200, WebhookServer.Db.mk
        [WebhookServer.User.mk 1 ("rfa_k1") (some ("a@x.com")) 500 (some ("cus_1"))]
        [WebhookServer.Txn.mk 1 WebhookServer.TxnType.topup 500
          (some ("Stripe top-up: $5.00")) (some ("cs_1"))]) := by
  constructor
  · rfl
  · decide

/-- **C6, counterexample** Replaying the same verified
`checkout.session.completed` event is *not* a no-op: the second delivery
changes the database again — the user's balance doubles to 1000 and a
second `topup` row (same `stripe_session_id`) is appended.  No
`externalEventId`-style dedup exists on this path. -/
theorem C6_webhook_replay_counterexample :
    (WebhookServer.webhookHandler (some ("whsec_x")) (some ("t=1,v1=good"))
        (Except.ok (WebhookServer.Event.mk ("checkout.session.completed") ("cs_1")
          (some 500) (some ("a@x.com")) none (some ("cus_1"))))
        (WebhookServer.Event.mk ("checkout.session.completed") ("cs_1") (some 500)
          (some ("a@x.com")) none (some ("cus_1")))
        ((WebhookServer.webhookHandler (some ("whsec_x")) (some ("t=1,v1=good"))
          (Except.ok (WebhookServer.Event.mk ("checkout.session.completed") ("cs_1")
            (some 500) (some ("a@x.com")) none (some ("cus_1"))))
          (WebhookServer.Event.mk ("checkout.session.completed") ("cs_1") (some 500)
            (some ("a@x.com")) none (some ("cus_1")))
          (WebhookServer.Db.mk [] []) ("rfa_k1")).2) ("rfa_k2")).2 =
      WebhookServer.Db.mk
        [WebhookServer.User.mk 1 ("rfa_k1") (some ("a@x.com")) 1000 (some ("cus_1"))]
        [WebhookServer.Txn.mk 1 WebhookServer.TxnType.topup 500
          (some ("Stripe top-up: $5.00")) (some ("cs_1")),
          WebhookServer.Txn.mk 1 WebhookServer.TxnType.topup 500
            (some ("Stripe top-up: $5.00")) (some ("cs_1"))] := by
  decide

/-- **C6, amended** Processing the same checkout-completed webhook event
twice credits the user's prepaid balance twice: the receiver records a
`topup` transaction carrying `stripe_session_id = event.id` but performs
no `externalEventId`-based deduplication (dedup on
`externalEventId = "stripe_invoice:" + id` exists only in pool
accounting), so a webhook replay of an already-processed event adds the
amount to the balance again and appends a second transaction record. -/
theorem C6_webhook_replay_credits_again (secret sig : Option String) (e : WebhookServer.Event)
    (db : WebhookServer.Db) (k1 k2 em : String) (u : WebhookServer.User)
    (hsec : OrderSelector.strTruthy secret = true)
    (hsig : OrderSelector.strTruthy sig = true)
    (htype : e.type = ("checkout.session.completed"))
    (hemail : e.customer_email = some em)
    (hem : em ≠ "")
    (hu : WebhookServer.getUserByEmail db em = some u) :
    ∃ u2, WebhookServer.getUserByEmail
        ((WebhookServer.webhookHandler secret sig (Except.ok e) e
          ((WebhookServer.webhookHandler secret sig (Except.ok e) e db k1).2) k2).2) em =
        some u2 ∧
      u2.balance_cents = u.balance_cents + 2 * (e.amount_total.getD 0) ∧
      ((WebhookServer.webhookHandler secret sig (Except.ok e) e
          ((WebhookServer.webhookHandler secret sig (Except.ok e) e db k1).2) k2).2).transactions.length =
        db.transactions.length + 2 := by
  have hcond : OrderSelector.strTruthy secret = true ∧ OrderSelector.strTruthy sig = true :=
    ⟨hsec, hsig⟩
  have htype2 : (e.type == ("checkout.session.completed")) = true := by
    rw [htype]; rfl
  have hstep : ∀ (d : WebhookServer.Db) (k : String) (u0 : WebhookServer.User),
      WebhookServer.getUserByEmail d em = some u0 →
      (WebhookServer.webhookHandler secret sig (Except.ok e) e d k).2 =
        WebhookServer.creditBalance d u0.id (e.amount_total.getD 0) e.id
          ("Stripe top-up: $" ++ Retirement.centsToFixed2 (e.amount_total.getD 0)) := by
    intro d k u0 hu0
    rw [WebhookServer.webhookHandler, if_pos hcond]
    rw [WebhookServer.processEvent, if_pos htype2, hemail]
    have : OrderSelector.strTruthy (some em) = true := by
      simp [OrderSelector.strTruthy, hem]
    dsimp only
    rw [if_pos this, show (some em).getD ("") = em from rfl, hu0]
  have h1 := hstep db k1 u hu
  have hu1 : WebhookServer.getUserByEmail
      ((WebhookServer.webhookHandler secret sig (Except.ok e) e db k1).2) em =
      some { u with balance_cents := u.balance_cents + e.amount_total.getD 0 } := by
    rw [h1, WebhookServer.getUserByEmail_creditBalance, hu]
    simp
  have h2 := hstep _ k2 _ hu1
  refine ⟨{ u with balance_cents := u.balance_cents + e.amount_total.getD 0 +
      e.amount_total.getD 0 }, ?_, by simp; ring, ?_⟩
  · rw [h2, WebhookServer.getUserByEmail_creditBalance, hu1]
    simp
  · rw [h2, h1]
    simp [WebhookServer.creditBalance]

/-- Witness for C6 (amended): one user with 0¢, the event of the
counterexample delivered twice ends at balance 1000 = 0 + 2·500 with two
transaction rows. -/
theorem C6_webhook_replay_credits_again_witness :
    ∃ u2, WebhookServer.getUserByEmail
        ((WebhookServer.webhookHandler (some ("whsec_x")) (some ("t=1,v1=good"))
          (Except.ok (WebhookServer.Event.mk ("checkout.session.completed") ("cs_1")
            (some 500) (some ("a@x.com")) none (some ("cus_1"))))
          (WebhookServer.Event.mk ("checkout.session.completed") ("cs_1") (some 500)
            (some ("a@x.com")) none (some ("cus_1")))
          ((WebhookServer.webhookHandler (some ("whsec_x")) (some ("t=1,v1=good"))
            (Except.ok (WebhookServer.Event.mk ("checkout.session.completed") ("cs_1")
              (some 500) (some ("a@x.com")) none (some ("cus_1"))))
            (WebhookServer.Event.mk ("checkout.session.completed") ("cs_1") (some 500)
              (some ("a@x.com")) none (some ("cus_1")))
            (WebhookServer.Db.mk
              [WebhookServer.User.mk 1 ("rfa_k0") (some ("a@x.com")) 0 none] []) ("rfa_k1")).2)
          ("rfa_k2")).2) ("a@x.com") = some u2 ∧
      u2.balance_cents = 0 + 2 * 500 ∧
      ((WebhookServer.webhookHandler (some ("whsec_x")) (some ("t=1,v1=good"))
          (Except.ok (WebhookServer.Event.mk ("checkout.session.completed") ("cs_1")
            (some 500) (some ("a@x.com")) none (some ("cus_1"))))
          (WebhookServer.Event.mk ("checkout.session.completed") ("cs_1") (some 500)
            (some ("a@x.com")) none (some ("cus_1")))
          ((WebhookServer.webhookHandler (some ("whsec_x")) (some ("t=1,v1=good"))
            (Except.ok (WebhookServer.Event.mk ("checkout.session.completed") ("cs_1")
              (some 500) (some ("a@x.com")) none (some ("cus_1"))))
            (WebhookServer.Event.mk ("checkout.session.completed") ("cs_1") (some 500)
              (some ("a@x.com")) none (some ("cus_1")))
            (WebhookServer.Db.mk
              [WebhookServer.User.mk 1 ("rfa_k0") (some ("a@x.com")) 0 none] []) ("rfa_k1")).2)
          ("rfa_k2")).2).transactions.length = 0 + 2 := by
  have h := C6_webhook_replay_credits_again (some ("whsec_x")) (some ("t=1,v1=good"))
    (WebhookServer.Event.mk ("checkout.session.completed") ("cs_1") (some 500)
      (some ("a@x.com")) none (some ("cus_1")))
    (WebhookServer.Db.mk [WebhookServer.User.mk 1 ("rfa_k0") (some ("a@x.com")) 0 none] [])
    ("rfa_k1") ("rfa_k2") ("a@x.com")
    (WebhookServer.User.mk 1 ("rfa_k0") (some ("a@x.com")) 0 none)
    (by decide) (by decide) rfl rfl (by decide) (by decide)
  simpa using h

namespace JsStr

/-- JS whitespace (the `\s` class and `String#trim`): the ASCII whitespace
characters and no-break space.  (The full JS class also contains the other
Unicode space separators, which do not occur in this development.) -/
def isWsChar (c : Char) : Bool :=
  c == ' ' || c == '\t' || c == '\n' || c == '\r' || c == '\x0b' || c == '\x0c' ||
    c == ' '

/-- `String#trim`: drop leading and trailing whitespace. -/
def jsTrim (s : String) : String :=
  String.mk (((s.data.dropWhile isWsChar).reverse.dropWhile isWsChar).reverse)

/-- `String#toLowerCase`, char by char (kernel-computable form of
`String.toLower`). -/
def jsToLower (s : String) : String := String.mk (s.data.map Char.toLower)

/-- Truthiness of an optional JS string: `undefined`, `null` and `""` are
falsy. -/
def strFalsy (o : Option String) : Bool := o.isNone || o == some ("")

/-- Truthiness of an optional integer-valued JS number: `undefined`,
`null` and `0` are falsy. -/
def intFalsy (o : Option Int) : Bool := o.isNone || o == some 0

/-- `a || b` on two optional JS strings. -/
def jsOrOpt (a b : Option String) : Option String := if strFalsy a then b else a

end JsStr

namespace PoolSync

/-- The fields of a Stripe invoice object that `normalizePaidInvoice`
reads (`status_transitions?.paid_at` is flattened to `paid_at` and
`lines?.data?.[0]?.price?.id` to `line_price_id`). -/
structure StripeInvoice where
  id : String
  customer : Option String
  customer_email : Option String
  subscription : Option String
  amount_paid : Option Int
  currency : Option String
  paid_at : Option Int
  line_price_id : Option String
  deriving Repr, DecidableEq

/-- A page of `GET /invoices` (`StripeListResponse<StripeInvoice>`). -/
structure StripeListResponse where
  data : List StripeInvoice
  has_more : Option Bool
  deriving Repr, DecidableEq

/-- `PaidInvoice` of `stripe.ts`. -/
structure PaidInvoice where
  invoiceId : String
  customerId : String
  customerEmail : Option String
  subscriptionId : Option String
  priceId : Option String
  amountPaidCents : Int
  paidAt : String
  deriving Repr, DecidableEq

/-- `PaidInvoiceAcrossCustomersResult` of `stripe.ts`: the invoices plus
the pagination metadata. -/
structure PaidInvoiceAcrossCustomersResult where
  invoices : List PaidInvoice
  truncated : Bool
  hasMore : Bool
  pageCount : Nat
  maxPages : Nat
  deriving Repr, DecidableEq

/-- `normalizePaidInvoice`.  `epochToIso` stands for
`new Date(epoch * 1000).toISOString()` (date formatting itself is not
embedded); `fallbackId` and `fallbackEmail` are `fallbackCustomer?.id` and
`fallbackCustomer?.email` (`undefined` on the across-customers path). -/
def normalizePaidInvoice (epochToIso : Int → String)
    (fallbackId fallbackEmail : Option String) (invoice : StripeInvoice) :
    Option PaidInvoice :=
  let paidAtEpoch := invoice.paid_at
  let amountPaidCents := invoice.amount_paid
  let currency := JsStr.jsToLower (invoice.currency.getD (""))
  let customerId := JsStr.jsOrOpt invoice.customer fallbackId
  if JsStr.strFalsy customerId || JsStr.intFalsy paidAtEpoch ||
      JsStr.intFalsy amountPaidCents || decide (amountPaidCents.getD 0 ≤ 0) ||
      !(currency == ("usd")) then
    none
  else
    some { invoiceId := invoice.id
         , customerId := customerId.getD ("")
         , customerEmail := JsStr.jsOrOpt invoice.customer_email fallbackEmail
         , subscriptionId := invoice.subscription
         , priceId := invoice.line_price_id
         , amountPaidCents := amountPaidCents.getD 0
         , paidAt := epochToIso (paidAtEpoch.getD 0) }

/-- `clampInvoiceFetchLimit` (a `rawLimit` that is not an integer number
is modeled as `none`, taking the fallback). -/
def clampInvoiceFetchLimit (rawLimit : Option Int) : Int :=
  match rawLimit with
  | some l => min 100 (max 1 l)
  | none => 100

/-- The `maxPages` clamp of `listPaidInvoicesAcrossCustomers`:
`Math.min(50, Math.max(1, maxPages))` when an integer was passed, else the
default `10`. -/
def clampMaxPages (maxPages : Option Int) : Nat :=
  match maxPages with
  | some m => (min 50 (max 1 m)).toNat
  | none => 10

/-- The mutable locals of the pagination loop of
`listPaidInvoicesAcrossCustomers`. -/
structure WalkState where
  results : List PaidInvoice
  startingAfter : Option String
  pageCount : Nat
  hasMore : Bool
  reachedEnd : Bool
  deriving Repr, DecidableEq

/-- The `for (let page = 0; page < maxPages; page += 1)` loop of
`listPaidInvoicesAcrossCustomers`; the fuel is the number of remaining
iterations.  `backend limit startingAfter` is the response of
`GET /invoices?status=paid` with the given `limit` and `starting_after`. -/
def walkLoop (epochToIso : Int → String)
    (backend : Int → Option String → StripeListResponse) (limit : Int) :
    Nat → WalkState → WalkState
  | 0, s => s
  | n + 1, s =>
    let resp := backend limit s.startingAfter
    let newResults :=
      s.results ++ resp.data.filterMap (normalizePaidInvoice epochToIso none none)
    let lastId := resp.data.getLast?.map StripeInvoice.id
    let hasMore := resp.has_more.getD false
    if hasMore = false then
      { results := newResults, startingAfter := s.startingAfter,
        pageCount := s.pageCount + 1, hasMore := hasMore, reachedEnd := true }
    else
      match lastId with
      | none =>
        { results := newResults, startingAfter := s.startingAfter,
          pageCount := s.pageCount + 1, hasMore := hasMore, reachedEnd := s.reachedEnd }
      | some lid =>
        walkLoop epochToIso backend limit n
          { results := newResults, startingAfter := some lid,
            pageCount := s.pageCount + 1, hasMore := hasMore, reachedEnd := s.reachedEnd }

/-- `listPaidInvoicesAcrossCustomers`.  The final sort is by
`paidAt.localeCompare`, modeled by the string order; the second
`filter(Boolean)` is the identity on a list of present invoices and is
dropped. -/
def listPaidInvoicesAcrossCustomers (epochToIso : Int → String)
    (backend : Int → Option String → StripeListResponse)
    (limitOpt maxPagesOpt : Option Int) : PaidInvoiceAcrossCustomersResult :=
  let limit := clampInvoiceFetchLimit limitOpt
  let maxPages := clampMaxPages maxPagesOpt
  let final := walkLoop epochToIso backend limit maxPages
    { results := [], startingAfter := none, pageCount := 0,
      hasMore := false, reachedEnd := false }
  { invoices := final.results.insertionSort fun a b => a.paidAt ≤ b.paidAt
  , truncated := !final.reachedEnd
  , hasMore := final.hasMore
  , pageCount := final.pageCount
  , maxPages := maxPages }

end PoolSync

namespace PoolSync

/-- The value bound to `const fetched = allCustomers ? ... : ...` in
`syncPaidInvoices` has two runtime shapes: the invoice ARRAY returned by
`listPaidInvoices`, or the result OBJECT returned by
`listPaidInvoicesAcrossCustomers`. -/
inductive Fetched where
  | arr (invoices : List PaidInvoice)
  | obj (result : PaidInvoiceAcrossCustomersResult)
  deriving Repr, DecidableEq

/-- `fetched.filter(f)`: on the across-customers result OBJECT this is a
dynamic `TypeError` (`filter` is not a property of the object). -/
def Fetched.jsFilter (f : Fetched) (p : PaidInvoice → Bool) :
    Except String (List PaidInvoice) :=
  match f with
  | Fetched.arr l => Except.ok (l.filter p)
  | Fetched.obj _ => Except.error ("TypeError: fetched.filter is not a function")

/-- `for (const invoice of invoices)` when `invoices` is `fetched` itself
(no `month` given): iterating the across-customers result OBJECT is a
dynamic `TypeError` (it is not iterable). -/
def Fetched.jsIterate : Fetched → Except String (List PaidInvoice)
  | Fetched.arr l => Except.ok l
  | Fetched.obj _ => Except.error ("TypeError: invoices is not iterable")

/-- `fetched.length`: `none` models `undefined` (the result object has no
`length` property). -/
def Fetched.jsLength : Fetched → Option Nat
  | Fetched.arr l => some l.length
  | Fetched.obj _ => none

/-- `fetched[0]` (`undefined` on the result object and on an empty
array). -/
def Fetched.jsFirst : Fetched → Option PaidInvoice
  | Fetched.arr l => l.head?
  | Fetched.obj _ => none

/-- `normalize` of `pool-sync.ts`. -/
def normalize (v : Option String) : Option String :=
  if JsStr.strFalsy v then none
  else
    let t := JsStr.jsTrim (v.getD (""))
    if 0 < t.length then some t else none

/-- `normalizeEmail` of `pool-sync.ts`. -/
def normalizeEmail (v : Option String) : Option String :=
  let email := normalize v
  if JsStr.strFalsy email then none else some (JsStr.jsToLower (email.getD ("")))

/-- `/^\d{4}-\d{2}$/.test(month)`. -/
def monthRegexTest (s : String) : Bool :=
  match s.data with
  | [a, b, c, d, e, f, g] =>
    a.isDigit && b.isDigit && c.isDigit && d.isDigit && e == '-' && f.isDigit && g.isDigit
  | _ => false

/-- The argument object of `poolAccounting.recordContribution` (the
`metadata` object is flattened into its three fields). -/
structure RecordContributionInput where
  userId : Option String
  email : Option String
  customerId : Option String
  subscriptionId : Option String
  externalEventId : String
  amountUsdCents : Int
  contributedAt : String
  source : String
  tierId : Option String
  stripeInvoiceId : String
  stripePriceId : String
  syncedBy : String
  deriving Repr, DecidableEq

/-- The stored contribution record fields that `syncPaidInvoices` reads
back from the receipt. -/
structure ContributionRecord where
  id : String
  amountUsdCents : Int
  contributedAt : String
  deriving Repr, DecidableEq

/-- The receipt returned by `recordContribution`. -/
structure ContributionReceipt where
  duplicate : Bool
  record : ContributionRecord
  deriving Repr, DecidableEq

/-- `SyncedSubscriptionContribution` of `pool-sync.ts`. -/
structure SyncedSubscriptionContribution where
  invoiceId : String
  contributionId : String
  duplicated : Bool
  amountUsdCents : Int
  paidAt : String
  deriving Repr, DecidableEq

/-- `SubscriptionPoolSyncResult` of `pool-sync.ts`.  Note that this result
type carries NO pagination metadata (no `truncated`, `pageCount` or
`maxPages` field).  `fetchedInvoiceCount` is `fetched.length`, which is
`undefined` (`none`) when `fetched` is the across-customers result object;
`skippedCount` is then `undefined - n` (NaN), also `none`. -/
structure SubscriptionPoolSyncResult where
  scope : String
  customerId : Option String
  email : Option String
  month : Option String
  fetchedInvoiceCount : Option Nat
  processedInvoiceCount : Nat
  syncedCount : Nat
  duplicateCount : Nat
  skippedCount : Option Int
  records : List SyncedSubscriptionContribution
  deriving Repr, DecidableEq

/-- `invoice.customerId || identity.customerId` (the invoice field is a
plain string). -/
def jsOrStrOpt (a : String) (b : Option String) : Option String :=
  if a == ("") then b else some a

/-- `SubscriptionPoolSyncInput` (after `Boolean(input.allCustomers)`). -/
structure SubscriptionPoolSyncInput where
  customerId : Option String
  email : Option String
  userId : Option String
  month : Option String
  limit : Option Int
  maxPages : Option Int
  allCustomers : Bool
  deriving Repr, DecidableEq

/-- The `for (const invoice of invoices)` body of `syncPaidInvoices`.
`recordContribution` is injected as a state-passing function `record`
(the service receives `poolAccounting` by constructor injection), and the
env-dependent `getTierIdForStripePrice` as `tierOf`. -/
def syncLoop {σ : Type} (record : RecordContributionInput → σ → ContributionReceipt × σ)
    (tierOf : Option String → Option String)
    (identityCustomerId identityEmail userId : Option String) (allCustomers : Bool) :
    List PaidInvoice → σ → List SyncedSubscriptionContribution × Nat × Nat × σ
  | [], s => ([], 0, 0, s)
  | invoice :: rest, s =>
    let tierId := tierOf invoice.priceId
    let step := record
      { userId := userId
      , email := JsStr.jsOrOpt invoice.customerEmail identityEmail
      , customerId := jsOrStrOpt invoice.customerId identityCustomerId
      , subscriptionId := invoice.subscriptionId
      , externalEventId := ("stripe_invoice:") ++ invoice.invoiceId
      , amountUsdCents := invoice.amountPaidCents
      , contributedAt := invoice.paidAt
      , source := ("subscription")
      , tierId := tierId
      , stripeInvoiceId := invoice.invoiceId
      , stripePriceId := invoice.priceId.getD ("")
      , syncedBy :=
          if allCustomers then ("sync_all_subscription_pool_contributions")
          else ("sync_subscription_pool_contributions") } s
    let receipt := step.1
    let rest2 := syncLoop record tierOf identityCustomerId identityEmail userId allCustomers
      rest step.2
    (({ invoiceId := invoice.invoiceId
      , contributionId := receipt.record.id
      , duplicated := receipt.duplicate
      , amountUsdCents := receipt.record.amountUsdCents
      , paidAt := receipt.record.contributedAt } : SyncedSubscriptionContribution) :: rest2.1
    , (if receipt.duplicate then rest2.2.1 else rest2.2.1 + 1)
    , (if receipt.duplicate then rest2.2.2.1 + 1 else rest2.2.2.1)
    , rest2.2.2.2)

/-- `SubscriptionPoolSyncService.syncPaidInvoices`.  `listPaid` and
`listAcross` are the two injected fetchers (`subscriptions.listPaidInvoices`
and `subscriptions.listPaidInvoicesAcrossCustomers`); the `allCustomers`
branch wraps the across-customers result OBJECT while the other branch
wraps the invoice ARRAY, and the subsequent array operations on `fetched`
are the dynamic-typed `Fetched.jsFilter` / `Fetched.jsIterate`. -/
def syncPaidInvoices {σ : Type}
    (record : RecordContributionInput → σ → ContributionReceipt × σ)
    (tierOf : Option String → Option String)
    (listPaid : Option String → Option String → Option Int → List PaidInvoice)
    (listAcross : Option Int → Option Int → PaidInvoiceAcrossCustomersResult)
    (input : SubscriptionPoolSyncInput) (s0 : σ) :
    Except String (SubscriptionPoolSyncResult × σ) :=
  let identityCustomerId := normalize input.customerId
  let identityEmail := normalizeEmail input.email
  let userId := normalize input.userId
  let month := normalize input.month
  let allCustomers := input.allCustomers
  if !allCustomers && JsStr.strFalsy identityCustomerId && JsStr.strFalsy identityEmail then
    Except.error ("Provide at least one of customerId or email")
  else if !(JsStr.strFalsy month) && !monthRegexTest (month.getD ("")) then
    Except.error ("month must be in YYYY-MM format")
  else
    let fetched : Fetched :=
      if allCustomers then Fetched.obj (listAcross input.limit input.maxPages)
      else Fetched.arr (listPaid identityCustomerId identityEmail input.limit)
    do
      let invoices ←
        match month with
        | some m => fetched.jsFilter fun invoice => String.mk (invoice.paidAt.data.take 7) == m
        | none => fetched.jsIterate
      let looped :=
        syncLoop record tierOf identityCustomerId identityEmail userId allCustomers invoices s0
      Except.ok
        ({ scope := if allCustomers then ("all_customers") else ("customer")
         , customerId := JsStr.jsOrOpt (invoices.head?.map PaidInvoice.customerId)
             (JsStr.jsOrOpt (fetched.jsFirst.map PaidInvoice.customerId) identityCustomerId)
         , email := JsStr.jsOrOpt identityEmail
             (JsStr.jsOrOpt (invoices.head?.bind PaidInvoice.customerEmail)
               (fetched.jsFirst.bind PaidInvoice.customerEmail))
         , month := month
         , fetchedInvoiceCount := fetched.jsLength
         , processedInvoiceCount := invoices.length
         , syncedCount := looped.2.1
         , duplicateCount := looped.2.2.1
         , skippedCount := fetched.jsLength.map fun n => (n : Int) - invoices.length
         , records := looped.1 }, looped.2.2.2)

end PoolSync

namespace PoolSync

theorem walkLoop_pageCount (iso : Int → String)
    (backend : Int → Option String → StripeListResponse) (limit : Int) :
    ∀ (n : Nat) (s : WalkState),
      (walkLoop iso backend limit n s).pageCount ≤ s.pageCount + n := by
  intro n
  induction n with
  | zero => intro s; simp [walkLoop]
  | succ n ih =>
    intro s
    rw [walkLoop]
    split
    · simp
    · split
      · simp
      · exact le_trans (ih _) (by simp; omega)

theorem walkLoop_reachedEnd (iso : Int → String)
    (backend : Int → Option String → StripeListResponse) (limit : Int) :
    ∀ (n : Nat) (s : WalkState), s.reachedEnd = false → (n = 0 → s.hasMore = true) →
      (walkLoop iso backend limit n s).reachedEnd =
        !(walkLoop iso backend limit n s).hasMore := by
  intro n
  induction n with
  | zero =>
    intro s h0 h1
    simp [walkLoop, h0, h1 rfl]
  | succ n ih =>
    intro s h0 _
    rw [walkLoop]
    split
    · simp_all
    · split
      · simp_all
      · exact ih _ (by simpa using h0) (fun _ => by simp_all)

end PoolSync

/-- **C8** For an all-customers subscription sync: the paginated invoice
walk of `listPaidInvoicesAcrossCustomers` does stop after at most
`maxPages` pages (clamped to 1–50, default 10) and its result reports
`truncated = true` exactly when the walk stopped with `has_more = true`
(first conjunct); but `syncPaidInvoices` with `allCustomers = true` never
returns that metadata: it treats the across-customers result object as an
invoice array, so every such sync (with a well-formed or absent `month`)
throws a dynamic `TypeError` instead of producing a result (second
conjunct). -/
theorem C8_all_customers_sync {σ : Type} (epochToIso : Int → String)
    (backend : Int → Option String → PoolSync.StripeListResponse)
    (limitOpt maxPagesOpt : Option Int)
    (record : PoolSync.RecordContributionInput → σ → PoolSync.ContributionReceipt × σ)
    (tierOf : Option String → Option String)
    (listPaid : Option String → Option String → Option Int → List PoolSync.PaidInvoice)
    (input : PoolSync.SubscriptionPoolSyncInput) (s0 : σ)
    (hall : input.allCustomers = true)
    (hmonth : JsStr.strFalsy (PoolSync.normalize input.month) = true ∨
      PoolSync.monthRegexTest ((PoolSync.normalize input.month).getD ("")) = true) :
    (1 ≤ (PoolSync.listPaidInvoicesAcrossCustomers epochToIso backend limitOpt
        maxPagesOpt).maxPages ∧
      (PoolSync.listPaidInvoicesAcrossCustomers epochToIso backend limitOpt
        maxPagesOpt).maxPages ≤ 50 ∧
      (PoolSync.listPaidInvoicesAcrossCustomers epochToIso backend limitOpt
        maxPagesOpt).pageCount ≤
        (PoolSync.listPaidInvoicesAcrossCustomers epochToIso backend limitOpt
          maxPagesOpt).maxPages ∧
      (PoolSync.listPaidInvoicesAcrossCustomers epochToIso backend limitOpt
        maxPagesOpt).truncated =
        (PoolSync.listPaidInvoicesAcrossCustomers epochToIso backend limitOpt
          maxPagesOpt).hasMore) ∧
    ∃ msg, PoolSync.syncPaidInvoices record tierOf listPaid
        (fun l m => PoolSync.listPaidInvoicesAcrossCustomers epochToIso backend l m)
        input s0 = Except.error msg ∧
      (msg = ("TypeError: fetched.filter is not a function") ∨
        msg = ("TypeError: invoices is not iterable")) := by
  have hmp : 1 ≤ PoolSync.clampMaxPages maxPagesOpt := by
    cases maxPagesOpt with
    | none => simp [PoolSync.clampMaxPages]
    | some m => simp only [PoolSync.clampMaxPages]; omega
  have hmp50 : PoolSync.clampMaxPages maxPagesOpt ≤ 50 := by
    cases maxPagesOpt with
    | none => simp [PoolSync.clampMaxPages]
    | some m => simp only [PoolSync.clampMaxPages]; omega
  have hmax : (PoolSync.listPaidInvoicesAcrossCustomers epochToIso backend limitOpt
      maxPagesOpt).maxPages = PoolSync.clampMaxPages maxPagesOpt := rfl
  refine ⟨⟨by rw [hmax]; exact hmp, by rw [hmax]; exact hmp50, ?_, ?_⟩, ?_⟩
  · rw [hmax]
    exact le_trans (PoolSync.walkLoop_pageCount epochToIso backend
      (PoolSync.clampInvoiceFetchLimit limitOpt) (PoolSync.clampMaxPages maxPagesOpt)
      ⟨[], none, 0, false, false⟩) (by simp)
  · have hre := PoolSync.walkLoop_reachedEnd epochToIso backend
      (PoolSync.clampInvoiceFetchLimit limitOpt) (PoolSync.clampMaxPages maxPagesOpt)
      ⟨[], none, 0, false, false⟩ rfl (fun h => absurd (h ▸ hmp) (by simp))
    show (!(PoolSync.walkLoop epochToIso backend (PoolSync.clampInvoiceFetchLimit limitOpt)
        (PoolSync.clampMaxPages maxPagesOpt) ⟨[], none, 0, false, false⟩).reachedEnd) =
      (PoolSync.walkLoop epochToIso backend (PoolSync.clampInvoiceFetchLimit limitOpt)
        (PoolSync.clampMaxPages maxPagesOpt) ⟨[], none, 0, false, false⟩).hasMore
    rw [hre]
    simp
  · cases hm : PoolSync.normalize input.month with
    | none =>
      refine ⟨("TypeError: invoices is not iterable"), ?_, Or.inr rfl⟩
      simp only [PoolSync.syncPaidInvoices, hall, hm]
      simp [JsStr.strFalsy, PoolSync.Fetched.jsIterate, Bind.bind, Except.bind]
    | some m =>
      refine ⟨("TypeError: fetched.filter is not a function"), ?_, Or.inl rfl⟩
      simp only [PoolSync.syncPaidInvoices, hall, hm]
      have himp : JsStr.strFalsy (some m) = false → PoolSync.monthRegexTest m = true := by
        intro hsf
        rcases hmonth with h | h
        · rw [hm] at h; rw [h] at hsf; cases hsf
        · rw [hm] at h; simpa using h
      simp [PoolSync.Fetched.jsFilter, Bind.bind, Except.bind, himp]
      exact himp

/-- Witness for C8: a concrete all-customers sync (month `2026-03`,
`maxPages = 3`, a backend whose first page is empty with
`has_more = true`) fails with the dynamic type error instead of
returning a result. -/
theorem C8_all_customers_sync_witness :
    ∃ msg, PoolSync.syncPaidInvoices
        (fun (_ : PoolSync.RecordContributionInput) (s : Unit) =>
          (⟨false, ⟨("c1"), 0, ("")⟩⟩, s))
        (fun _ => none) (fun _ _ _ => [])
        (fun l m => PoolSync.listPaidInvoicesAcrossCustomers
          (fun _ => ("2026-03-15T00:00:00.000Z")) (fun _ _ => ⟨[], some true⟩) l m)
        ⟨none, none, none, some ("2026-03"), some 10, some 3, true⟩ () =
        Except.error msg ∧
      (msg = ("TypeError: fetched.filter is not a function") ∨
        msg = ("TypeError: invoices is not iterable")) :=
  (C8_all_customers_sync (fun _ => ("2026-03-15T00:00:00.000Z"))
    (fun _ _ => ⟨[], some true⟩) (some 10) (some 3)
    (fun (_ : PoolSync.RecordContributionInput) (s : Unit) =>
      (⟨false, ⟨("c1"), 0, ("")⟩⟩, s))
    (fun _ => none) (fun _ _ _ => [])
    ⟨none, none, none, some ("2026-03"), some 10, some 3, true⟩ () rfl
    (Or.inr (by decide))).2

namespace AuthService

/-- `normalize` of `auth/service.ts`. -/
def normalize (v : Option String) : Option String :=
  if JsStr.strFalsy v then none
  else
    let t := JsStr.jsTrim (v.getD (""))
    if 0 < t.length then some t else none

/-- `normalizeEmail` of `auth/service.ts`
(`normalize(value)?.toLowerCase()`, `undefined` when falsy). -/
def normalizeEmail (v : Option String) : Option String :=
  let email := (normalize v).map JsStr.jsToLower
  if JsStr.strFalsy email then none else email

/-- `EMAIL_PATTERN.test` for `/^[^\s@]+@[^\s@]+\.[^\s@]+$/`: exactly one
`@` splitting a nonempty whitespace-free local part from a domain that
has a `.` with at least one character on each side. -/
def emailPatternTest (s : String) : Bool :=
  match JsStr.splitOnChar ('@') s.data with
  | [a, d] =>
    !a.isEmpty && a.all (fun c => !JsStr.isWsChar c) &&
      d.all (fun c => !JsStr.isWsChar c) &&
      ((d.drop 1).dropLast.any fun c => c == ('.'))
  | _ => false

/-- `safeEquals`: a length check plus `timingSafeEqual` over the UTF-8
bytes — extensionally, plain string equality. -/
def safeEquals (a b : String) : Bool := a == b

/-- `isExpired`.  ISO timestamps are modeled by their epoch-millisecond
values (`new Date(x).getTime()`), so the check is `expiresAt <= now`. -/
def isExpired (now expiresAt : Int) : Bool := expiresAt ≤ now

/-- `AuthSessionRecord` (timestamps as epoch milliseconds). -/
structure AuthSessionRecord where
  id : String
  method : String
  status : String
  createdAt : Int
  expiresAt : Int
  verifiedAt : Option Int
  beneficiaryName : Option String
  beneficiaryEmail : Option String
  authProvider : Option String
  authSubject : Option String
  verificationAttempts : Nat
  maxVerificationAttempts : Nat
  deriving Repr, DecidableEq

/-- `RecoveryTokenRecord`. -/
structure RecoveryTokenRecord where
  id : String
  tokenHash : String
  sessionId : String
  beneficiaryEmail : String
  createdAt : Int
  expiresAt : Int
  consumedAt : Option Int
  deriving Repr, DecidableEq

/-- The persisted auth state (the `links` list is never touched by the
recovery flow and is omitted). -/
structure AuthState where
  sessions : List AuthSessionRecord
  recoveries : List RecoveryTokenRecord
  deriving Repr, DecidableEq

/-- `requireSession`. -/
def requireSession (state : AuthState) (sessionId : String) :
    Except String AuthSessionRecord :=
  match state.sessions.find? (fun item => item.id == sessionId) with
  | some session => Except.ok session
  | none => Except.error (("Unknown auth session: ") ++ sessionId)

/-- `state.recoveries.find(item => safeEquals(item.tokenHash, hash))`
together with the later in-place `recovery.consumedAt = now` mutation of
the found object: the first matching record, and the list in which
exactly that record is marked consumed. -/
def findConsume (hashed : String) (now : Int) :
    List RecoveryTokenRecord → Option (RecoveryTokenRecord × List RecoveryTokenRecord)
  | [] => none
  | r :: rest =>
    if safeEquals r.tokenHash hashed then
      some (r, { r with consumedAt := some now } :: rest)
    else
      match findConsume hashed now rest with
      | some p => some (p.1, r :: p.2)
      | none => none

/-- `StartRecoveryResult` (expiry as epoch milliseconds). -/
structure StartRecoveryResult where
  recoveryToken : String
  expiresAt : Int
  sessionId : String
  deriving Repr, DecidableEq

/-- `startRecovery`.  `hashFn` is the keyed SHA-256 `hash`, `uuid` the
`randomUUID()` randomness with the dashes removed, `recoveryIdv` the
generated record id, `now` the clock and `recoveryTtlSeconds` the
configured TTL. -/
def startRecovery (hashFn : String → String) (uuid recoveryIdv : String)
    (now recoveryTtlSeconds : Int) (state : AuthState) (beneficiaryEmail : String) :
    Except String (AuthState × StartRecoveryResult) :=
  match normalizeEmail (some beneficiaryEmail) with
  | none => Except.error ("beneficiary_email must be a valid email")
  | some email =>
    if !emailPatternTest email then
      Except.error ("beneficiary_email must be a valid email")
    else
      let verifiedSessions := (state.sessions.filter fun item =>
          item.status == ("verified") &&
            (item.beneficiaryEmail.map JsStr.jsToLower) == some email).insertionSort
        fun a b => b.createdAt ≤ a.createdAt
      match verifiedSessions.head? with
      | none => Except.error ("No verified auth session found for this email")
      | some source =>
        let recoveryToken := ("recover_") ++ uuid
        let record : RecoveryTokenRecord :=
          { id := recoveryIdv
          , tokenHash := hashFn recoveryToken
          , sessionId := source.id
          , beneficiaryEmail := email
          , createdAt := now
          , expiresAt := now + recoveryTtlSeconds * 1000
          , consumedAt := none }
        Except.ok ({ state with recoveries := state.recoveries ++ [record] },
          { recoveryToken := recoveryToken, expiresAt := record.expiresAt,
            sessionId := source.id })

/-- `recoverWithToken`.  `newSessionId` models the generated
`auth_<randomUUID()>` id; the returned record is the full stored session
(of which the HTTP layer returns the stripped public view). -/
def recoverWithToken (hashFn : String → String) (newSessionId : String)
    (now sessionTtlSeconds : Int) (maxVerificationAttempts : Nat)
    (state : AuthState) (recoveryToken : Option String) :
    Except String (AuthState × AuthSessionRecord) :=
  match normalize recoveryToken with
  | none => Except.error ("recovery_token is required")
  | some token =>
    match findConsume (hashFn token) now state.recoveries with
    | none => Except.error ("Invalid recovery_token")
    | some p =>
      let recovery := p.1
      if recovery.consumedAt.isSome then
        Except.error ("recovery_token has already been used")
      else if isExpired now recovery.expiresAt then
        Except.error ("recovery_token is expired")
      else
        match requireSession state recovery.sessionId with
        | Except.error e => Except.error e
        | Except.ok source =>
          if !(source.status == ("verified")) then
            Except.error ("Recovery source session is not verified")
          else
            let recovered : AuthSessionRecord :=
              { id := newSessionId
              , method := source.method
              , status := ("verified")
              , createdAt := now
              , expiresAt := now + sessionTtlSeconds * 1000
              , verifiedAt := some now
              , beneficiaryName := source.beneficiaryName
              , beneficiaryEmail := source.beneficiaryEmail
              , authProvider := source.authProvider
              , authSubject := source.authSubject
              , verificationAttempts := 0
              , maxVerificationAttempts := maxVerificationAttempts }
            Except.ok ({ sessions := state.sessions ++ [recovered],
                         recoveries := p.2 }, recovered)

end AuthService

namespace AuthService

theorem findConsume_some (hashed : String) (now : Int) :
    ∀ (l : List RecoveryTokenRecord) (r : RecoveryTokenRecord)
      (l2 : List RecoveryTokenRecord), findConsume hashed now l = some (r, l2) →
      ∃ pre post, l = pre ++ r :: post ∧
        l2 = pre ++ { r with consumedAt := some now } :: post ∧
        (∀ x ∈ pre, safeEquals x.tokenHash hashed = false) ∧
        safeEquals r.tokenHash hashed = true := by
  intro l
  induction l with
  | nil => intro r l2 h; cases h
  | cons a rest ih =>
    intro r l2 h
    rw [findConsume] at h
    by_cases ha : safeEquals a.tokenHash hashed = true
    · rw [if_pos ha] at h
      injection h with h2
      injection h2 with h3 h4
      subst h3
      exact ⟨[], rest, rfl, by simpa using h4.symm, by simp, ha⟩
    · rw [if_neg ha] at h
      cases hrec : findConsume hashed now rest with
      | none => rw [hrec] at h; cases h
      | some p =>
        rw [hrec] at h
        injection h with h2
        injection h2 with h3 h4
        obtain ⟨pre, post, he1, he2, hpre, hr⟩ := ih p.1 p.2 (by rw [hrec])
        subst h3
        refine ⟨a :: pre, post, by rw [he1]; simp, ?_, ?_, hr⟩
        · rw [← h4, he2]; rfl
        · intro x hx
          rcases List.mem_cons.mp hx with h5 | h5
          · subst h5; exact Bool.not_eq_true _ ▸ (by simpa using ha)
          · exact hpre x h5

theorem findConsume_prefix (hashed : String) (now : Int) :
    ∀ (pre : List RecoveryTokenRecord) (r : RecoveryTokenRecord)
      (post : List RecoveryTokenRecord),
      (∀ x ∈ pre, safeEquals x.tokenHash hashed = false) →
      safeEquals r.tokenHash hashed = true →
      findConsume hashed now (pre ++ r :: post) =
        some (r, pre ++ { r with consumedAt := some now } :: post) := by
  intro pre
  induction pre with
  | nil =>
    intro r post _ hr
    simp [findConsume, hr]
  | cons a rest ih =>
    intro r post hpre hr
    have ha : safeEquals a.tokenHash hashed = false := hpre a (by simp)
    rw [List.cons_append, findConsume, if_neg (by simp [ha]),
      ih r post (fun x hx => hpre x (by simp [hx])) hr]
    simp

end AuthService

/-- **C9** A recovery token is single-use: when `recoverWithToken`
succeeds, it appends exactly one new session, that session is `verified`
and inherits `method`, `beneficiaryName`, `beneficiaryEmail`,
`authProvider` and `authSubject` from a verified source session; the
matched recovery record — previously unconsumed — is marked consumed in
place; and calling `recoverWithToken` again on the resulting state with
the same token fails with `recovery_token has already been used`
(regardless of the later call's clock, TTL or generated session id). -/
theorem C9_recovery_single_use (hashFn : String → String) (sid1 sid2 : String)
    (now1 now2 ttl1 ttl2 : Int) (mva1 mva2 : Nat)
    (state state2 : AuthService.AuthState) (tok : Option String)
    (recovered : AuthService.AuthSessionRecord)
    (hok : AuthService.recoverWithToken hashFn sid1 now1 ttl1 mva1 state tok =
      Except.ok (state2, recovered)) :
    state2.sessions = state.sessions ++ [recovered] ∧
    recovered.status = ("verified") ∧
    (∃ source, source ∈ state.sessions ∧ source.status = ("verified") ∧
      recovered.method = source.method ∧
      recovered.beneficiaryName = source.beneficiaryName ∧
      recovered.beneficiaryEmail = source.beneficiaryEmail ∧
      recovered.authProvider = source.authProvider ∧
      recovered.authSubject = source.authSubject) ∧
    (∃ pre r post, state.recoveries = pre ++ r :: post ∧ r.consumedAt = none ∧
      state2.recoveries = pre ++ { r with consumedAt := some now1 } :: post) ∧
    AuthService.recoverWithToken hashFn sid2 now2 ttl2 mva2 state2 tok =
      Except.error ("recovery_token has already been used") := by
  rw [AuthService.recoverWithToken] at hok
  cases hnorm : AuthService.normalize tok with
  | none => rw [hnorm] at hok; cases hok
  | some token =>
  rw [hnorm] at hok
  dsimp only at hok
  cases hfc : AuthService.findConsume (hashFn token) now1 state.recoveries with
  | none => rw [hfc] at hok; cases hok
  | some p =>
  rw [hfc] at hok
  dsimp only at hok
  by_cases hcons : p.1.consumedAt.isSome = true
  · rw [if_pos hcons] at hok; cases hok
  rw [if_neg hcons] at hok
  by_cases hexp : AuthService.isExpired now1 p.1.expiresAt = true
  · rw [if_pos hexp] at hok; cases hok
  rw [if_neg hexp] at hok
  cases hrs : AuthService.requireSession state p.1.sessionId with
  | error e => rw [hrs] at hok; cases hok
  | ok source =>
  rw [hrs] at hok
  dsimp only at hok
  by_cases hver : (!(source.status == ("verified"))) = true
  · rw [if_pos hver] at hok; cases hok
  rw [if_neg hver] at hok
  injection hok with hok2
  injection hok2 with hst hrec
  obtain ⟨pre, post, he1, he2, hpre, hmatch⟩ :=
    AuthService.findConsume_some (hashFn token) now1 state.recoveries p.1 p.2
      (by rw [hfc])
  have hsrcmem : source ∈ state.sessions := by
    rw [AuthService.requireSession] at hrs
    cases hf : state.sessions.find? (fun item => item.id == p.1.sessionId) with
    | none => rw [hf] at hrs; cases hrs
    | some s2 =>
      rw [hf] at hrs
      injection hrs with h3
      subst h3
      exact List.mem_of_find?_eq_some hf
  have hsrcver : source.status = ("verified") := by
    simpa using hver
  refine ⟨?_, ?_, ⟨source, hsrcmem, hsrcver, ?_, ?_, ?_, ?_, ?_⟩, ?_, ?_⟩
  · rw [← hst, ← hrec]
  · rw [← hrec]
  · rw [← hrec]
  · rw [← hrec]
  · rw [← hrec]
  · rw [← hrec]
  · rw [← hrec]
  · refine ⟨pre, p.1, post, he1, ?_, ?_⟩
    · cases hc : p.1.consumedAt with
      | none => rfl
      | some t => rw [hc] at hcons; simp at hcons
    · rw [← hst, he2]
  · have hrecs : state2.recoveries =
        pre ++ { p.1 with consumedAt := some now1 } :: post := by
      rw [← hst, he2]
    have hfc2 : AuthService.findConsume (hashFn token) now2 state2.recoveries =
        some ({ p.1 with consumedAt := some now1 },
          pre ++ { { p.1 with consumedAt := some now1 } with
            consumedAt := some now2 } :: post) := by
      rw [hrecs]
      exact AuthService.findConsume_prefix (hashFn token) now2 pre
        { p.1 with consumedAt := some now1 } post hpre (by simpa using hmatch)
    rw [AuthService.recoverWithToken, hnorm]
    dsimp only
    rw [hfc2]
    dsimp only
    rw [if_pos (by simp)]

/-- Witness for C9: against a store with one verified session, a
recovery record minted by a concrete `startRecovery` call (token
`recover_abc`) is consumed by the first `recoverWithToken`, and a replay
of the same token against the resulting state is rejected as already
used. -/
theorem C9_recovery_single_use_witness :
    AuthService.startRecovery (fun s => ("h:") ++ s) ("abc") ("recovery_1") 1000 3600
        ⟨[⟨("auth_1"), ("email"), ("verified"), 0, 100000, some 50, some ("Ada"),
            some ("ada@example.com"), none, none, 1, 5⟩], []⟩ ("Ada@Example.com") =
      Except.ok
        (⟨[⟨("auth_1"), ("email"), ("verified"), 0, 100000, some 50, some ("Ada"),
            some ("ada@example.com"), none, none, 1, 5⟩],
          [⟨("recovery_1"), ("h:recover_abc"), ("auth_1"), ("ada@example.com"), 1000,
            3601000, none⟩]⟩,
         ⟨("recover_abc"), 3601000, ("auth_1")⟩) ∧
    AuthService.recoverWithToken (fun s => ("h:") ++ s) ("auth_3") 3000 86400 5
        ⟨[⟨("auth_1"), ("email"), ("verified"), 0, 100000, some 50, some ("Ada"),
            some ("ada@example.com"), none, none, 1, 5⟩,
          ⟨("auth_2"), ("email"), ("verified"), 2000, 86402000, some 2000, some ("Ada"),
            some ("ada@example.com"), none, none, 0, 5⟩],
          [⟨("recovery_1"), ("h:recover_abc"), ("auth_1"), ("ada@example.com"), 1000,
            3601000, some 2000⟩]⟩ (some ("recover_abc")) =
      Except.error ("recovery_token has already been used") :=
  ⟨by rfl,
    (C9_recovery_single_use (fun s => ("h:") ++ s) ("auth_2") ("auth_3") 2000 3000 86400
      86400 5 5
      ⟨[⟨("auth_1"), ("email"), ("verified"), 0, 100000, some 50, some ("Ada"),
          some ("ada@example.com"), none, none, 1, 5⟩],
        [⟨("recovery_1"), ("h:recover_abc"), ("auth_1"), ("ada@example.com"), 1000,
          3601000, none⟩]⟩
      ⟨[⟨("auth_1"), ("email"), ("verified"), 0, 100000, some 50, some ("Ada"),
          some ("ada@example.com"), none, none, 1, 5⟩,
        ⟨("auth_2"), ("email"), ("verified"), 2000, 86402000, some 2000, some ("Ada"),
          some ("ada@example.com"), none, none, 0, 5⟩],
        [⟨("recovery_1"), ("h:recover_abc"), ("auth_1"), ("ada@example.com"), 1000,
          3601000, some 2000⟩]⟩ (some ("recover_abc"))
      ⟨("auth_2"), ("email"), ("verified"), 2000, 86402000, some 2000, some ("Ada"),
        some ("ada@example.com"), none, none, 0, 5⟩
      (by rfl)).2.2.2.2⟩

namespace Identity

/-- The character class of the tag capture group, `[A-Za-z0-9\-_]`. -/
def isB64UrlChar (c : Char) : Bool :=
  (('A') ≤ c && c ≤ ('Z')) || (('a') ≤ c && c ≤ ('z')) ||
    (('0') ≤ c && c ≤ ('9')) || c == ('-') || c == ('_')

/-- The base64url alphabet. -/
def b64Alphabet : List Char :=
  ("ABCDEFGHIJKLMNOPQRSTUVWXYZabcdefghijklmnopqrstuvwxyz0123456789-_").data

/-- The character for a sextet value. -/
def b64Char (v : Nat) : Char := b64Alphabet.getD v ('A')

/-- The sextet value of a character (`none` outside the alphabet). -/
def b64Val (c : Char) : Option Nat := b64Alphabet.findIdx? (fun d => d == c)

/-- `Buffer#toString("base64url")`: base64url encoding of a byte list,
without padding (as Node produces it). -/
def base64urlEncode : List Nat → List Char
  | [] => []
  | [b1] => [b64Char (b1 / 4), b64Char ((b1 % 4) * 16)]
  | [b1, b2] =>
    [b64Char (b1 / 4), b64Char ((b1 % 4) * 16 + b2 / 16), b64Char ((b2 % 16) * 4)]
  | b1 :: b2 :: b3 :: rest =>
    b64Char (b1 / 4) :: b64Char ((b1 % 4) * 16 + b2 / 16) ::
      b64Char ((b2 % 16) * 4 + b3 / 64) :: b64Char (b3 % 64) :: base64urlEncode rest

/-- `Buffer.from(s, "base64url")` restricted to canonical unpadded
base64url (the only shape this development feeds it; Node is more
lenient on other inputs, which here simply do not occur). -/
def base64urlDecode : List Char → Option (List Nat)
  | [] => some []
  | [_] => none
  | [c1, c2] =>
    match b64Val c1, b64Val c2 with
    | some v1, some v2 => some [v1 * 4 + v2 / 16]
    | _, _ => none
  | [c1, c2, c3] =>
    match b64Val c1, b64Val c2, b64Val c3 with
    | some v1, some v2, some v3 => some [v1 * 4 + v2 / 16, (v2 % 16) * 16 + v3 / 4]
    | _, _, _ => none
  | c1 :: c2 :: c3 :: c4 :: rest =>
    match b64Val c1, b64Val c2, b64Val c3, b64Val c4, base64urlDecode rest with
    | some v1, some v2, some v3, some v4, some tail =>
      some ((v1 * 4 + v2 / 16) :: ((v2 % 16) * 16 + v3 / 4) :: ((v3 % 4) * 64 + v4) :: tail)
    | _, _, _, _, _ => none

/-- UTF-8 encoding of a scalar value sequence (`Buffer.from(s, "utf8")`). -/
def utf8EncodeChar (c : Char) : List Nat :=
  let n := c.toNat
  if n < 128 then [n]
  else if n < 2048 then [192 + n / 64, 128 + n % 64]
  else if n < 65536 then [224 + n / 4096, 128 + (n / 64) % 64, 128 + n % 64]
  else [240 + n / 262144, 128 + (n / 4096) % 64, 128 + (n / 64) % 64, 128 + n % 64]

def utf8Encode (s : List Char) : List Nat := (s.map utf8EncodeChar).flatten

end Identity

namespace Identity

theorem char_toNat_lt (c : Char) : c.toNat < 1114112 := by
  show c.val.toNat < 1114112
  have h := c.valid
  rcases h with h | ⟨h1, h2⟩ <;> omega

theorem b64Val_b64Char_fin : ∀ w : Fin 64, b64Val (b64Char w.val) = some w.val := by
  decide

theorem b64Val_b64Char (v : Nat) (h : v < 64) : b64Val (b64Char v) = some v :=
  b64Val_b64Char_fin ⟨v, h⟩

theorem base64url_roundTrip : ∀ (l : List Nat), (∀ b ∈ l, b < 256) →
    base64urlDecode (base64urlEncode l) = some l
  | [], _ => rfl
  | [b1], h => by
    have hb1 : b1 < 256 := h b1 (by simp)
    rw [base64urlEncode, base64urlDecode,
      b64Val_b64Char _ (by omega), b64Val_b64Char _ (by omega)]
    dsimp only
    congr 2
    omega
  | [b1, b2], h => by
    have hb1 : b1 < 256 := h b1 (by simp)
    have hb2 : b2 < 256 := h b2 (by simp)
    rw [base64urlEncode, base64urlDecode, b64Val_b64Char _ (by omega),
      b64Val_b64Char _ (by omega), b64Val_b64Char _ (by omega)]
    dsimp only
    congr 2
    · omega
    · congr 1
      omega
  | b1 :: b2 :: b3 :: rest, h => by
    have hb1 : b1 < 256 := h b1 (by simp)
    have hb2 : b2 < 256 := h b2 (by simp)
    have hb3 : b3 < 256 := h b3 (by simp)
    have ih := base64url_roundTrip rest (fun b hb => h b (by simp [hb]))
    rw [base64urlEncode]
    rw [show base64urlDecode
        (b64Char (b1 / 4) :: b64Char ((b1 % 4) * 16 + b2 / 16) ::
          b64Char ((b2 % 16) * 4 + b3 / 64) :: b64Char (b3 % 64) ::
          base64urlEncode rest) =
      match b64Val (b64Char (b1 / 4)), b64Val (b64Char ((b1 % 4) * 16 + b2 / 16)),
        b64Val (b64Char ((b2 % 16) * 4 + b3 / 64)), b64Val (b64Char (b3 % 64)),
        base64urlDecode (base64urlEncode rest) with
      | some v1, some v2, some v3, some v4, some tail =>
        some ((v1 * 4 + v2 / 16) :: ((v2 % 16) * 16 + v3 / 4) ::
          ((v3 % 4) * 64 + v4) :: tail)
      | _, _, _, _, _ => none from rfl]
    rw [b64Val_b64Char _ (by omega), b64Val_b64Char _ (by omega),
      b64Val_b64Char _ (by omega), b64Val_b64Char _ (by omega), ih]
    dsimp only
    congr 2
    · omega
    · congr 1
      · omega
      · congr 1
        omega

end Identity

namespace Identity

theorem utf8EncodeChar_lt (c : Char) : ∀ b ∈ utf8EncodeChar c, b < 256 := by
  intro b hb
  have hc := char_toNat_lt c
  rw [utf8EncodeChar] at hb
  by_cases h1 : c.toNat < 128
  · rw [if_pos h1] at hb
    simp at hb
    omega
  rw [if_neg h1] at hb
  by_cases h2 : c.toNat < 2048
  · rw [if_pos h2] at hb
    simp at hb
    rcases hb with h | h <;> omega
  rw [if_neg h2] at hb
  by_cases h3 : c.toNat < 65536
  · rw [if_pos h3] at hb
    simp at hb
    rcases hb with h | h | h <;> omega
  rw [if_neg h3] at hb
  simp at hb
  rcases hb with h | h | h | h <;> omega

theorem utf8Encode_lt (s : List Char) : ∀ b ∈ utf8Encode s, b < 256 := by
  intro b hb
  rw [utf8Encode] at hb
  rw [List.mem_flatten] at hb
  obtain ⟨l, hl, hb2⟩ := hb
  rw [List.mem_map] at hl
  obtain ⟨c, _, hc⟩ := hl
  exact utf8EncodeChar_lt c b (hc ▸ hb2)

end Identity

namespace Identity

/-- A UTF-8 continuation byte. -/
def utf8Cont (b : Nat) : Bool := 128 ≤ b && b < 192

/-- Decode the continuation of a 2-byte sequence. -/
def utf8Dec2 (b1 : Nat) : List Nat → Option (Nat × List Nat)
  | b2 :: rest2 =>
    if utf8Cont b2 then some ((b1 - 192) * 64 + (b2 - 128), rest2) else none
  | [] => none

/-- Decode the continuation of a 3-byte sequence. -/
def utf8Dec3 (b1 : Nat) : List Nat → Option (Nat × List Nat)
  | b2 :: b3 :: rest2 =>
    if utf8Cont b2 && utf8Cont b3 then
      some ((b1 - 224) * 4096 + (b2 - 128) * 64 + (b3 - 128), rest2)
    else none
  | _ => none

/-- Decode the continuation of a 4-byte sequence. -/
def utf8Dec4 (b1 : Nat) : List Nat → Option (Nat × List Nat)
  | b2 :: b3 :: b4 :: rest2 =>
    if utf8Cont b2 && utf8Cont b3 && utf8Cont b4 then
      some ((b1 - 240) * 262144 + (b2 - 128) * 4096 + (b3 - 128) * 64 + (b4 - 128), rest2)
    else none
  | _ => none

/-- Decode one scalar value from a lead byte and the following bytes. -/
def utf8DecodeStep (b1 : Nat) (rest : List Nat) : Option (Nat × List Nat) :=
  if b1 < 128 then some (b1, rest)
  else if b1 < 192 then none
  else if b1 < 224 then utf8Dec2 b1 rest
  else if b1 < 240 then utf8Dec3 b1 rest
  else utf8Dec4 b1 rest

/-- The decode loop; each step consumes at least one byte, so the input
length is enough fuel. -/
def utf8DecodeFuel : Nat → List Nat → Option (List Char)
  | _, [] => some []
  | 0, _ :: _ => none
  | fuel + 1, b1 :: rest =>
    match utf8DecodeStep b1 rest with
    | some p => (utf8DecodeFuel fuel p.2).map fun t => Char.ofNat p.1 :: t
    | none => none

/-- UTF-8 decoding (`Buffer#toString("utf8")`) on the well-formed byte
sequences this development produces. -/
def utf8Decode (l : List Nat) : Option (List Char) := utf8DecodeFuel l.length l

theorem utf8DecodeStep_encodeChar (c : Char) (tail : List Nat) :
    ∃ e1 erest, utf8EncodeChar c = e1 :: erest ∧
      utf8DecodeStep e1 (erest ++ tail) = some (c.toNat, tail) := by
  have hc := char_toNat_lt c
  rw [utf8EncodeChar]
  by_cases h1 : c.toNat < 128
  · refine ⟨c.toNat, [], by rw [if_pos h1], ?_⟩
    rw [utf8DecodeStep, if_pos h1]
    rfl
  rw [if_neg h1]
  by_cases h2 : c.toNat < 2048
  · refine ⟨192 + c.toNat / 64, [128 + c.toNat % 64], by rw [if_pos h2], ?_⟩
    rw [utf8DecodeStep, if_neg (by omega), if_neg (by omega), if_pos (by omega)]
    rw [show ([128 + c.toNat % 64] : List Nat) ++ tail = (128 + c.toNat % 64) :: tail
      from rfl]
    rw [utf8Dec2, if_pos (by rw [utf8Cont]; simp; omega)]
    simp only [Option.some.injEq, Prod.mk.injEq]
    exact ⟨by omega, trivial⟩
  rw [if_neg h2]
  by_cases h3 : c.toNat < 65536
  · refine ⟨224 + c.toNat / 4096, [128 + c.toNat / 64 % 64, 128 + c.toNat % 64],
      by rw [if_pos h3], ?_⟩
    rw [utf8DecodeStep, if_neg (by omega), if_neg (by omega), if_neg (by omega),
      if_pos (by omega)]
    rw [show ([128 + c.toNat / 64 % 64, 128 + c.toNat % 64] : List Nat) ++ tail =
      (128 + c.toNat / 64 % 64) :: (128 + c.toNat % 64) :: tail from rfl]
    rw [utf8Dec3, if_pos (by rw [utf8Cont, utf8Cont]; simp; omega)]
    simp only [Option.some.injEq, Prod.mk.injEq]
    exact ⟨by omega, trivial⟩
  rw [if_neg h3]
  refine ⟨240 + c.toNat / 262144,
    [128 + c.toNat / 4096 % 64, 128 + c.toNat / 64 % 64, 128 + c.toNat % 64], rfl, ?_⟩
  rw [utf8DecodeStep, if_neg (by omega), if_neg (by omega), if_neg (by omega),
    if_neg (by omega)]
  rw [show ([128 + c.toNat / 4096 % 64, 128 + c.toNat / 64 % 64, 128 + c.toNat % 64] :
    List Nat) ++ tail = (128 + c.toNat / 4096 % 64) :: (128 + c.toNat / 64 % 64) ::
    (128 + c.toNat % 64) :: tail from rfl]
  rw [utf8Dec4, if_pos (by rw [utf8Cont, utf8Cont, utf8Cont]; simp; omega)]
  simp only [Option.some.injEq, Prod.mk.injEq]
  exact ⟨by omega, trivial⟩

theorem utf8DecodeFuel_encode : ∀ (s : List Char) (fuel : Nat),
    (utf8Encode s).length ≤ fuel → utf8DecodeFuel fuel (utf8Encode s) = some s := by
  intro s
  induction s with
  | nil =>
    intro fuel _
    rw [show utf8Encode [] = [] from rfl]
    cases fuel <;> rfl
  | cons c rest ih =>
    intro fuel hlen
    have hstep : utf8Encode (c :: rest) = utf8EncodeChar c ++ utf8Encode rest := by
      rw [utf8Encode, utf8Encode, List.map_cons, List.flatten_cons]
    obtain ⟨e1, erest, hec, hdec⟩ := utf8DecodeStep_encodeChar c (utf8Encode rest)
    rw [hstep, hec] at hlen ⊢
    rw [List.cons_append]
    have hfuel : ∃ f, fuel = f + 1 := by
      rcases fuel with _ | f
      · simp at hlen
      · exact ⟨f, rfl⟩
    obtain ⟨f, hf⟩ := hfuel
    subst hf
    rw [utf8DecodeFuel, hdec]
    have hrest : (utf8Encode rest).length ≤ f := by
      have := hlen
      simp at this
      omega
    show Option.map (fun t => Char.ofNat c.toNat :: t) (utf8DecodeFuel f (utf8Encode rest)) =
      some (c :: rest)
    rw [ih f hrest, Char.ofNat_toNat]
    rfl

theorem utf8_roundTrip (s : List Char) : utf8Decode (utf8Encode s) = some s :=
  utf8DecodeFuel_encode s (utf8Encode s).length (le_refl _)

end Identity

namespace Identity

/-- The lowercase hex digit of a nibble (as `JSON.stringify` emits in
`\u00XX` escapes). -/
def hexDigit (n : Nat) : Char := ("0123456789abcdef").data.getD n ('0')

/-- The nibble of a lowercase hex digit. -/
def hexVal (c : Char) : Option Nat :=
  ("0123456789abcdef").data.findIdx? (fun d => d == c)

/-- `JSON.stringify` string escaping, one character at a time: quote and
backslash, the short control escapes, `\u00XX` for the other control
characters, everything else verbatim. -/
def jsonEscapeChar (c : Char) : List Char :=
  if c == ('"') then [('\\'), ('"')]
  else if c == ('\\') then [('\\'), ('\\')]
  else if c.toNat == 8 then [('\\'), ('b')]
  else if c.toNat == 9 then [('\\'), ('t')]
  else if c.toNat == 10 then [('\\'), ('n')]
  else if c.toNat == 12 then [('\\'), ('f')]
  else if c.toNat == 13 then [('\\'), ('r')]
  else if c.toNat < 32 then
    [('\\'), ('u'), ('0'), ('0'), hexDigit (c.toNat / 16), hexDigit (c.toNat % 16)]
  else [c]

def jsonEscape (s : List Char) : List Char := (s.map jsonEscapeChar).flatten

/-- Decode a `\uXXXX` escape (on the lowercase-hex sub-grammar this
serializer emits). -/
def jsonUEscape : List Char → Option (Char × List Char)
  | h1 :: h2 :: h3 :: h4 :: rest =>
    match hexVal h1, hexVal h2, hexVal h3, hexVal h4 with
    | some v1, some v2, some v3, some v4 =>
      some (Char.ofNat (((v1 * 16 + v2) * 16 + v3) * 16 + v4), rest)
    | _, _, _, _ => none
  | _ => none

/-- Decode one backslash escape of the serializer's sub-grammar. -/
def jsonEscapeStep : List Char → Option (Char × List Char)
  | [] => none
  | e :: rest2 =>
    if e == ('"') then some (('"'), rest2)
    else if e == ('\\') then some (('\\'), rest2)
    else if e == ('b') then some (Char.ofNat 8, rest2)
    else if e == ('t') then some (Char.ofNat 9, rest2)
    else if e == ('n') then some (Char.ofNat 10, rest2)
    else if e == ('f') then some (Char.ofNat 12, rest2)
    else if e == ('r') then some (Char.ofNat 13, rest2)
    else if e == ('u') then jsonUEscape rest2
    else none

/-- One step of the JSON string scanner: `Sum.inl rest` is the closing
quote, `Sum.inr (c, rest)` one decoded character. -/
def jsonStringStep (l : List Char) : Option ((List Char) ⊕ (Char × List Char)) :=
  match l with
  | [] => none
  | c :: rest =>
    if c == ('"') then some (Sum.inl rest)
    else if c == ('\\') then (jsonEscapeStep rest).map Sum.inr
    else some (Sum.inr (c, rest))

/-- The JSON string body parser (everything between the quotes); each
step consumes at least one character, so any fuel beyond the input
length suffices. -/
def parseStringBodyFuel : Nat → List Char → Option (List Char × List Char)
  | 0, _ => none
  | fuel + 1, l =>
    match jsonStringStep l with
    | some (Sum.inl rest) => some ([], rest)
    | some (Sum.inr p) =>
      (parseStringBodyFuel fuel p.2).map fun q => (p.1 :: q.1, q.2)
    | none => none

theorem hexVal_hexDigit_fin : ∀ v : Fin 16, hexVal (hexDigit v.val) = some v.val := by
  decide

theorem jsonEscapeChar_length_pos (c : Char) : 1 ≤ (jsonEscapeChar c).length := by
  rw [jsonEscapeChar]
  repeat' split
  all_goals simp

theorem jsonEscapeChar_step (c : Char) (tail : List Char) :
    jsonStringStep (jsonEscapeChar c ++ tail) = some (Sum.inr (c, tail)) := by
  rw [jsonEscapeChar]
  by_cases h1 : c == ('"')
  · rw [if_pos h1, show c = ('"') from beq_iff_eq.mp h1]
    rfl
  rw [if_neg h1]
  by_cases h2 : c == ('\\')
  · rw [if_pos h2, show c = ('\\') from beq_iff_eq.mp h2]
    rfl
  rw [if_neg h2]
  by_cases h3 : c.toNat == 8
  · rw [if_pos h3, show c = Char.ofNat 8 from by
      rw [show (8 : Nat) = c.toNat from (beq_iff_eq.mp h3).symm, Char.ofNat_toNat]]
    rfl
  rw [if_neg h3]
  by_cases h4 : c.toNat == 9
  · rw [if_pos h4, show c = Char.ofNat 9 from by
      rw [show (9 : Nat) = c.toNat from (beq_iff_eq.mp h4).symm, Char.ofNat_toNat]]
    rfl
  rw [if_neg h4]
  by_cases h5 : c.toNat == 10
  · rw [if_pos h5, show c = Char.ofNat 10 from by
      rw [show (10 : Nat) = c.toNat from (beq_iff_eq.mp h5).symm, Char.ofNat_toNat]]
    rfl
  rw [if_neg h5]
  by_cases h6 : c.toNat == 12
  · rw [if_pos h6, show c = Char.ofNat 12 from by
      rw [show (12 : Nat) = c.toNat from (beq_iff_eq.mp h6).symm, Char.ofNat_toNat]]
    rfl
  rw [if_neg h6]
  by_cases h7 : c.toNat == 13
  · rw [if_pos h7, show c = Char.ofNat 13 from by
      rw [show (13 : Nat) = c.toNat from (beq_iff_eq.mp h7).symm, Char.ofNat_toNat]]
    rfl
  rw [if_neg h7]
  by_cases h8 : c.toNat < 32
  · rw [if_pos h8]
    rw [show (([('\\'), ('u'), ('0'), ('0'), hexDigit (c.toNat / 16),
        hexDigit (c.toNat % 16)]) : List Char) ++ tail =
      ('\\') :: ('u') :: ('0') :: ('0') :: hexDigit (c.toNat / 16) ::
        hexDigit (c.toNat % 16) :: tail from rfl]
    rw [show jsonStringStep (('\\') :: ('u') :: ('0') :: ('0') ::
        hexDigit (c.toNat / 16) :: hexDigit (c.toNat % 16) :: tail) =
      (jsonUEscape (('0') :: ('0') :: hexDigit (c.toNat / 16) ::
        hexDigit (c.toNat % 16) :: tail)).map Sum.inr from rfl]
    rw [jsonUEscape]
    rw [show hexVal ('0') = some 0 from rfl,
      hexVal_hexDigit_fin ⟨c.toNat / 16, by omega⟩,
      hexVal_hexDigit_fin ⟨c.toNat % 16, by omega⟩]
    dsimp only
    rw [show ((0 * 16 + 0) * 16 + c.toNat / 16) * 16 + c.toNat % 16 = c.toNat from by
      omega, Char.ofNat_toNat]
    rfl
  rw [if_neg h8, List.cons_append, List.nil_append]
  rw [show jsonStringStep (c :: tail) =
    (if c == ('"') then some (Sum.inl tail)
     else if c == ('\\') then (jsonEscapeStep tail).map Sum.inr
     else some (Sum.inr (c, tail))) from rfl]
  rw [if_neg h1, if_neg h2]

theorem jsonEscape_cons (c : Char) (s : List Char) :
    jsonEscape (c :: s) = jsonEscapeChar c ++ jsonEscape s := by
  rw [jsonEscape, jsonEscape, List.map_cons, List.flatten_cons]

theorem parseStringBodyFuel_escape : ∀ (s : List Char) (fuel : Nat) (tail : List Char),
    (jsonEscape s).length < fuel →
    parseStringBodyFuel fuel (jsonEscape s ++ ('"') :: tail) = some (s, tail) := by
  intro s
  induction s with
  | nil =>
    intro fuel tail hf
    rcases fuel with _ | f
    · simp at hf
    rw [show jsonEscape [] = [] from rfl, List.nil_append, parseStringBodyFuel]
    rfl
  | cons c s2 ih =>
    intro fuel tail hf
    rw [jsonEscape_cons] at hf ⊢
    rcases fuel with _ | f
    · simp at hf
    rw [List.append_assoc, parseStringBodyFuel, jsonEscapeChar_step]
    have hbound : (jsonEscape s2).length < f := by
      have h1 := jsonEscapeChar_length_pos c
      rw [List.length_append] at hf
      omega
    show (parseStringBodyFuel f (jsonEscape s2 ++ ('"') :: tail)).map
      (fun q => (c :: q.1, q.2)) = some (c :: s2, tail)
    rw [ih f tail hbound]
    rfl

end Identity

namespace Identity

/-- Expect a literal prefix; return the remainder. -/
def stripPrefixChars : List Char → List Char → Option (List Char)
  | [], s => some s
  | _ :: _, [] => none
  | c :: ps, d :: s => if c == d then stripPrefixChars ps s else none

/-- The `EncodedIdentityV1` payload shape (`v`, `method`, and the four
optional attribution fields). -/
structure EncodedIdentityV1 where
  v : Nat
  method : String
  name : Option String
  email : Option String
  provider : Option String
  subject : Option String
  deriving Repr, DecidableEq

/-- The serialized form of one optional key: `,"key":"` . -/
def fieldPrefix (key : List Char) : List Char :=
  (',') :: ('"') :: (key ++ [('"'), (':'), ('"')])

/-- The serialized form of one optional field (empty when absent). -/
def fieldGroup (key : List Char) : Option String → List Char
  | some x => fieldPrefix key ++ (jsonEscape x.data ++ [('"')])
  | none => []

/-- `JSON.stringify` of the payload object exactly as
`appendIdentityToReason` builds it: `v` and `method` first, then the
optional keys in insertion order (`name`, `email`, `provider`,
`subject`), each present only when assigned. -/
def jsonStringifyPayload (method : String)
    (name email provider subject : Option String) : List Char :=
  ("\x7b\"v\":1,\"method\":\"").data ++ (jsonEscape method.data ++ (('"') ::
    (fieldGroup (("name").data) name ++ (fieldGroup (("email").data) email ++
      (fieldGroup (("provider").data) provider ++
        (fieldGroup (("subject").data) subject ++ [('}')]))))))

/-- Parse one optional `,"key":"value"` group; when the prefix is not
there the field is absent and the input is left untouched. -/
def parseOptField (fuel : Nat) (key : List Char) (s : List Char) :
    Option (Option (List Char) × List Char) :=
  match stripPrefixChars (fieldPrefix key) s with
  | some s2 => (parseStringBodyFuel fuel s2).map fun p => (some p.1, p.2)
  | none => some (none, s)

/-- `JSON.parse`, specialized to the exact sub-grammar that
`jsonStringifyPayload` emits (canonical spacing, fixed key order,
lowercase hex escapes).  On other inputs it may return `none` where a
full JSON parser would succeed; every such input flows into the same
fallback as a parse error in `parseAttributedReason`, so the
distinction does not affect the parsed results used below. -/
def parsePayload (s : List Char) : Option EncodedIdentityV1 := do
  let s1 ← stripPrefixChars (("\x7b\"v\":1,\"method\":\"").data) s
  let mp ← parseStringBodyFuel (s.length + 1) s1
  let np ← parseOptField (s.length + 1) (("name").data) mp.2
  let ep ← parseOptField (s.length + 1) (("email").data) np.2
  let pp ← parseOptField (s.length + 1) (("provider").data) ep.2
  let sp ← parseOptField (s.length + 1) (("subject").data) pp.2
  match sp.2 with
  | [('}')] => some ⟨1, String.mk mp.1, np.1.map String.mk, ep.1.map String.mk,
      pp.1.map String.mk, sp.1.map String.mk⟩
  | _ => none

theorem stripPrefixChars_append : ∀ (p rest : List Char),
    stripPrefixChars p (p ++ rest) = some rest := by
  intro p rest
  induction p with
  | nil => rfl
  | cons c ps ih =>
    rw [List.cons_append, stripPrefixChars, if_pos (by simp)]
    exact ih

theorem parseOptField_group (fuel : Nat) (key : List Char) (x : Option String)
    (tail : List Char)
    (hfuel : ∀ v, x = some v → (jsonEscape v.data).length < fuel)
    (htail : stripPrefixChars (fieldPrefix key) tail = none) :
    parseOptField fuel key (fieldGroup key x ++ tail) =
      some (x.map String.data, tail) := by
  cases x with
  | none =>
    rw [show fieldGroup key none = [] from rfl, List.nil_append, parseOptField, htail]
    rfl
  | some v =>
    rw [show fieldGroup key (some v) = fieldPrefix key ++ (jsonEscape v.data ++ [('"')])
      from rfl]
    rw [List.append_assoc, List.append_assoc, List.singleton_append]
    rw [parseOptField, stripPrefixChars_append]
    show (parseStringBodyFuel fuel (jsonEscape v.data ++ ('"') :: tail)).map
      (fun p => (some p.1, p.2)) = some ((some v).map String.data, tail)
    rw [parseStringBodyFuel_escape v.data fuel tail (hfuel v rfl)]
    rfl

theorem fieldGroup_length_some (key : List Char) (v : String) :
    (fieldGroup key (some v)).length = key.length + (jsonEscape v.data).length + 6 := by
  simp [fieldGroup, fieldPrefix]
  omega

end Identity

namespace Identity

theorem stripTag_name (email provider subject : Option String) :
    stripPrefixChars (fieldPrefix (("name").data))
      (fieldGroup (("email").data) email ++ (fieldGroup (("provider").data) provider ++
        (fieldGroup (("subject").data) subject ++ [('}')]))) = none := by
  cases email <;> cases provider <;> cases subject <;> rfl

theorem stripTag_email (provider subject : Option String) :
    stripPrefixChars (fieldPrefix (("email").data))
      (fieldGroup (("provider").data) provider ++
        (fieldGroup (("subject").data) subject ++ [('}')])) = none := by
  cases provider <;> cases subject <;> rfl

theorem stripTag_provider (subject : Option String) :
    stripPrefixChars (fieldPrefix (("provider").data))
      (fieldGroup (("subject").data) subject ++ [('}')]) = none := by
  cases subject <;> rfl

theorem stripTag_subject :
    stripPrefixChars (fieldPrefix (("subject").data)) [('}')] = none := rfl

theorem parsePayload_roundTrip (method : String)
    (name email provider subject : Option String) :
    parsePayload (jsonStringifyPayload method name email provider subject) =
      some ⟨1, method, name, email, provider, subject⟩ := by
  have hm : (jsonEscape method.data).length <
      (jsonStringifyPayload method name email provider subject).length + 1 := by
    rw [jsonStringifyPayload]
    simp [List.length_append]
    omega
  have hget : ∀ (x : Option String) (key : List Char),
      (fieldGroup key x).length ≤ (fieldGroup key x).length := fun _ _ => le_refl _
  have hname : ∀ v, name = some v → (jsonEscape v.data).length <
      (jsonStringifyPayload method name email provider subject).length + 1 := by
    intro v hv
    subst hv
    rw [jsonStringifyPayload]
    simp [List.length_append, fieldGroup_length_some]
    omega
  have hemail : ∀ v, email = some v → (jsonEscape v.data).length <
      (jsonStringifyPayload method name email provider subject).length + 1 := by
    intro v hv
    subst hv
    rw [jsonStringifyPayload]
    simp [List.length_append, fieldGroup_length_some]
    omega
  have hprovider : ∀ v, provider = some v → (jsonEscape v.data).length <
      (jsonStringifyPayload method name email provider subject).length + 1 := by
    intro v hv
    subst hv
    rw [jsonStringifyPayload]
    simp [List.length_append, fieldGroup_length_some]
    omega
  have hsubject : ∀ v, subject = some v → (jsonEscape v.data).length <
      (jsonStringifyPayload method name email provider subject).length + 1 := by
    intro v hv
    subst hv
    rw [jsonStringifyPayload]
    simp [List.length_append, fieldGroup_length_some]
    omega
  have hopt : ∀ (o : Option String), (o.map String.data).map String.mk = o := by
    intro o
    cases o <;> rfl
  rw [show parsePayload (jsonStringifyPayload method name email provider subject) =
    (stripPrefixChars (("\x7b\"v\":1,\"method\":\"").data)
        (jsonStringifyPayload method name email provider subject)).bind (fun s1 =>
      (parseStringBodyFuel
          ((jsonStringifyPayload method name email provider subject).length + 1) s1).bind
        (fun mp =>
          (parseOptField
              ((jsonStringifyPayload method name email provider subject).length + 1)
              (("name").data) mp.2).bind (fun np =>
            (parseOptField
                ((jsonStringifyPayload method name email provider subject).length + 1)
                (("email").data) np.2).bind (fun ep =>
              (parseOptField
                  ((jsonStringifyPayload method name email provider subject).length + 1)
                  (("provider").data) ep.2).bind (fun pp =>
                (parseOptField
                    ((jsonStringifyPayload method name email provider subject).length + 1)
                    (("subject").data) pp.2).bind (fun sp =>
                  match sp.2 with
                  | [('}')] => some ⟨1, String.mk mp.1, np.1.map String.mk,
                      ep.1.map String.mk, pp.1.map String.mk, sp.1.map String.mk⟩
                  | _ => none)))))) from rfl]
  rw [show stripPrefixChars (("\x7b\"v\":1,\"method\":\"").data)
      (jsonStringifyPayload method name email provider subject) =
    some (jsonEscape method.data ++ (('"') :: (fieldGroup (("name").data) name ++
      (fieldGroup (("email").data) email ++ (fieldGroup (("provider").data) provider ++
        (fieldGroup (("subject").data) subject ++ [('}')])))))) from by
    rw [jsonStringifyPayload]
    exact stripPrefixChars_append _ _]
  rw [Option.some_bind]
  rw [parseStringBodyFuel_escape method.data _ _ hm]
  rw [Option.some_bind]
  rw [parseOptField_group _ _ name _ hname (stripTag_name email provider subject)]
  rw [Option.some_bind]
  rw [parseOptField_group _ _ email _ hemail (stripTag_email provider subject)]
  rw [Option.some_bind]
  rw [parseOptField_group _ _ provider _ hprovider (stripTag_provider subject)]
  rw [Option.some_bind]
  rw [parseOptField_group _ _ subject _ hsubject stripTag_subject]
  rw [Option.some_bind]
  show some (⟨1, String.mk method.data, (name.map String.data).map String.mk,
    (email.map String.data).map String.mk, (provider.map String.data).map String.mk,
    (subject.map String.data).map String.mk⟩ : EncodedIdentityV1) = _
  rw [hopt, hopt, hopt, hopt]

end Identity

namespace Identity

/-- `normalize` of `identity.ts`. -/
def normalize (v : Option String) : Option String :=
  if JsStr.strFalsy v then none
  else
    let t := JsStr.jsTrim (v.getD (""))
    if 0 < t.length then some t else none

/-- `normalizeEmail` of `identity.ts`. -/
def normalizeEmail (v : Option String) : Option String :=
  match normalize v with
  | none => none
  | some email => some (JsStr.jsToLower email)

/-- `IdentityAttribution` (the `AuthMethod` enum as its string value). -/
structure IdentityAttribution where
  authMethod : String
  beneficiaryName : Option String
  beneficiaryEmail : Option String
  authProvider : Option String
  authSubject : Option String
  deriving Repr, DecidableEq

/-- JS truthiness of the `if (identity.x) payload.x = identity.x`
assignments: an absent or empty field is not copied onto the payload. -/
def optTruthy (o : Option String) : Option String :=
  if JsStr.strFalsy o then none else o

/-- `appendIdentityToReason`: the template string
`${baseReason} [identity:${encoded}]`, at character level. -/
def appendIdentityToReason (baseReason : String)
    (identity : IdentityAttribution) : String :=
  if identity.authMethod == ("none") then baseReason
  else
    let payloadName := optTruthy identity.beneficiaryName
    let payloadEmail := optTruthy identity.beneficiaryEmail
    let payloadProvider := optTruthy identity.authProvider
    let payloadSubject := optTruthy identity.authSubject
    let encoded := base64urlEncode (utf8Encode (jsonStringifyPayload identity.authMethod
      payloadName payloadEmail payloadProvider payloadSubject))
    String.mk (baseReason.data ++ (' ') :: (("[identity:").data ++ (encoded ++ [(']')])))

/-- Greedy whitespace skip (`\s*`). -/
def skipWs : List Char → List Char
  | [] => []
  | c :: rest => if JsStr.isWsChar c then skipWs rest else c :: rest

/-- The maximal (greedy) run of capture-class characters. -/
def takeB64Run : List Char → List Char × List Char
  | [] => ([], [])
  | c :: rest =>
    if isB64UrlChar c then
      let p := takeB64Run rest
      (c :: p.1, p.2)
    else ([], c :: rest)

/-- Whether `IDENTITY_TAG_PATTERN` matches the suffix that starts here,
returning the capture.  The pattern needs no regex backtracking: a
shorter `\s*` leaves a whitespace character where `[` is required, a
shorter capture leaves a capture-class character where `]` is required,
and the trailing `\s*` must reach the end anchor. -/
def matchTagAt (s : List Char) : Option (List Char) :=
  match stripPrefixChars (("[identity:").data) (skipWs s) with
  | none => none
  | some s2 =>
    let p := takeB64Run s2
    if p.1.isEmpty then none
    else
      match p.2 with
      | d :: s4 => if d == (']') && (skipWs s4).isEmpty then some p.1 else none
      | [] => none

/-- The leftmost match of the tag pattern: the prefix before the match
start and the capture.  This is both `rawReason.match(...)` (the
capture) and `rawReason.replace(..., "")` (the prefix — the match always
extends to the end anchor). -/
def findTagSplit : List Char → Option (List Char × List Char)
  | [] => none
  | c :: rest =>
    match matchTagAt (c :: rest) with
    | some cap => some ([], cap)
    | none => (findTagSplit rest).map fun p => (c :: p.1, p.2)

/-- `ParsedAttributedReason` (identity as the decoded payload). -/
structure ParsedAttributedReason where
  reasonText : String
  identity : Option EncodedIdentityV1
  deriving Repr, DecidableEq

/-- The decode chain of the captured tag: base64url bytes, UTF-8 text,
JSON payload (a failure at any stage is the `catch` fallback). -/
def decodeIdentityTag (enc : List Char) : Option EncodedIdentityV1 :=
  (base64urlDecode enc).bind fun bytes =>
    (utf8Decode bytes).bind fun chars => parsePayload chars

/-- The tail of `parseAttributedReason` once the tag pattern matched:
the `!encoded` re-check, the decode chain with its `catch`, the
`v`/`method` validation, and the assembly of the parsed result with the
re-normalized fields and the stripped (or defaulted) reason text. -/
def finishParse (rawReason : String) (pm : List Char × List Char) :
    ParsedAttributedReason :=
  if pm.2.isEmpty then { reasonText := rawReason, identity := none }
  else
    match decodeIdentityTag pm.2 with
    | none => { reasonText := rawReason, identity := none }
    | some parsed =>
      if parsed.v == 1 && (parsed.method == ("manual") || parsed.method == ("email")
          || parsed.method == ("oauth")) then
        let reasonText := String.mk pm.1
        { reasonText := if reasonText == ("") then ("Ecological regeneration")
            else reasonText
        , identity := some ⟨1, parsed.method, normalize parsed.name,
            normalizeEmail parsed.email, normalize parsed.provider,
            normalize parsed.subject⟩ }
      else { reasonText := rawReason, identity := none }

/-- `parseAttributedReason`. -/
def parseAttributedReason (reason : Option String) : ParsedAttributedReason :=
  let rawReason := match normalize reason with
    | some r => r
    | none => ("Ecological regeneration")
  match findTagSplit rawReason.data with
  | none => { reasonText := rawReason, identity := none }
  | some pm => finishParse rawReason pm

end Identity

namespace Identity

theorem skipWs_allWs (w y : List Char) (hw : ∀ c ∈ w, JsStr.isWsChar c = true) :
    skipWs (w ++ y) = skipWs y := by
  induction w with
  | nil => rfl
  | cons c rest ih =>
    rw [List.cons_append, skipWs, if_pos (hw c (by simp))]
    exact ih (fun d hd => hw d (by simp [hd]))

theorem skipWs_nonWs (c : Char) (y : List Char) (hc : JsStr.isWsChar c = false) :
    skipWs (c :: y) = c :: y := by
  rw [skipWs, if_neg (by simp [hc])]

theorem skipWs_decomp : ∀ (s : List Char), ∃ w, s = w ++ skipWs s ∧
    (∀ c ∈ w, JsStr.isWsChar c = true) := by
  intro s
  induction s with
  | nil => exact ⟨[], rfl, by simp⟩
  | cons c rest ih =>
    by_cases hc : JsStr.isWsChar c = true
    · obtain ⟨w, h1, h2⟩ := ih
      refine ⟨c :: w, ?_, ?_⟩
      · rw [skipWs, if_pos hc, List.cons_append, ← h1]
      · intro d hd
        rcases List.mem_cons.mp hd with h | h
        · subst h; exact hc
        · exact h2 d h
    · refine ⟨[], ?_, by simp⟩
      rw [skipWs, if_neg hc, List.nil_append]

theorem skipWs_allWs_nil (w : List Char) (hw : ∀ c ∈ w, JsStr.isWsChar c = true) :
    skipWs w = [] := by
  have h := skipWs_allWs w [] hw
  simpa using h

theorem skipWs_eq_nil : ∀ (s : List Char), skipWs s = [] →
    ∀ c ∈ s, JsStr.isWsChar c = true := by
  intro s
  induction s with
  | nil => intro _ c hc; cases hc
  | cons c rest ih =>
    intro h d hd
    rw [skipWs] at h
    by_cases hc : JsStr.isWsChar c = true
    · rw [if_pos hc] at h
      rcases List.mem_cons.mp hd with h2 | h2
      · subst h2; exact hc
      · exact ih h d h2
    · rw [if_neg hc] at h
      cases h

theorem takeB64Run_append (run : List Char) (d : Char) (t : List Char)
    (hrun : ∀ c ∈ run, isB64UrlChar c = true) (hd : isB64UrlChar d = false) :
    takeB64Run (run ++ d :: t) = (run, d :: t) := by
  induction run with
  | nil =>
    rw [List.nil_append, takeB64Run, if_neg (by simp [hd])]
  | cons c rest ih =>
    rw [List.cons_append, takeB64Run, if_pos (hrun c (by simp)),
      ih (fun e he => hrun e (by simp [he]))]

theorem takeB64Run_decomp : ∀ (s : List Char),
    s = (takeB64Run s).1 ++ (takeB64Run s).2 ∧
    (∀ c ∈ (takeB64Run s).1, isB64UrlChar c = true) := by
  intro s
  induction s with
  | nil => exact ⟨rfl, by simp [takeB64Run]⟩
  | cons c rest ih =>
    by_cases hc : isB64UrlChar c = true
    · rw [takeB64Run, if_pos hc]
      refine ⟨?_, ?_⟩
      · dsimp only
        rw [List.cons_append, ← ih.1]
      · intro d hd
        dsimp only at hd
        rcases List.mem_cons.mp hd with h | h
        · subst h; exact hc
        · exact ih.2 d h
    · rw [takeB64Run, if_neg hc]
      exact ⟨rfl, by simp⟩

theorem stripPrefixChars_sound : ∀ (p s r : List Char),
    stripPrefixChars p s = some r → s = p ++ r := by
  intro p
  induction p with
  | nil =>
    intro s r h
    injection h with h
  | cons c ps ih =>
    intro s r h
    cases s with
    | nil => cases h
    | cons d t =>
      rw [stripPrefixChars] at h
      by_cases hcd : (c == d) = true
      · rw [if_pos hcd] at h
        rw [List.cons_append, ← ih t r h, show c = d from beq_iff_eq.mp hcd]
      · rw [if_neg hcd] at h
        cases h

end Identity

namespace Identity

theorem matchTagAt_some (s cap : List Char) (h : matchTagAt s = some cap) :
    ∃ w r2, s = w ++ (("[identity:").data ++ (cap ++ ((']') :: r2))) ∧
      (∀ c ∈ w, JsStr.isWsChar c = true) ∧ cap ≠ [] ∧
      (∀ c ∈ cap, isB64UrlChar c = true) ∧ (∀ c ∈ r2, JsStr.isWsChar c = true) := by
  rw [matchTagAt] at h
  cases hstrip : stripPrefixChars (("[identity:").data) (skipWs s) with
  | none => rw [hstrip] at h; cases h
  | some s2 =>
    rw [hstrip] at h
    dsimp only at h
    by_cases hemp : (takeB64Run s2).1.isEmpty = true
    · rw [if_pos hemp] at h; cases h
    rw [if_neg hemp] at h
    cases hrest : (takeB64Run s2).2 with
    | nil => rw [hrest] at h; cases h
    | cons d s4 =>
      rw [hrest] at h
      dsimp only at h
      by_cases hcond : (d == (']') && (skipWs s4).isEmpty) = true
      · rw [if_pos hcond] at h
        injection h with hcap
        have hd : d = (']') := by
          have h2 := hcond
          simp at h2
          exact h2.1
        have hws4 : (skipWs s4).isEmpty = true := by
          have h2 := hcond
          simp at h2
          rw [h2.2]
          rfl
        obtain ⟨w, hw1, hw2⟩ := skipWs_decomp s
        obtain ⟨ht1, ht2⟩ := takeB64Run_decomp s2
        refine ⟨w, s4, ?_, hw2, ?_, ?_, ?_⟩
        · rw [hw1, stripPrefixChars_sound _ _ _ hstrip, ht1, hrest, hcap, hd]
        · rw [← hcap]
          intro hnil
          rw [hnil] at hemp
          exact hemp rfl
        · rw [← hcap]
          exact ht2
        · intro c hc
          exact skipWs_eq_nil s4 (List.isEmpty_iff.mp hws4) c hc
      · rw [if_neg hcond] at h
        cases h

theorem matchTagAt_build (w cap : List Char)
    (hw : ∀ c ∈ w, JsStr.isWsChar c = true) (hne : cap ≠ [])
    (hcap : ∀ c ∈ cap, isB64UrlChar c = true) :
    matchTagAt (w ++ (("[identity:").data ++ (cap ++ [(']')]))) = some cap := by
  rw [matchTagAt]
  rw [skipWs_allWs w _ hw]
  rw [show (("[identity:").data ++ (cap ++ [(']')])) =
    ('[') :: (("identity:").data ++ (cap ++ [(']')])) from rfl]
  rw [skipWs_nonWs ('[') _ (by decide)]
  rw [show ('[') :: (("identity:").data ++ (cap ++ [(']')])) =
    ("[identity:").data ++ (cap ++ [(']')]) from rfl]
  rw [stripPrefixChars_append]
  dsimp only
  rw [show (cap ++ [(']')]) = cap ++ ((']') :: []) from rfl]
  rw [takeB64Run_append cap (']') [] hcap (by decide)]
  rw [if_neg (by simp [hne])]
  rfl

theorem b64_block_cancel : ∀ (rc re ra rb : List Char),
    rc ++ ra = re ++ rb →
    (∀ c ∈ rc, isB64UrlChar c = true) → (∀ c ∈ re, isB64UrlChar c = true) →
    ra.head? = some ((':')) → rb.head? = some ((':')) →
    rc = re := by
  intro rc
  induction rc with
  | nil =>
    intro re ra rb heq hrc hre hra hrb
    cases re with
    | nil => rfl
    | cons e re2 =>
      exfalso
      rw [List.nil_append] at heq
      have : ra.head? = some e := by rw [heq]; rfl
      rw [hra] at this
      injection this with this
      have he := hre e (by simp)
      rw [← this] at he
      simp [isB64UrlChar] at he
  | cons c rc2 ih =>
    intro re ra rb heq hrc hre hra hrb
    cases re with
    | nil =>
      exfalso
      rw [List.nil_append] at heq
      have : rb.head? = some c := by rw [← heq]; rfl
      rw [hrb] at this
      injection this with this
      have hc := hrc c (by simp)
      rw [← this] at hc
      simp [isB64UrlChar] at hc
    | cons e re2 =>
      rw [List.cons_append, List.cons_append] at heq
      injection heq with h1 h2
      rw [h1, ih re2 ra rb h2 (fun x hx => hrc x (by simp [hx]))
        (fun x hx => hre x (by simp [hx])) hra hrb]

end Identity

namespace Identity

theorem matchTagAt_append_none (x enc : List Char) (hx : x ≠ [])
    (hlast : JsStr.isWsChar (x.getLast hx) = false)
    (henc : ∀ c ∈ enc, isB64UrlChar c = true) :
    matchTagAt (x ++ ((' ') :: (("[identity:").data ++ (enc ++ [(']')])))) = none := by
  cases hmatch : matchTagAt (x ++ ((' ') :: (("[identity:").data ++ (enc ++ [(']')])))) with
  | none => rfl
  | some cap =>
    exfalso
    obtain ⟨w, r2, heq, hw, hcapne, hcap, hr2⟩ := matchTagAt_some _ _ hmatch
    have hshape : x ++ ((' ') :: (("[identity:").data ++ (enc ++ [(']')]))) =
        (x ++ ((' ') :: (("[identity:").data ++ enc))) ++ [(']')] := by
      simp
    have hr2nil : r2 = [] := by
      cases hr2c : r2 with
      | nil => rfl
      | cons a r3 =>
        exfalso
        subst hr2c
        have h1 : (x ++ ((' ') :: (("[identity:").data ++ (enc ++ [(']')])))).getLast? =
            some ((']')) := by
          rw [hshape, List.getLast?_concat]
        rw [heq] at h1
        have h2 : (w ++ (("[identity:").data ++ (cap ++ ((']') :: a :: r3)))).getLast? =
            (a :: r3).getLast? := by
          rw [List.getLast?_append_of_ne_nil _ (by simp),
            List.getLast?_append_of_ne_nil _ (by simp),
            List.getLast?_append_of_ne_nil _ (by simp)]
          rw [show ((']') :: a :: r3) = [(']')] ++ (a :: r3) from rfl,
            List.getLast?_append_of_ne_nil _ (by simp)]
        rw [h2, List.getLast?_eq_getLast _ (by simp)] at h1
        injection h1 with h1
        have h3 := hr2 ((a :: r3).getLast (by simp)) (List.getLast_mem _)
        have h4 : JsStr.isWsChar ((']')) = true := by
          rw [← h1]
          exact h3
        simp [JsStr.isWsChar] at h4
    subst hr2nil
    have heq2 : (w ++ (("[identity:").data ++ cap)) ++ [(']')] =
        (x ++ ((' ') :: (("[identity:").data ++ enc))) ++ [(']')] := by
      rw [← hshape, heq]
      simp
    have heq3 : w ++ (("[identity:").data ++ cap) =
        x ++ ((' ') :: (("[identity:").data ++ enc)) :=
      (List.append_inj' heq2 rfl).1
    have hcapenc : cap.reverse = enc.reverse := by
      apply b64_block_cancel cap.reverse enc.reverse
        ((("[identity:").data).reverse ++ w.reverse)
        ((("[identity:").data).reverse ++ ((' ') :: x.reverse))
      · have := congrArg List.reverse heq3
        simpa using this
      · intro c hc
        exact hcap c (List.mem_reverse.mp hc)
      · intro c hc
        exact henc c (List.mem_reverse.mp hc)
      · rfl
      · rfl
    have hcapenc2 : cap = enc := by
      have := congrArg List.reverse hcapenc
      simpa using this
    subst hcapenc2
    have heq4 : w ++ (("[identity:").data ++ cap) =
        (x ++ [(' ')]) ++ (("[identity:").data ++ cap) := by
      rw [heq3]
      simp
    have hw_eq : w = x ++ [(' ')] := (List.append_inj' heq4 rfl).1
    have hmem : x.getLast hx ∈ w := by
      rw [hw_eq]
      exact List.mem_append.mpr (Or.inl (List.getLast_mem hx))
    have := hw _ hmem
    rw [hlast] at this
    cases this

theorem findTagSplit_append : ∀ (base enc : List Char) (hb : base ≠ []),
    JsStr.isWsChar (base.getLast hb) = false → enc ≠ [] →
    (∀ c ∈ enc, isB64UrlChar c = true) →
    findTagSplit (base ++ ((' ') :: (("[identity:").data ++ (enc ++ [(']')])))) =
      some (base, enc) := by
  intro base
  induction base with
  | nil => intro enc hb _ _ _; exact absurd rfl hb
  | cons c rest ih =>
    intro enc hb hlast hence hencb
    have hnone := matchTagAt_append_none (c :: rest) enc (by simp) hlast hencb
    rw [show findTagSplit ((c :: rest) ++
        ((' ') :: (("[identity:").data ++ (enc ++ [(']')])))) =
      (match matchTagAt ((c :: rest) ++
          ((' ') :: (("[identity:").data ++ (enc ++ [(']')])))) with
       | some cap => some (([] : List Char), cap)
       | none => (findTagSplit (rest ++
           ((' ') :: (("[identity:").data ++ (enc ++ [(']')]))))).map
           fun p => (c :: p.1, p.2)) from rfl]
    rw [hnone]
    show (findTagSplit (rest ++ ((' ') :: (("[identity:").data ++ (enc ++ [(']')]))))).map
      (fun p => (c :: p.1, p.2)) = some (c :: rest, enc)
    cases hrest : rest with
    | nil =>
      rw [List.nil_append]
      rw [show findTagSplit ((' ') :: (("[identity:").data ++ (enc ++ [(']')]))) =
        (match matchTagAt ((' ') :: (("[identity:").data ++ (enc ++ [(']')]))) with
         | some cap => some (([] : List Char), cap)
         | none => (findTagSplit (("[identity:").data ++ (enc ++ [(']')]))).map
             fun p => ((' ') :: p.1, p.2)) from rfl]
      rw [show ((' ') :: (("[identity:").data ++ (enc ++ [(']')]))) =
        [(' ')] ++ (("[identity:").data ++ (enc ++ [(']')])) from rfl]
      rw [matchTagAt_build [(' ')] enc (by decide) hence hencb]
      rfl
    | cons d rest2 =>
      have hrne : rest ≠ [] := by rw [hrest]; simp
      have hlast3 : JsStr.isWsChar (rest.getLast hrne) = false := by
        have h5 : (c :: rest).getLast hb = rest.getLast hrne := List.getLast_cons hrne
        rw [← h5]
        exact hlast
      rw [← hrest]
      rw [ih enc hrne hlast3 hence hencb]
      rfl

end Identity

namespace Identity

theorem b64Char_isB64_fin : ∀ w : Fin 64, isB64UrlChar (b64Char w.val) = true := by
  decide

theorem b64Char_isB64 (v : Nat) : isB64UrlChar (b64Char v) = true := by
  by_cases h : v < 64
  · exact b64Char_isB64_fin ⟨v, h⟩
  · rw [b64Char, List.getD_eq_default _ _ (by
      rw [show b64Alphabet.length = 64 from rfl]
      omega)]
    rfl

theorem base64urlEncode_isB64 : ∀ (l : List Nat), ∀ c ∈ base64urlEncode l,
    isB64UrlChar c = true
  | [] => by intro c hc; cases hc
  | [b1] => by
    intro c hc
    rw [base64urlEncode] at hc
    rcases List.mem_cons.mp hc with h | h
    · rw [h]; exact b64Char_isB64 _
    rcases List.mem_cons.mp h with h2 | h2
    · rw [h2]; exact b64Char_isB64 _
    cases h2
  | [b1, b2] => by
    intro c hc
    rw [base64urlEncode] at hc
    rcases List.mem_cons.mp hc with h | h
    · rw [h]; exact b64Char_isB64 _
    rcases List.mem_cons.mp h with h2 | h2
    · rw [h2]; exact b64Char_isB64 _
    rcases List.mem_cons.mp h2 with h3 | h3
    · rw [h3]; exact b64Char_isB64 _
    cases h3
  | b1 :: b2 :: b3 :: rest => by
    intro c hc
    rw [base64urlEncode] at hc
    rcases List.mem_cons.mp hc with h | h
    · rw [h]; exact b64Char_isB64 _
    rcases List.mem_cons.mp h with h2 | h2
    · rw [h2]; exact b64Char_isB64 _
    rcases List.mem_cons.mp h2 with h3 | h3
    · rw [h3]; exact b64Char_isB64 _
    rcases List.mem_cons.mp h3 with h4 | h4
    · rw [h4]; exact b64Char_isB64 _
    exact base64urlEncode_isB64 rest c h4

theorem base64urlEncode_ne_nil : ∀ (l : List Nat), l ≠ [] → base64urlEncode l ≠ []
  | [], h => absurd rfl h
  | [b1], _ => by rw [base64urlEncode]; simp
  | [b1, b2], _ => by rw [base64urlEncode]; simp
  | b1 :: b2 :: b3 :: rest, _ => by rw [base64urlEncode]; simp

theorem utf8EncodeChar_ne_nil (c : Char) : utf8EncodeChar c ≠ [] := by
  rw [utf8EncodeChar]
  repeat' split
  all_goals simp

theorem utf8Encode_ne_nil (s : List Char) (h : s ≠ []) : utf8Encode s ≠ [] := by
  cases s with
  | nil => exact absurd rfl h
  | cons c rest =>
    rw [utf8Encode, List.map_cons, List.flatten_cons]
    intro hx
    exact utf8EncodeChar_ne_nil c (List.append_eq_nil.mp hx).1

theorem dropWhile_length_le (p : Char → Bool) (l : List Char) :
    (l.dropWhile p).length ≤ l.length := by
  induction l with
  | nil => simp
  | cons c rest ih =>
    rw [List.dropWhile_cons]
    split
    · simp
      omega
    · simp

theorem dropWhile_eq_self_of_length (p : Char → Bool) (l : List Char)
    (h : l.length ≤ (l.dropWhile p).length) : l.dropWhile p = l := by
  cases l with
  | nil => rfl
  | cons c rest =>
    rw [List.dropWhile_cons]
    rw [List.dropWhile_cons] at h
    by_cases hc : p c = true
    · rw [if_pos hc] at h ⊢
      have := dropWhile_length_le p rest
      simp at h
      omega
    · rw [if_neg hc]

/-- A nonempty string fixed by `jsTrim` has a non-whitespace first and
last character. -/
theorem jsTrim_fix (d : List Char) (_hne : d ≠ [])
    (hfix : ((d.dropWhile JsStr.isWsChar).reverse.dropWhile
      JsStr.isWsChar).reverse = d) :
    d.dropWhile JsStr.isWsChar = d ∧
      d.reverse.dropWhile JsStr.isWsChar = d.reverse := by
  have hlen : d.length ≤ (d.dropWhile JsStr.isWsChar).length := by
    have h1 := congrArg List.length hfix
    rw [List.length_reverse] at h1
    have h2 := dropWhile_length_le JsStr.isWsChar
      (d.dropWhile JsStr.isWsChar).reverse
    rw [List.length_reverse] at h2
    omega
  have hfirst : d.dropWhile JsStr.isWsChar = d :=
    dropWhile_eq_self_of_length _ _ hlen
  refine ⟨hfirst, ?_⟩
  rw [hfirst] at hfix
  have h3 := congrArg List.reverse hfix
  rw [List.reverse_reverse] at h3
  exact h3

end Identity

namespace Identity

/-- All the pieces of the round trip, assembled: appending and then
parsing recovers the trimmed reason and the exact identity fields. -/
theorem roundTrip_main (baseReason : String) (identity : IdentityAttribution)
    (hbase1 : baseReason.data ≠ [])
    (hbase2 : JsStr.jsTrim baseReason = baseReason)
    (hmethod : identity.authMethod = ("manual") ∨ identity.authMethod = ("email") ∨
      identity.authMethod = ("oauth"))
    (hname : ∀ n, identity.beneficiaryName = some n → normalize (some n) = some n)
    (hemail : ∀ e, identity.beneficiaryEmail = some e →
      normalizeEmail (some e) = some e)
    (hprov : ∀ p, identity.authProvider = some p → normalize (some p) = some p)
    (hsubj : ∀ q, identity.authSubject = some q → normalize (some q) = some q) :
    parseAttributedReason (some (appendIdentityToReason baseReason identity)) =
      { reasonText := baseReason
      , identity := some ⟨1, identity.authMethod, identity.beneficiaryName,
          identity.beneficiaryEmail, identity.authProvider, identity.authSubject⟩ } := by
  have hmne : (identity.authMethod == ("none")) = false := by
    rcases hmethod with h | h | h <;> rw [h] <;> rfl
  have hoptname : optTruthy identity.beneficiaryName = identity.beneficiaryName := by
    cases hn : identity.beneficiaryName with
    | none => rfl
    | some n =>
      have hn2 := hname n hn
      have hfal : JsStr.strFalsy (some n) = false := by
        simp [JsStr.strFalsy]
        intro hns
        rw [hns] at hn2
        simp [normalize, JsStr.strFalsy] at hn2
      rw [optTruthy, if_neg (by simp [hfal])]
  have hoptemail : optTruthy identity.beneficiaryEmail = identity.beneficiaryEmail := by
    cases hn : identity.beneficiaryEmail with
    | none => rfl
    | some e =>
      have hn2 := hemail e hn
      have hfal : JsStr.strFalsy (some e) = false := by
        simp [JsStr.strFalsy]
        intro hns
        rw [hns] at hn2
        simp [normalizeEmail, normalize, JsStr.strFalsy] at hn2
      rw [optTruthy, if_neg (by simp [hfal])]
  have hoptprov : optTruthy identity.authProvider = identity.authProvider := by
    cases hn : identity.authProvider with
    | none => rfl
    | some p =>
      have hn2 := hprov p hn
      have hfal : JsStr.strFalsy (some p) = false := by
        simp [JsStr.strFalsy]
        intro hns
        rw [hns] at hn2
        simp [normalize, JsStr.strFalsy] at hn2
      rw [optTruthy, if_neg (by simp [hfal])]
  have hoptsubj : optTruthy identity.authSubject = identity.authSubject := by
    cases hn : identity.authSubject with
    | none => rfl
    | some q =>
      have hn2 := hsubj q hn
      have hfal : JsStr.strFalsy (some q) = false := by
        simp [JsStr.strFalsy]
        intro hns
        rw [hns] at hn2
        simp [normalize, JsStr.strFalsy] at hn2
      rw [optTruthy, if_neg (by simp [hfal])]
  have happ : appendIdentityToReason baseReason identity =
      String.mk (baseReason.data ++ ((' ') :: ((("[identity:").data) ++
        (base64urlEncode (utf8Encode (jsonStringifyPayload identity.authMethod
          identity.beneficiaryName identity.beneficiaryEmail identity.authProvider
          identity.authSubject)) ++ [(']')])))) := by
    rw [appendIdentityToReason, if_neg (by simp [hmne])]
    show String.mk (baseReason.data ++ ((' ') :: ((("[identity:").data) ++
      (base64urlEncode (utf8Encode (jsonStringifyPayload identity.authMethod
        (optTruthy identity.beneficiaryName) (optTruthy identity.beneficiaryEmail)
        (optTruthy identity.authProvider) (optTruthy identity.authSubject))) ++
        [(']')])))) = _
    rw [hoptname, hoptemail, hoptprov, hoptsubj]
  have hhead : ∀ c rest2, baseReason.data = c :: rest2 → JsStr.isWsChar c = false := by
    have hdfix : ((baseReason.data.dropWhile JsStr.isWsChar).reverse.dropWhile
        JsStr.isWsChar).reverse = baseReason.data := congrArg String.data hbase2
    obtain ⟨hfirst, _⟩ := jsTrim_fix baseReason.data hbase1 hdfix
    intro c rest2 hh
    rw [hh, List.dropWhile_cons] at hfirst
    by_cases hc : JsStr.isWsChar c = true
    · rw [if_pos hc] at hfirst
      have h1 := congrArg List.length hfirst
      have h2 := dropWhile_length_le JsStr.isWsChar rest2
      simp at h1
      omega
    · simpa using hc
  have hglast : JsStr.isWsChar (baseReason.data.getLast hbase1) = false := by
    have hdfix : ((baseReason.data.dropWhile JsStr.isWsChar).reverse.dropWhile
        JsStr.isWsChar).reverse = baseReason.data := congrArg String.data hbase2
    obtain ⟨_, hlastfix⟩ := jsTrim_fix baseReason.data hbase1 hdfix
    cases hr : baseReason.data.reverse with
    | nil => exact absurd hr (by simp [hbase1])
    | cons c rrest =>
      have hcws : JsStr.isWsChar c = false := by
        rw [hr, List.dropWhile_cons] at hlastfix
        by_cases hc : JsStr.isWsChar c = true
        · rw [if_pos hc] at hlastfix
          have h1 := congrArg List.length hlastfix
          have h2 := dropWhile_length_le JsStr.isWsChar rrest
          simp at h1
          omega
        · simpa using hc
      have hsome : baseReason.data.getLast? = some c := by
        rw [← List.head?_reverse, hr]
        rfl
      rw [List.getLast?_eq_getLast _ hbase1] at hsome
      injection hsome with hsome
      rw [hsome]
      exact hcws
  set json := jsonStringifyPayload identity.authMethod identity.beneficiaryName
    identity.beneficiaryEmail identity.authProvider identity.authSubject with hjson
  set encL := base64urlEncode (utf8Encode json) with hencLdef
  have hjson_ne : json ≠ [] := by
    rw [hjson, jsonStringifyPayload]
    simp
  have henc_ne : encL ≠ [] :=
    base64urlEncode_ne_nil _ (utf8Encode_ne_nil _ hjson_ne)
  have henc_b64 : ∀ c ∈ encL, isB64UrlChar c = true := base64urlEncode_isB64 _
  have hfront : (baseReason.data ++ ((' ') :: ((("[identity:").data) ++
      (encL ++ [(']')])))).dropWhile JsStr.isWsChar =
      baseReason.data ++ ((' ') :: ((("[identity:").data) ++ (encL ++ [(']')]))) := by
    cases hbd : baseReason.data with
    | nil => exact absurd hbd hbase1
    | cons c rest2 =>
      rw [List.cons_append, List.dropWhile_cons,
        if_neg (by simp [hhead c rest2 hbd])]
  have hback : (baseReason.data ++ ((' ') :: ((("[identity:").data) ++
      (encL ++ [(']')])))).reverse.dropWhile JsStr.isWsChar =
      (baseReason.data ++ ((' ') :: ((("[identity:").data) ++
        (encL ++ [(']')])))).reverse := by
    rw [show baseReason.data ++ ((' ') :: ((("[identity:").data) ++
        (encL ++ [(']')]))) =
      (baseReason.data ++ ((' ') :: ((("[identity:").data) ++ encL))) ++ [(']')]
      from by simp]
    rw [List.reverse_append, show ([(']')] : List Char).reverse = [(']')] from rfl,
      List.singleton_append, List.dropWhile_cons, if_neg (by decide)]
  have hT : JsStr.jsTrim (String.mk (baseReason.data ++ ((' ') ::
      ((("[identity:").data) ++ (encL ++ [(']')]))))) =
      String.mk (baseReason.data ++ ((' ') :: ((("[identity:").data) ++
        (encL ++ [(']')])))) := by
    rw [JsStr.jsTrim]
    rw [show (String.mk (baseReason.data ++ ((' ') :: ((("[identity:").data) ++
      (encL ++ [(']')]))))).data = baseReason.data ++ ((' ') ::
      ((("[identity:").data) ++ (encL ++ [(']')]))) from rfl]
    rw [hfront, hback, List.reverse_reverse]
  have hLne : baseReason.data ++ ((' ') :: ((("[identity:").data) ++
      (encL ++ [(']')]))) ≠ [] := by
    intro h
    exact absurd (List.append_eq_nil.mp h).2 (by simp)
  have happne : (String.mk (baseReason.data ++ ((' ') :: ((("[identity:").data) ++
      (encL ++ [(']')])))) == ("")) = false := by
    apply beq_eq_false_iff_ne.mpr
    intro heq
    exact hLne (congrArg String.data heq)
  have hnorm : normalize (some (String.mk (baseReason.data ++ ((' ') ::
      ((("[identity:").data) ++ (encL ++ [(']')])))))) =
      some (String.mk (baseReason.data ++ ((' ') :: ((("[identity:").data) ++
        (encL ++ [(']')]))))) := by
    rw [normalize, if_neg (by
      intro hfal
      rw [JsStr.strFalsy] at hfal
      simp at hfal
      exact hLne (congrArg String.data hfal))]
    show (if 0 < (JsStr.jsTrim ((some (String.mk (baseReason.data ++ ((' ') ::
        ((("[identity:").data) ++ (encL ++ [(']')])))))).getD (""))).length then
        some (JsStr.jsTrim ((some (String.mk (baseReason.data ++ ((' ') ::
          ((("[identity:").data) ++ (encL ++ [(']')])))))).getD ("")))
      else none) = _
    rw [show (some (String.mk (baseReason.data ++ ((' ') :: ((("[identity:").data) ++
      (encL ++ [(']')])))))).getD ("") = String.mk (baseReason.data ++ ((' ') ::
      ((("[identity:").data) ++ (encL ++ [(']')])))) from rfl]
    rw [hT]
    rw [if_pos (by
      show 0 < (baseReason.data ++ ((' ') :: ((("[identity:").data) ++
        (encL ++ [(']')])))).length
      exact List.length_pos.mpr hLne)]
  have hdec : decodeIdentityTag encL = some ⟨1, identity.authMethod,
      identity.beneficiaryName, identity.beneficiaryEmail, identity.authProvider,
      identity.authSubject⟩ := by
    rw [decodeIdentityTag, hencLdef,
      base64url_roundTrip _ (utf8Encode_lt _), Option.some_bind, utf8_roundTrip,
      Option.some_bind, hjson, parsePayload_roundTrip]
  have hcond : ((1 : Nat) == 1 && (identity.authMethod == ("manual") ||
      identity.authMethod == ("email") || identity.authMethod == ("oauth"))) = true := by
    rcases hmethod with h | h | h <;> rw [h] <;> rfl
  have hbne : (String.mk baseReason.data == ("")) = false := by
    apply beq_eq_false_iff_ne.mpr
    intro heq
    exact hbase1 (congrArg String.data heq)
  have hnn : normalize identity.beneficiaryName = identity.beneficiaryName := by
    cases hn : identity.beneficiaryName with
    | none => rfl
    | some n => exact hname n hn
  have hne2 : normalizeEmail identity.beneficiaryEmail = identity.beneficiaryEmail := by
    cases hn : identity.beneficiaryEmail with
    | none => rfl
    | some e => exact hemail e hn
  have hnp : normalize identity.authProvider = identity.authProvider := by
    cases hn : identity.authProvider with
    | none => rfl
    | some p => exact hprov p hn
  have hns : normalize identity.authSubject = identity.authSubject := by
    cases hn : identity.authSubject with
    | none => rfl
    | some q => exact hsubj q hn
  rw [happ, parseAttributedReason]
  rw [hnorm]
  show (match findTagSplit (String.mk (baseReason.data ++ ((' ') ::
      ((("[identity:").data) ++ (encL ++ [(']')]))))).data with
    | none => ({ reasonText := String.mk (baseReason.data ++ ((' ') ::
        ((("[identity:").data) ++ (encL ++ [(']')])))), identity := none } :
        ParsedAttributedReason)
    | some pm => finishParse (String.mk (baseReason.data ++ ((' ') ::
        ((("[identity:").data) ++ (encL ++ [(']')]))))) pm) = _
  rw [show (String.mk (baseReason.data ++ ((' ') :: ((("[identity:").data) ++
    (encL ++ [(']')]))))).data = baseReason.data ++ ((' ') ::
    ((("[identity:").data) ++ (encL ++ [(']')]))) from rfl]
  rw [findTagSplit_append baseReason.data encL hbase1 hglast henc_ne henc_b64]
  show finishParse (String.mk (baseReason.data ++ ((' ') :: ((("[identity:").data) ++
    (encL ++ [(']')]))))) (baseReason.data, encL) = _
  rw [finishParse, if_neg (by
    show ¬((baseReason.data, encL).2.isEmpty = true)
    simp [List.isEmpty_iff]
    exact henc_ne)]
  rw [show ((baseReason.data, encL).2 : List Char) = encL from rfl, hdec]
  show (if (1 : Nat) == 1 && (identity.authMethod == ("manual") ||
      identity.authMethod == ("email") || identity.authMethod == ("oauth")) then
    ({ reasonText := if String.mk (baseReason.data, encL).1 == ("") then
        ("Ecological regeneration") else String.mk (baseReason.data, encL).1
     , identity := some ⟨1, identity.authMethod, normalize identity.beneficiaryName,
        normalizeEmail identity.beneficiaryEmail, normalize identity.authProvider,
        normalize identity.authSubject⟩ } : ParsedAttributedReason)
    else { reasonText := String.mk (baseReason.data ++ ((' ') ::
        ((("[identity:").data) ++ (encL ++ [(']')])))), identity := none }) = _
  rw [if_pos hcond]
  rw [show (String.mk ((baseReason.data, encL).1 : List Char)) =
    String.mk baseReason.data from rfl]
  rw [hbne]
  rw [hnn, hne2, hnp, hns]
  rfl

end Identity

/-- **C4** For every valid pair — a trimmed, nonempty reason string and
an identity whose `authMethod` is `manual`, `email` or `oauth` and whose
present fields are normalization fixpoints (trimmed nonempty, the email
additionally lowercase) — `parseAttributedReason` applied to
`appendIdentityToReason(reasonText, identity)` recovers exactly the
original reason text and an identity whose `method`, `name`, `email`,
`provider` and `subject` equal the fields that were appended. -/
theorem C4_identity_round_trip (baseReason : String)
    (identity : Identity.IdentityAttribution)
    (hbase1 : baseReason.data ≠ [])
    (hbase2 : JsStr.jsTrim baseReason = baseReason)
    (hmethod : identity.authMethod = ("manual") ∨ identity.authMethod = ("email") ∨
      identity.authMethod = ("oauth"))
    (hname : ∀ n, identity.beneficiaryName = some n →
      Identity.normalize (some n) = some n)
    (hemail : ∀ e, identity.beneficiaryEmail = some e →
      Identity.normalizeEmail (some e) = some e)
    (hprov : ∀ p, identity.authProvider = some p →
      Identity.normalize (some p) = some p)
    (hsubj : ∀ q, identity.authSubject = some q →
      Identity.normalize (some q) = some q) :
    Identity.parseAttributedReason
        (some (Identity.appendIdentityToReason baseReason identity)) =
      { reasonText := baseReason
      , identity := some ⟨1, identity.authMethod, identity.beneficiaryName,
          identity.beneficiaryEmail, identity.authProvider, identity.authSubject⟩ } :=
  Identity.roundTrip_main baseReason identity hbase1 hbase2 hmethod hname hemail
    hprov hsubj

/-- Witness for C4: a concrete oauth identity with all four fields
round-trips through the reason tag. -/
theorem C4_identity_round_trip_witness :
    Identity.parseAttributedReason
        (some (Identity.appendIdentityToReason ("Forest restoration")
          ⟨("oauth"), some ("Ada Lovelace"), some ("ada@example.com"),
            some ("github"), some ("12345")⟩)) =
      { reasonText := ("Forest restoration")
      , identity := some ⟨1, ("oauth"), some ("Ada Lovelace"),
          some ("ada@example.com"), some ("github"), some ("12345")⟩ } :=
  C4_identity_round_trip ("Forest restoration")
    ⟨("oauth"), some ("Ada Lovelace"), some ("ada@example.com"),
      some ("github"), some ("12345")⟩
    (by decide) (by decide) (Or.inr (Or.inr rfl))
    (fun n hn => by cases hn; decide)
    (fun e he => by cases he; decide)
    (fun p hp => by cases hp; decide)
    (fun q hq => by cases hq; decide)
